import Mathlib

/-!
Shallow embedding of the Minesweeper engine (`src/minesweeper.js`):
the `CellState` per-cell state machine and the `Board` class with mine
placement, adjacency counts, flood-fill opening, flagging and win/loss
detection.  JavaScript numbers holding board data are modelled as
`Nat`/`Int`; coordinates are `Int` because the engine's range checks must
see negative inputs; the two `Math.random`-driven shuffles and the random
cut point in `Board.#placeMines` are modelled as explicit parameters,
constrained to permutations in the theorems; `RangeError` throws and the
`TypeError` crash from indexing past the end of the candidate list are
modelled by the `JsOutcome` result type.
-/

namespace Minesweeper

/-! ### CellState (`class CellState`) -/

/-- `CellState.UNOPENED = "X"` -/
def UNOPENED : String := "X"

/-- `CellState.FLAGGED = "\x1b[33mF\x1b[0m"` -/
def FLAGGED : String := "\x1b[33mF\x1b[0m"

/-- `CellState.MINE = "\x1b[31mM\x1b[0m"` -/
def MINE : String := "\x1b[31mM\x1b[0m"

/-- `CellState.NO_ADJACENT = " "` -/
def NO_ADJACENT : String := " "

/-- `CellState.#formatAdjacent(CellState.ADJACENT, value)`: the template
`"\x1b[34m{0}\x1b[0m"` with the placeholder replaced by the count. -/
def formatAdjacent (n : Nat) : String := "\x1b[34m" ++ toString n ++ "\x1b[0m"

/-- The private fields of `class CellState`.  `adjacentMines` is stored as
`Nat` (the setter rejects negative values, so the stored value is always a
non-negative JS number); the setter itself takes an `Int`. -/
structure CellState where
  isMine : Bool
  isFlagged : Bool
  isOpened : Bool
  adjacentMines : Nat
  currentState : String
  defaultState : String
  deriving Repr, DecidableEq

/-- `new CellState()` -/
def CellState.init : CellState :=
  { isMine := false, isFlagged := false, isOpened := false, adjacentMines := 0,
    currentState := UNOPENED, defaultState := NO_ADJACENT }

/-- The `set isMine(value)` accessor: full re-initialisation. -/
def CellState.setIsMine (_s : CellState) (value : Bool) : CellState :=
  { isMine := value,
    defaultState := if value then MINE else NO_ADJACENT,
    currentState := UNOPENED,
    adjacentMines := 0,
    isOpened := false,
    isFlagged := false }

/-- The `set isFlagged(value)` accessor: no-op when opened. -/
def CellState.setIsFlagged (s : CellState) (value : Bool) : CellState :=
  if s.isOpened then s
  else { s with isFlagged := value,
                currentState := if value then FLAGGED else UNOPENED }

/-- The `set isOpened(value)` accessor. -/
def CellState.setIsOpened (s : CellState) (value : Bool) : CellState :=
  { s with isOpened := value,
           currentState := if value then s.defaultState else UNOPENED }

/-- The `set adjacentMines(value)` accessor: ignored on mines and for
negative values. -/
def CellState.setAdjacentMines (s : CellState) (value : Int) : CellState :=
  if s.isMine then s
  else if value < 0 then s
  else
    { s with adjacentMines := value.toNat,
             defaultState := if value > 0 then formatAdjacent value.toNat else NO_ADJACENT,
             currentState :=
               if s.isOpened then
                 (if value > 0 then formatAdjacent value.toNat else NO_ADJACENT)
               else s.currentState }

/-! ### Grid plumbing

The engine stores `Cell` objects carrying `(row, col, state)`, but the
`row`/`col` fields are never read by any `Board` logic, so the grid is
embedded as a `List (List CellState)` indexed `[row][col]`. -/

/-- In-place update of index `n` of a list (`array[n] = f array[n]`);
out-of-range indices leave the list unchanged, as they are never hit by the
engine's bounds-checked accesses. -/
def listModify {α : Type} (l : List α) (n : Nat) (f : α → α) : List α :=
  match l, n with
  | [], _ => []
  | a :: t, 0 => f a :: t
  | a :: t, Nat.succ m => a :: listModify t m f

/-- The private fields of `class Board`.  `flags` is `Int` (JS number
adjusted by ±1), `openedCells` is `Nat` (only ever incremented from 0).
Timestamps are abstract `Option Nat` ticks. -/
structure Board where
  rows : Nat
  cols : Nat
  mines : Nat
  cells : List (List CellState)
  minesList : List (Int × Int)
  flags : Int
  openedCells : Nat
  isGameOver : Bool
  isGameWon : Bool
  startTime : Option Nat
  endTime : Option Nat
  deriving Repr, DecidableEq

/-- The bounds test used by every public operation:
`row < 0 || row >= rows || col < 0 || col >= cols`, negated. -/
def Board.inB (b : Board) (r c : Int) : Bool :=
  decide (0 ≤ r) && decide (r < (b.rows : Int)) && decide (0 ≤ c) && decide (c < (b.cols : Int))

/-- `this.#_cells[row][col].state` (as an `Option`; every engine access is
behind a bounds check, where it is always `some`). -/
def Board.getCellState (b : Board) (r c : Int) : Option CellState :=
  if 0 ≤ r ∧ 0 ≤ c then
    ((b.cells.get? r.toNat).getD []).get? c.toNat
  else none

/-- Total view of `getCellState` used in specifications. -/
def Board.stateAt (b : Board) (r c : Int) : CellState :=
  (b.getCellState r c).getD CellState.init

/-- `this.#_cells[row][col].state = f(...)`. -/
def Board.updateCell (b : Board) (r c : Int) (f : CellState → CellState) : Board :=
  if 0 ≤ r ∧ 0 ≤ c then
    { b with cells := listModify b.cells r.toNat (fun row => listModify row c.toNat f) }
  else b

/-- `Board.#init()`: a fresh `rows × cols` grid of default cells. -/
def initGrid (rows cols : Nat) : List (List CellState) :=
  List.replicate rows (List.replicate cols CellState.init)

/-- `Board.reset()`. -/
def Board.reset (b : Board) : Board :=
  { b with cells := initGrid b.rows b.cols, minesList := [], flags := 0,
           openedCells := 0, isGameOver := false, isGameWon := false,
           startTime := none, endTime := none }

/-- `new Board(difficulty)`: store the configuration, then `reset()`. -/
def Board.new (rows cols mines : Nat) : Board :=
  Board.reset
    { rows := rows, cols := cols, mines := mines, cells := [], minesList := [],
      flags := 0, openedCells := 0, isGameOver := false, isGameWon := false,
      startTime := none, endTime := none }

/-- `Board.#_directions`: the 8 neighbour offsets, in source order. -/
def directions : List (Int × Int) :=
  [(-1, -1), (-1, 0), (-1, 1), (0, -1), (0, 1), (1, -1), (1, 0), (1, 1)]

/-- `Board.#getAdjacentCells(row, col)`. -/
def Board.getAdjacentCells (b : Board) (row col : Int) : List (Int × Int) :=
  directions.filterMap (fun d =>
    let newRow := row + d.1
    let newCol := col + d.2
    if 0 ≤ newRow ∧ newRow < (b.rows : Int) ∧ 0 ≤ newCol ∧ newCol < (b.cols : Int) then
      some (newRow, newCol)
    else none)

/-- The row-major enumeration `for row ... for col ...` of all grid
coordinates. -/
def allCells (rows cols : Nat) : List (Int × Int) :=
  (List.range rows).flatMap
    (fun r => (List.range cols).map (fun c => (Int.ofNat r, Int.ofNat c)))

/-- `Board.#buildCellsListWithoutMines(excludeCells)`: membership in the JS
string set `"row,col"` coincides with pair membership. -/
def Board.buildCellsListWithoutMines (b : Board) (excludeCells : List (Int × Int)) :
    List (Int × Int) :=
  (allCells b.rows b.cols).filter (fun p => ¬ p ∈ excludeCells)

/-- One mine assignment: `cell.state.isMine = true` plus
`minesList.push([row, col])`. -/
def Board.setMineAt (b : Board) (r c : Int) : Board :=
  let b' := b.updateCell r c (fun st => st.setIsMine true)
  { b' with minesList := b'.minesList ++ [(r, c)] }

/-- The placement loop `for (i = 0; i < mines; i++) { let [row,col] =
cellList[i]; ... }`.  Reading past the end of `cellList` destructures
`undefined` and throws a `TypeError`; likewise a position not backed by a
grid cell crashes at `this.#_cells[row][col].state` before anything is
pushed.  The Boolean result records that crash, together with the state
reached so far. -/
def placeMinesLoop (b : Board) (cellList : List (Int × Int)) (mines : Nat) :
    Board × Bool :=
  match mines, cellList with
  | 0, _ => (b, false)
  | Nat.succ _, [] => (b, true)
  | Nat.succ m, p :: rest =>
    match b.getCellState p.1 p.2 with
    | none => (b, true)
    | some _ => placeMinesLoop (b.setMineAt p.1 p.2) rest m

/-- `Board.#calculateAdjacentMines()`: for each mine, bump
`adjacentMines` on every in-bounds non-mine neighbour. -/
def Board.calculateAdjacentMines (b : Board) : Board :=
  b.minesList.foldl (fun acc p =>
    directions.foldl (fun acc2 d =>
      let newRow := p.1 + d.1
      let newCol := p.2 + d.2
      if 0 ≤ newRow ∧ newRow < (acc2.rows : Int) ∧ 0 ≤ newCol ∧ newCol < (acc2.cols : Int) then
        acc2.updateCell newRow newCol (fun st =>
          if st.isMine then st else st.setAdjacentMines ((st.adjacentMines : Int) + 1))
      else acc2) acc) b

/-- `Board.#placeMines(initialRow, initialCol)`.  `adjPerm` stands for the
shuffled copy of `getAdjacentCells`, `u` for `Math.floor(Math.random() *
adjacentCells.length)` (so the slice keeps `u + 1` neighbours), and
`candPerm` for the shuffled candidate list; theorems constrain `adjPerm`
and `candPerm` to be permutations of the lists the source shuffles. -/
def Board.placeMines (b : Board) (initialRow initialCol : Int)
    (adjPerm : List (Int × Int)) (u : Nat) (candPerm : List (Int × Int)) :
    Board × Bool :=
  let numberOfAdjacentCells := u + 1
  let sliced := adjPerm.take numberOfAdjacentCells
  let _excludeCells := (initialRow, initialCol) :: sliced
  let (b', crashed) := placeMinesLoop b candPerm b.mines
  if crashed then (b', true) else (b'.calculateAdjacentMines, false)

/-- Result type of the public operations: normal return, the explicit
`RangeError` throw, or the `TypeError` crash inside mine placement (which
leaves the board in the partially mutated state it carries). -/
inductive JsOutcome where
  | ok (b : Board)
  | rangeError
  | typeError (b : Board)
  deriving Repr, DecidableEq

/-- Whether the operation returned normally. -/
def JsOutcome.isOk : JsOutcome → Bool
  | .ok _ => true
  | _ => false

/-- Whether the operation crashed with a `TypeError`. -/
def JsOutcome.isTypeErr : JsOutcome → Bool
  | .typeError _ => true
  | _ => false

/-- `Board.startGame(row, col)`: bounds check, `reset()`, `#placeMines`,
record the start time.  The random data feeding `#placeMines` are the
`adjPerm`/`u`/`candPerm` parameters. -/
def Board.startGame (b : Board) (row col : Int)
    (adjPerm : List (Int × Int)) (u : Nat) (candPerm : List (Int × Int))
    (now : Nat) : JsOutcome :=
  if ¬ (b.inB row col) then .rangeError
  else
    let b1 := b.reset
    let pr := b1.placeMines row col adjPerm u candPerm
    if pr.2 then .typeError pr.1
    else .ok { pr.1 with startTime := some now }

/-- `Board.#openAllMines()`. -/
def Board.openAllMines (b : Board) : Board :=
  b.minesList.foldl (fun acc p => acc.updateCell p.1 p.2 (fun st => st.setIsOpened true)) b

/-- The win test `this.#_openedCells === (rows * cols) - mines`, in JS
integer arithmetic. -/
def Board.wonCheck (b : Board) : Bool :=
  decide ((b.openedCells : Int) = (b.rows : Int) * (b.cols : Int) - (b.mines : Int))

/-- Body of `Board.openCell(row, col)` (the public wrapper `Board.openCell`
below turns the bounds-check branch into a `RangeError`).  The JS recursion
through `#openAdjacentCells` is bounded here by a fuel argument decreasing
structurally; the wrapper passes `rows * cols + 1` fuel, which the
flood-fill lemmas show is never exhausted on a well-shaped board.  The
neighbour loop of `#openAdjacentCells` is inlined so that the recursion is
structural (`openAdjacentCells` below names it for the proofs). -/
def openCellGo : Nat → Board → Int → Int → Nat → Board
  | 0, b, _, _, _ => b
  | Nat.succ fuel, b, row, col, now =>
    if b.isGameOver || b.isGameWon then b
    else if ¬ (b.inB row col) then b
    else
      match b.getCellState row col with
      | none => b
      | some st =>
        if st.isOpened then b
        else if st.isMine then
          Board.openAllMines { b with isGameOver := true, endTime := some now }
        else
          let b1 := { (b.updateCell row col (fun s => s.setIsOpened true)) with
                      openedCells := b.openedCells + 1 }
          let b2 := if st.adjacentMines = 0 then
              (if ¬ (0 ≤ row ∧ row < (b1.rows : Int)) then b1
              else if ¬ (0 ≤ col ∧ col < (b1.cols : Int)) then b1
              else directions.foldl (fun acc d =>
                let newRow := row + d.1
                let newCol := col + d.2
                if ¬ (0 ≤ newRow ∧ newRow < (acc.rows : Int)) then acc
                else if ¬ (0 ≤ newCol ∧ newCol < (acc.cols : Int)) then acc
                else
                  match acc.getCellState newRow newCol with
                  | none => acc
                  | some st2 =>
                    if st2.isOpened || st2.isFlagged then acc
                    else if st2.isMine then acc
                    else openCellGo fuel acc newRow newCol now) b1)
            else b1
          if b2.wonCheck then { b2 with isGameWon := true } else b2

/-- `Board.#openAdjacentCells(row, col)`: visit the 8 neighbours in source
order, skipping out-of-bounds, opened, flagged and mined cells, and recurse
through `openCell` on the rest.  Named view of the loop inlined in
`openCellGo`. -/
def openAdjacentCells (fuel : Nat) (b : Board) (row col : Int) (now : Nat) : Board :=
  if ¬ (0 ≤ row ∧ row < (b.rows : Int)) then b
  else if ¬ (0 ≤ col ∧ col < (b.cols : Int)) then b
  else
    directions.foldl (fun acc d =>
      let newRow := row + d.1
      let newCol := col + d.2
      if ¬ (0 ≤ newRow ∧ newRow < (acc.rows : Int)) then acc
      else if ¬ (0 ≤ newCol ∧ newCol < (acc.cols : Int)) then acc
      else
        match acc.getCellState newRow newCol with
        | none => acc
        | some st =>
          if st.isOpened || st.isFlagged then acc
          else if st.isMine then acc
          else openCellGo fuel acc newRow newCol now) b

/-- `Board.openCell(row, col)`: terminal-state check first, then the bounds
check (throwing `RangeError`), then the recursive body. -/
def Board.openCell (b : Board) (row col : Int) (now : Nat) : JsOutcome :=
  if b.isGameOver || b.isGameWon then .ok b
  else if ¬ (b.inB row col) then .rangeError
  else .ok (openCellGo (b.rows * b.cols + 1) b row col now)

/-- `Board.toggleFlag(row, col)`: bounds check first (throwing
`RangeError`), then the terminal-state and opened-cell no-ops, then flip the
flag and adjust the counter by the new flag value. -/
def Board.toggleFlag (b : Board) (row col : Int) : JsOutcome :=
  if ¬ (b.inB row col) then .rangeError
  else if b.isGameOver || b.isGameWon then .ok b
  else
    match b.getCellState row col with
    | none => .ok b
    | some st =>
      if st.isOpened then .ok b
      else
        let newFlag := ! st.isFlagged
        let b' := b.updateCell row col (fun s => s.setIsFlagged newFlag)
        .ok { b' with flags := b.flags + (if newFlag then 1 else -1) }

/-! ### Derived counts and well-formedness -/

/-- Number of grid cells satisfying `p`. -/
def countGrid (p : CellState → Bool) (g : List (List CellState)) : Nat :=
  (g.map (fun row => (row.filter p).length)).sum

/-- Number of mined cells on the board. -/
def Board.countMines (b : Board) : Nat := countGrid (fun st => st.isMine) b.cells

/-- Number of opened cells on the board. -/
def Board.countOpened (b : Board) : Nat := countGrid (fun st => st.isOpened) b.cells

/-- Number of opened non-mine cells on the board. -/
def Board.countOpenedNonMine (b : Board) : Nat :=
  countGrid (fun st => st.isOpened && ! st.isMine) b.cells

/-- The grid is a `rows × cols` rectangle. -/
def Board.WfShape (b : Board) : Prop :=
  b.cells.length = b.rows ∧ ∀ row ∈ b.cells, row.length = b.cols

/-- Every `minesList` entry is in bounds and refers to a mined cell. -/
def Board.WfMines (b : Board) : Prop :=
  ∀ p ∈ b.minesList, b.inB p.1 p.2 = true ∧ (b.stateAt p.1 p.2).isMine = true

/-- The `openedCells` counter agrees with the number of opened non-mine
cells. -/
def Board.WfCounter (b : Board) : Prop :=
  b.openedCells = b.countOpenedNonMine

instance (b : Board) : Decidable b.WfShape := by
  unfold Board.WfShape; infer_instance

instance (b : Board) : Decidable b.WfMines := by
  unfold Board.WfMines; infer_instance

instance (b : Board) : Decidable b.WfCounter := by
  unfold Board.WfCounter; infer_instance

/-! ### Unfolding equations for the flood fill -/

/-- The loop body of `Board.#openAdjacentCells`, named for the proofs. -/
def adjStep (fuel now : Nat) (row col : Int) (acc : Board) (d : Int × Int) : Board :=
  let newRow := row + d.1
  let newCol := col + d.2
  if ¬ (0 ≤ newRow ∧ newRow < (acc.rows : Int)) then acc
  else if ¬ (0 ≤ newCol ∧ newCol < (acc.cols : Int)) then acc
  else
    match acc.getCellState newRow newCol with
    | none => acc
    | some st =>
      if st.isOpened || st.isFlagged then acc
      else if st.isMine then acc
      else openCellGo fuel acc newRow newCol now

theorem openCellGo_zero (b : Board) (r c : Int) (now : Nat) :
    openCellGo 0 b r c now = b := rfl

theorem openCellGo_succ (fuel : Nat) (b : Board) (row col : Int) (now : Nat) :
    openCellGo (fuel + 1) b row col now =
      (if b.isGameOver || b.isGameWon then b
      else if ¬ (b.inB row col) then b
      else
        match b.getCellState row col with
        | none => b
        | some st =>
          if st.isOpened then b
          else if st.isMine then
            Board.openAllMines { b with isGameOver := true, endTime := some now }
          else
            let b1 := { (b.updateCell row col (fun s => s.setIsOpened true)) with
                        openedCells := b.openedCells + 1 }
            let b2 := if st.adjacentMines = 0 then openAdjacentCells fuel b1 row col now else b1
            if b2.wonCheck then { b2 with isGameWon := true } else b2) := rfl

theorem openAdjacentCells_eq (fuel : Nat) (b : Board) (row col : Int) (now : Nat) :
    openAdjacentCells fuel b row col now =
      (if ¬ (0 ≤ row ∧ row < (b.rows : Int)) then b
      else if ¬ (0 ≤ col ∧ col < (b.cols : Int)) then b
      else directions.foldl (adjStep fuel now row col) b) := rfl

/-! ### Basic lemmas: list modification and grid access -/

theorem listModify_length {α : Type} (l : List α) (n : Nat) (f : α → α) :
    (listModify l n f).length = l.length := by
  induction l generalizing n with
  | nil => rfl
  | cons a t ih =>
    cases n with
    | zero => rfl
    | succ m => simp [listModify, ih]

theorem listModify_getElem? {α : Type} (l : List α) (n m : Nat) (f : α → α) :
    (listModify l n f)[m]? = if m = n then l[n]?.map f else l[m]? := by
  induction l generalizing n m with
  | nil => simp [listModify]
  | cons a t ih =>
    cases n with
    | zero =>
      cases m with
      | zero => simp [listModify]
      | succ k => simp [listModify]
    | succ n' =>
      cases m with
      | zero => simp [listModify]
      | succ k => simpa [listModify] using ih n' k

theorem listModify_get? {α : Type} (l : List α) (n m : Nat) (f : α → α) :
    (listModify l n f).get? m = if m = n then (l.get? n).map f else l.get? m := by
  simp only [List.get?_eq_getElem?]
  exact listModify_getElem? l n m f

@[simp] theorem updateCell_rows (b : Board) (r c : Int) (f : CellState → CellState) :
    (b.updateCell r c f).rows = b.rows := by
  unfold Board.updateCell; split <;> rfl

@[simp] theorem updateCell_cols (b : Board) (r c : Int) (f : CellState → CellState) :
    (b.updateCell r c f).cols = b.cols := by
  unfold Board.updateCell; split <;> rfl

@[simp] theorem updateCell_mines (b : Board) (r c : Int) (f : CellState → CellState) :
    (b.updateCell r c f).mines = b.mines := by
  unfold Board.updateCell; split <;> rfl

@[simp] theorem updateCell_flags (b : Board) (r c : Int) (f : CellState → CellState) :
    (b.updateCell r c f).flags = b.flags := by
  unfold Board.updateCell; split <;> rfl

@[simp] theorem updateCell_openedCells (b : Board) (r c : Int) (f : CellState → CellState) :
    (b.updateCell r c f).openedCells = b.openedCells := by
  unfold Board.updateCell; split <;> rfl

@[simp] theorem updateCell_isGameOver (b : Board) (r c : Int) (f : CellState → CellState) :
    (b.updateCell r c f).isGameOver = b.isGameOver := by
  unfold Board.updateCell; split <;> rfl

@[simp] theorem updateCell_isGameWon (b : Board) (r c : Int) (f : CellState → CellState) :
    (b.updateCell r c f).isGameWon = b.isGameWon := by
  unfold Board.updateCell; split <;> rfl

@[simp] theorem updateCell_minesList (b : Board) (r c : Int) (f : CellState → CellState) :
    (b.updateCell r c f).minesList = b.minesList := by
  unfold Board.updateCell; split <;> rfl

@[simp] theorem updateCell_startTime (b : Board) (r c : Int) (f : CellState → CellState) :
    (b.updateCell r c f).startTime = b.startTime := by
  unfold Board.updateCell; split <;> rfl

@[simp] theorem updateCell_endTime (b : Board) (r c : Int) (f : CellState → CellState) :
    (b.updateCell r c f).endTime = b.endTime := by
  unfold Board.updateCell; split <;> rfl

theorem getCellState_neg {b : Board} {r c : Int} (h : ¬ (0 ≤ r ∧ 0 ≤ c)) :
    b.getCellState r c = none := by
  simp [Board.getCellState, h]

theorem getCellState_updateCell_self (b : Board) (r c : Int) (f : CellState → CellState) :
    (b.updateCell r c f).getCellState r c = (b.getCellState r c).map f := by
  by_cases hg : 0 ≤ r ∧ 0 ≤ c
  · unfold Board.updateCell Board.getCellState
    rw [if_pos hg]
    simp only [if_pos hg, listModify_get?, if_pos rfl]
    cases b.cells.get? r.toNat with
    | none => simp
    | some row => simp [listModify_getElem?]
  · unfold Board.updateCell
    rw [if_neg hg, getCellState_neg hg]
    rfl

theorem getCellState_updateCell_ne (b : Board) (r c : Int) (f : CellState → CellState)
    {r' c' : Int} (h : ¬ (r' = r ∧ c' = c)) :
    (b.updateCell r c f).getCellState r' c' = b.getCellState r' c' := by
  by_cases hg : 0 ≤ r ∧ 0 ≤ c
  · by_cases hg' : 0 ≤ r' ∧ 0 ≤ c'
    · unfold Board.updateCell Board.getCellState
      rw [if_pos hg]
      simp only [if_pos hg', listModify_get?]
      by_cases hr : r'.toNat = r.toNat
      · have hreq : r' = r := by omega
        have hcne : c'.toNat ≠ c.toNat := by
          have : c' ≠ c := fun hc => h ⟨hreq, hc⟩
          omega
        rw [if_pos hr, hr]
        cases b.cells.get? r.toNat with
        | none => simp
        | some row => simp [listModify_getElem?, hcne]
      · rw [if_neg hr]
    · rw [getCellState_neg hg', getCellState_neg hg']
  · unfold Board.updateCell
    rw [if_neg hg]

/-- Reading the grid after a cell update. -/
theorem getCellState_updateCell (b : Board) (r c : Int) (f : CellState → CellState)
    (r' c' : Int) :
    (b.updateCell r c f).getCellState r' c' =
      (if r' = r ∧ c' = c then (b.getCellState r c).map f else b.getCellState r' c') := by
  by_cases he : r' = r ∧ c' = c
  · rw [if_pos he, he.1, he.2, getCellState_updateCell_self]
  · rw [if_neg he, getCellState_updateCell_ne b r c f he]

/-! ### The evolution relation: what a flood fill may change

`openCell` (away from its mine branch) only ever turns `isOpened` flags on,
bumps the counter and possibly sets `isGameWon`; every other piece of cell
state, the flag counter, the mine list and the board dimensions are frozen.
`CellEvo`/`Board.Evolves` capture the frozen part plus the monotonicity of
`isOpened`. -/

/-- Cell-level evolution: all fields frozen except a monotone `isOpened`
and the derived `currentState`. -/
def CellEvo (st st' : CellState) : Prop :=
  st'.isMine = st.isMine ∧ st'.isFlagged = st.isFlagged ∧
  st'.adjacentMines = st.adjacentMines ∧ st'.defaultState = st.defaultState ∧
  (st.isOpened = true → st'.isOpened = true)

theorem cellEvo_refl (st : CellState) : CellEvo st st :=
  ⟨rfl, rfl, rfl, rfl, fun h => h⟩

theorem cellEvo_trans {a b c : CellState} (h1 : CellEvo a b) (h2 : CellEvo b c) :
    CellEvo a c :=
  ⟨h2.1.trans h1.1, h2.2.1.trans h1.2.1, h2.2.2.1.trans h1.2.2.1,
   h2.2.2.2.1.trans h1.2.2.2.1, fun h => h2.2.2.2.2 (h1.2.2.2.2 h)⟩

/-- Board-level evolution. -/
def Board.Evolves (b b' : Board) : Prop :=
  b'.rows = b.rows ∧ b'.cols = b.cols ∧ b'.mines = b.mines ∧
  b'.flags = b.flags ∧ b'.minesList = b.minesList ∧ b'.startTime = b.startTime ∧
  List.Forall₂ (List.Forall₂ CellEvo) b.cells b'.cells

theorem forall2_refl_of {α : Type} {R : α → α → Prop} (hr : ∀ a, R a a) (l : List α) :
    List.Forall₂ R l l := by
  induction l with
  | nil => exact List.Forall₂.nil
  | cons a t ih => exact List.Forall₂.cons (hr a) ih

theorem forall2_trans_of {α : Type} {R : α → α → Prop}
    (ht : ∀ a b c, R a b → R b c → R a c) :
    ∀ {l1 l2 l3 : List α}, List.Forall₂ R l1 l2 → List.Forall₂ R l2 l3 →
      List.Forall₂ R l1 l3 := by
  intro l1 l2 l3 h12 h23
  induction h12 generalizing l3 with
  | nil => cases h23; exact List.Forall₂.nil
  | cons hab h12' ih =>
    cases h23 with
    | cons hbc h23' => exact List.Forall₂.cons (ht _ _ _ hab hbc) (ih h23')

theorem Board.Evolves.refl (b : Board) : b.Evolves b :=
  ⟨rfl, rfl, rfl, rfl, rfl, rfl,
   forall2_refl_of (fun row => forall2_refl_of cellEvo_refl row) b.cells⟩

theorem Board.Evolves.trans {a b c : Board} (h1 : a.Evolves b) (h2 : b.Evolves c) :
    a.Evolves c := by
  obtain ⟨e1, e2, e3, e4, e5, e6, e7⟩ := h1
  obtain ⟨f1, f2, f3, f4, f5, f6, f7⟩ := h2
  refine ⟨f1.trans e1, f2.trans e2, f3.trans e3, f4.trans e4, f5.trans e5, f6.trans e6, ?_⟩
  refine @forall2_trans_of (List CellState) (List.Forall₂ CellEvo) (fun x y z hxy hyz => ?_)
    _ _ _ e7 f7
  exact @forall2_trans_of CellState CellEvo (fun u v w huv hvw => cellEvo_trans huv hvw)
    _ _ _ hxy hyz

theorem forall2_listModify {α : Type} {R : α → α → Prop} (hr : ∀ a, R a a)
    (f : α → α) (hf : ∀ a, R a (f a)) (l : List α) (n : Nat) :
    List.Forall₂ R l (listModify l n f) := by
  induction l generalizing n with
  | nil => exact List.Forall₂.nil
  | cons a t ih =>
    cases n with
    | zero => exact List.Forall₂.cons (hf a) (forall2_refl_of hr t)
    | succ m => exact List.Forall₂.cons (hr a) (ih m)

/-- A cell update whose function is a `CellEvo` step evolves the board. -/
theorem evolves_updateCell (b : Board) (r c : Int) (f : CellState → CellState)
    (hf : ∀ st, CellEvo st (f st)) : b.Evolves (b.updateCell r c f) := by
  unfold Board.updateCell
  split
  · refine ⟨rfl, rfl, rfl, rfl, rfl, rfl, ?_⟩
    exact forall2_listModify (forall2_refl_of cellEvo_refl)
      (fun row => listModify row c.toNat f)
      (fun row => forall2_listModify cellEvo_refl f (hf) row c.toNat) b.cells r.toNat
  · exact Board.Evolves.refl b

theorem cellEvo_setIsOpened_true (st : CellState) : CellEvo st (st.setIsOpened true) :=
  ⟨rfl, rfl, rfl, rfl, fun _ => rfl⟩

/-- Changing only counters, lifecycle flags or the end time preserves the
evolution relation. -/
theorem evolves_of_fields {b b' b'' : Board} (h : b.Evolves b')
    (hrows : b''.rows = b'.rows) (hcols : b''.cols = b'.cols)
    (hmines : b''.mines = b'.mines) (hflags : b''.flags = b'.flags)
    (hml : b''.minesList = b'.minesList) (hstart : b''.startTime = b'.startTime)
    (hcells : b''.cells = b'.cells) : b.Evolves b'' := by
  refine ⟨hrows.trans h.1, hcols.trans h.2.1, hmines.trans h.2.2.1,
    hflags.trans h.2.2.2.1, hml.trans h.2.2.2.2.1, hstart.trans h.2.2.2.2.2.1, ?_⟩
  rw [hcells]
  exact h.2.2.2.2.2.2

theorem evolves_foldl {β : Type} (l : List β) (step : Board → β → Board) (b : Board)
    (h : ∀ (acc : Board) (d : β), d ∈ l → acc.Evolves (step acc d)) :
    b.Evolves (l.foldl step b) := by
  induction l generalizing b with
  | nil => exact Board.Evolves.refl b
  | cons d t ih =>
    exact (h b d (List.mem_cons_self d t)).trans
      (ih (step b d) (fun acc e he => h acc e (List.mem_cons_of_mem d he)))

theorem evolves_openAllMines (b : Board) : b.Evolves b.openAllMines := by
  unfold Board.openAllMines
  exact evolves_foldl _ _ b
    (fun acc d _ => evolves_updateCell acc d.1 d.2 _ cellEvo_setIsOpened_true)

/-- The flood fill only evolves the board. -/
theorem evolves_openCellGo_and_adj (fuel : Nat) :
    (∀ (b : Board) (r c : Int) (now : Nat), b.Evolves (openCellGo fuel b r c now)) ∧
    (∀ (b : Board) (r c : Int) (now : Nat), b.Evolves (openAdjacentCells fuel b r c now)) := by
  induction fuel with
  | zero =>
    constructor
    · intro b r c now
      rw [openCellGo_zero]
      exact Board.Evolves.refl b
    · intro b r c now
      rw [openAdjacentCells_eq]
      split
      · exact Board.Evolves.refl b
      split
      · exact Board.Evolves.refl b
      refine evolves_foldl _ _ b (fun acc d _ => ?_)
      unfold adjStep
      dsimp only
      split
      · exact Board.Evolves.refl acc
      split
      · exact Board.Evolves.refl acc
      cases acc.getCellState (r + d.1) (c + d.2) with
      | none => exact Board.Evolves.refl acc
      | some st =>
        simp only []
        split
        · exact Board.Evolves.refl acc
        split
        · exact Board.Evolves.refl acc
        rw [openCellGo_zero]
        exact Board.Evolves.refl acc
  | succ fuel ih =>
    have hA : ∀ (b : Board) (r c : Int) (now : Nat), b.Evolves (openCellGo (fuel + 1) b r c now) := by
      intro b r c now
      rw [openCellGo_succ]
      split
      · exact Board.Evolves.refl b
      split
      · exact Board.Evolves.refl b
      cases hst : b.getCellState r c with
      | none => exact Board.Evolves.refl b
      | some st =>
        simp only []
        split
        · exact Board.Evolves.refl b
        split
        · -- mine branch
          have hmid : b.Evolves { b with isGameOver := true, endTime := some now } :=
            ⟨rfl, rfl, rfl, rfl, rfl, rfl,
              forall2_refl_of (fun row => forall2_refl_of cellEvo_refl row) b.cells⟩
          exact hmid.trans (evolves_openAllMines _)
        · -- open branch
          have h1 : b.Evolves { (b.updateCell r c fun s => s.setIsOpened true) with
              openedCells := b.openedCells + 1 } := by
            refine evolves_of_fields (evolves_updateCell b r c _ cellEvo_setIsOpened_true)
              rfl rfl rfl rfl rfl rfl rfl
          set b1 := { (b.updateCell r c fun s => s.setIsOpened true) with
              openedCells := b.openedCells + 1 } with hb1
          have h2 : b1.Evolves (if st.adjacentMines = 0 then
              openAdjacentCells fuel b1 r c now else b1) := by
            split
            · exact ih.2 b1 r c now
            · exact Board.Evolves.refl b1
          set b2 := (if st.adjacentMines = 0 then openAdjacentCells fuel b1 r c now else b1)
            with hb2
          have h3 : b2.Evolves (if b2.wonCheck then { b2 with isGameWon := true } else b2) := by
            split
            · exact evolves_of_fields (Board.Evolves.refl b2) rfl rfl rfl rfl rfl rfl rfl
            · exact Board.Evolves.refl b2
          exact (h1.trans h2).trans h3
    refine ⟨hA, ?_⟩
    intro b r c now
    rw [openAdjacentCells_eq]
    split
    · exact Board.Evolves.refl b
    split
    · exact Board.Evolves.refl b
    refine evolves_foldl _ _ b (fun acc d _ => ?_)
    unfold adjStep
    dsimp only
    split
    · exact Board.Evolves.refl acc
    split
    · exact Board.Evolves.refl acc
    cases acc.getCellState (r + d.1) (c + d.2) with
    | none => exact Board.Evolves.refl acc
    | some st =>
      simp only []
      split
      · exact Board.Evolves.refl acc
      split
      · exact Board.Evolves.refl acc
      exact hA acc (r + d.1) (c + d.2) now

theorem evolves_openCellGo (fuel : Nat) (b : Board) (r c : Int) (now : Nat) :
    b.Evolves (openCellGo fuel b r c now) :=
  (evolves_openCellGo_and_adj fuel).1 b r c now

theorem evolves_openAdjacentCells (fuel : Nat) (b : Board) (r c : Int) (now : Nat) :
    b.Evolves (openAdjacentCells fuel b r c now) :=
  (evolves_openCellGo_and_adj fuel).2 b r c now

/-! ### Reading cells across an evolution -/

theorem forall2_getElem?_left {α : Type} {R : α → α → Prop} {l l' : List α}
    (h : List.Forall₂ R l l') (n : Nat) {a : α} (ha : l[n]? = some a) :
    ∃ b, l'[n]? = some b ∧ R a b := by
  induction h generalizing n with
  | nil => simp at ha
  | cons hR htl ih =>
    cases n with
    | zero =>
      simp only [List.getElem?_cons_zero, Option.some.injEq] at ha
      exact ⟨_, by simp, ha ▸ hR⟩
    | succ m =>
      simp only [List.getElem?_cons_succ] at ha ⊢
      exact ih m ha

theorem forall2_getElem?_right {α : Type} {R : α → α → Prop} {l l' : List α}
    (h : List.Forall₂ R l l') (n : Nat) {b : α} (hb : l'[n]? = some b) :
    ∃ a, l[n]? = some a ∧ R a b := by
  induction h generalizing n with
  | nil => simp at hb
  | cons hR htl ih =>
    cases n with
    | zero =>
      simp only [List.getElem?_cons_zero, Option.some.injEq] at hb
      exact ⟨_, by simp, hb ▸ hR⟩
    | succ m =>
      simp only [List.getElem?_cons_succ] at hb ⊢
      exact ih m hb

theorem Board.Evolves.getCellState_left {b b' : Board} (h : b.Evolves b') (r c : Int)
    {st : CellState} (hst : b.getCellState r c = some st) :
    ∃ st', b'.getCellState r c = some st' ∧ CellEvo st st' := by
  unfold Board.getCellState at hst ⊢
  by_cases hg : 0 ≤ r ∧ 0 ≤ c
  · rw [if_pos hg] at hst ⊢
    simp only [List.get?_eq_getElem?] at hst ⊢
    cases hrow : b.cells[r.toNat]? with
    | none => rw [hrow] at hst; simp at hst
    | some row =>
      rw [hrow] at hst
      simp only [Option.getD_some] at hst
      obtain ⟨row', hrow', hR⟩ := forall2_getElem?_left h.2.2.2.2.2.2 r.toNat hrow
      rw [hrow']
      simp only [Option.getD_some]
      exact forall2_getElem?_left hR c.toNat hst
  · rw [if_neg hg] at hst; exact absurd hst (by simp)

theorem Board.Evolves.getCellState_right {b b' : Board} (h : b.Evolves b') (r c : Int)
    {st' : CellState} (hst' : b'.getCellState r c = some st') :
    ∃ st, b.getCellState r c = some st ∧ CellEvo st st' := by
  unfold Board.getCellState at hst' ⊢
  by_cases hg : 0 ≤ r ∧ 0 ≤ c
  · rw [if_pos hg] at hst' ⊢
    simp only [List.get?_eq_getElem?] at hst' ⊢
    cases hrow' : b'.cells[r.toNat]? with
    | none => rw [hrow'] at hst'; simp at hst'
    | some row' =>
      rw [hrow'] at hst'
      simp only [Option.getD_some] at hst'
      obtain ⟨row, hrow, hR⟩ := forall2_getElem?_right h.2.2.2.2.2.2 r.toNat hrow'
      rw [hrow]
      simp only [Option.getD_some]
      exact forall2_getElem?_right hR c.toNat hst'
  · rw [if_neg hg] at hst'; exact absurd hst' (by simp)

theorem Board.Evolves.getCellState_none {b b' : Board} (h : b.Evolves b') (r c : Int) :
    b.getCellState r c = none ↔ b'.getCellState r c = none := by
  constructor
  · intro hn
    cases hst' : b'.getCellState r c with
    | none => rfl
    | some st' =>
      obtain ⟨st, hst, _⟩ := h.getCellState_right r c hst'
      rw [hn] at hst; exact absurd hst (by simp)
  · intro hn
    cases hst : b.getCellState r c with
    | none => rfl
    | some st =>
      obtain ⟨st', hst', _⟩ := h.getCellState_left r c hst
      rw [hn] at hst'; exact absurd hst' (by simp)

theorem Board.Evolves.stateAt_isMine {b b' : Board} (h : b.Evolves b') (r c : Int) :
    (b'.stateAt r c).isMine = (b.stateAt r c).isMine := by
  unfold Board.stateAt
  cases hst : b.getCellState r c with
  | none => rw [(h.getCellState_none r c).1 hst]
  | some st =>
    obtain ⟨st', hst', hR⟩ := h.getCellState_left r c hst
    rw [hst']
    exact hR.1

theorem Board.Evolves.stateAt_isFlagged {b b' : Board} (h : b.Evolves b') (r c : Int) :
    (b'.stateAt r c).isFlagged = (b.stateAt r c).isFlagged := by
  unfold Board.stateAt
  cases hst : b.getCellState r c with
  | none => rw [(h.getCellState_none r c).1 hst]
  | some st =>
    obtain ⟨st', hst', hR⟩ := h.getCellState_left r c hst
    rw [hst']
    exact hR.2.1

theorem Board.Evolves.stateAt_adjacentMines {b b' : Board} (h : b.Evolves b') (r c : Int) :
    (b'.stateAt r c).adjacentMines = (b.stateAt r c).adjacentMines := by
  unfold Board.stateAt
  cases hst : b.getCellState r c with
  | none => rw [(h.getCellState_none r c).1 hst]
  | some st =>
    obtain ⟨st', hst', hR⟩ := h.getCellState_left r c hst
    rw [hst']
    exact hR.2.2.1

theorem Board.Evolves.stateAt_opened_mono {b b' : Board} (h : b.Evolves b') (r c : Int)
    (ho : (b.stateAt r c).isOpened = true) : (b'.stateAt r c).isOpened = true := by
  unfold Board.stateAt at ho ⊢
  cases hst : b.getCellState r c with
  | none => rw [(h.getCellState_none r c).1 hst]; rw [hst] at ho; exact ho
  | some st =>
    obtain ⟨st', hst', hR⟩ := h.getCellState_left r c hst
    rw [hst']
    rw [hst] at ho
    exact hR.2.2.2.2 ho

theorem Board.Evolves.inB_eq {b b' : Board} (h : b.Evolves b') (r c : Int) :
    b'.inB r c = b.inB r c := by
  unfold Board.inB
  rw [h.1, h.2.1]

/-! ### Counting lemmas -/

@[simp] theorem countGrid_nil (p : CellState → Bool) : countGrid p [] = 0 := rfl

@[simp] theorem countGrid_cons (p : CellState → Bool) (row : List CellState)
    (g : List (List CellState)) :
    countGrid p (row :: g) = (row.filter p).length + countGrid p g := by
  simp [countGrid]

/-- Additive effect of modifying one entry of a row on the filter length. -/
theorem filter_length_listModify {α : Type} (p : α → Bool) (l : List α) (n : Nat)
    (f : α → α) (st : α) (h : l[n]? = some st) :
    ((listModify l n f).filter p).length + (if p st then 1 else 0)
      = (l.filter p).length + (if p (f st) then 1 else 0) := by
  induction l generalizing n with
  | nil => simp at h
  | cons a t ih =>
    cases n with
    | zero =>
      simp only [List.getElem?_cons_zero, Option.some.injEq] at h
      subst h
      show ((f a :: t).filter p).length + _ = ((a :: t).filter p).length + _
      rw [List.filter_cons, List.filter_cons]
      by_cases h1 : p a = true
      · by_cases h2 : p (f a) = true
        · simp only [if_pos h1, if_pos h2, List.length_cons]
        · simp only [if_pos h1, if_neg h2, List.length_cons]
      · by_cases h2 : p (f a) = true
        · simp only [if_neg h1, if_pos h2, List.length_cons]
        · simp only [if_neg h1, if_neg h2]
    | succ m =>
      simp only [List.getElem?_cons_succ] at h
      have hrec := ih m h
      show ((a :: listModify t m f).filter p).length + _
          = ((a :: t).filter p).length + _
      rw [List.filter_cons, List.filter_cons]
      by_cases h1 : p a = true
      · simp only [if_pos h1, List.length_cons]
        omega
      · simp only [if_neg h1]
        omega

/-- Additive effect of modifying one grid cell on a grid count. -/
theorem countGrid_modify2 (p : CellState → Bool) (g : List (List CellState))
    (i j : Nat) (f : CellState → CellState) (row : List CellState) (st : CellState)
    (hrow : g[i]? = some row) (hst : row[j]? = some st) :
    countGrid p (listModify g i (fun r => listModify r j f)) + (if p st then 1 else 0)
      = countGrid p g + (if p (f st) then 1 else 0) := by
  induction g generalizing i with
  | nil => simp at hrow
  | cons r0 g' ih =>
    cases i with
    | zero =>
      simp only [List.getElem?_cons_zero, Option.some.injEq] at hrow
      subst hrow
      simp only [listModify, countGrid_cons]
      have hrec := filter_length_listModify p r0 j f st hst
      omega
    | succ m =>
      simp only [List.getElem?_cons_succ] at hrow
      have := ih m hrow
      simp only [listModify, countGrid_cons]
      omega

/-- Board-level version of `countGrid_modify2` through `updateCell`. -/
theorem countGrid_updateCell (p : CellState → Bool) (b : Board) (r c : Int)
    (f : CellState → CellState) (st : CellState) (hst : b.getCellState r c = some st) :
    countGrid p (b.updateCell r c f).cells + (if p st then 1 else 0)
      = countGrid p b.cells + (if p (f st) then 1 else 0) := by
  unfold Board.getCellState at hst
  by_cases hg : 0 ≤ r ∧ 0 ≤ c
  · rw [if_pos hg] at hst
    simp only [List.get?_eq_getElem?] at hst
    cases hrow : b.cells[r.toNat]? with
    | none => rw [hrow] at hst; simp at hst
    | some row =>
      rw [hrow] at hst
      simp only [Option.getD_some] at hst
      unfold Board.updateCell
      rw [if_pos hg]
      exact countGrid_modify2 p b.cells r.toNat c.toNat f row st hrow hst
  · rw [if_neg hg] at hst; exact absurd hst (by simp)

/-- A cell update that does not change the counted predicate leaves the
count unchanged. -/
theorem countGrid_updateCell_eq (p : CellState → Bool) (b : Board) (r c : Int)
    (f : CellState → CellState) (st : CellState) (hst : b.getCellState r c = some st)
    (hp : p (f st) = p st) :
    countGrid p (b.updateCell r c f).cells = countGrid p b.cells := by
  have := countGrid_updateCell p b r c f st hst
  rw [hp] at this
  omega

/-- Grid counts compare across `Forall₂` when the relation forces the
predicate backwards. -/
theorem filter_length_le_of_forall2 {α : Type} {R : α → α → Prop} (p : α → Bool)
    (hR : ∀ a b, R a b → p b = true → p a = true) :
    ∀ {l l' : List α}, List.Forall₂ R l l' →
      (l'.filter p).length ≤ (l.filter p).length := by
  intro l l' h
  induction h with
  | nil => simp
  | @cons a b l1 l2 hab htl ih =>
    simp only [List.filter_cons]
    by_cases h2 : p b = true
    · simp only [if_pos h2, if_pos (hR a b hab h2), List.length_cons]
      omega
    · rw [if_neg h2]
      by_cases h1 : p a = true
      · simp only [if_pos h1, List.length_cons]
        omega
      · rw [if_neg h1]
        exact ih

/-- Grid counts are equal across `Forall₂` when the relation preserves the
predicate. -/
theorem filter_length_eq_of_forall2 {α : Type} {R : α → α → Prop} (p : α → Bool)
    (hR : ∀ a b, R a b → p b = p a) :
    ∀ {l l' : List α}, List.Forall₂ R l l' →
      (l'.filter p).length = (l.filter p).length := by
  intro l l' h
  induction h with
  | nil => rfl
  | @cons a b l1 l2 hab htl ih =>
    simp only [List.filter_cons, hR a b hab]
    by_cases h1 : p a = true
    · simp only [if_pos h1, List.length_cons]
      omega
    · simp only [if_neg h1]
      exact ih

theorem countGrid_le_of_forall2_grid {R : CellState → CellState → Prop} (p : CellState → Bool)
    (hp : ∀ a b, R a b → p b = true → p a = true) :
    ∀ {g g' : List (List CellState)}, List.Forall₂ (List.Forall₂ R) g g' →
      countGrid p g' ≤ countGrid p g := by
  intro g g' h
  induction h with
  | nil => exact Nat.le_refl 0
  | @cons a b g1 g2 hab htl ih =>
    simp only [countGrid_cons]
    have h1 := filter_length_le_of_forall2 p hp hab
    omega

theorem countGrid_eq_of_forall2_grid {R : CellState → CellState → Prop} (p : CellState → Bool)
    (hp : ∀ a b, R a b → p b = p a) :
    ∀ {g g' : List (List CellState)}, List.Forall₂ (List.Forall₂ R) g g' →
      countGrid p g' = countGrid p g := by
  intro g g' h
  induction h with
  | nil => rfl
  | @cons a b g1 g2 hab htl ih =>
    simp only [countGrid_cons]
    rw [filter_length_eq_of_forall2 p hp hab, ih]

theorem countGrid_le_of_evolves {b b' : Board} (h : b.Evolves b') (p : CellState → Bool)
    (hp : ∀ a b, CellEvo a b → p b = true → p a = true) :
    countGrid p b'.cells ≤ countGrid p b.cells :=
  countGrid_le_of_forall2_grid p hp h.2.2.2.2.2.2

theorem countGrid_eq_of_evolves {b b' : Board} (h : b.Evolves b') (p : CellState → Bool)
    (hp : ∀ a b, CellEvo a b → p b = p a) :
    countGrid p b'.cells = countGrid p b.cells :=
  countGrid_eq_of_forall2_grid p hp h.2.2.2.2.2.2

theorem Board.Evolves.countMines_eq {b b' : Board} (h : b.Evolves b') :
    b'.countMines = b.countMines :=
  countGrid_eq_of_evolves h _ (fun a b hab => hab.1)

/-! ### CellState operation sequences (claim C7) -/

/-- One public `CellState` setter call. -/
inductive CellOp where
  | setMine (v : Bool)
  | setFlagged (v : Bool)
  | setOpened (v : Bool)
  | setAdjacent (v : Int)
  deriving Repr, DecidableEq

/-- Dispatch one setter call. -/
def applyCellOp (s : CellState) : CellOp → CellState
  | .setMine v => s.setIsMine v
  | .setFlagged v => s.setIsFlagged v
  | .setOpened v => s.setIsOpened v
  | .setAdjacent v => s.setAdjacentMines v

/-- Run a sequence of setter calls on a freshly constructed cell. -/
def runCellOps (ops : List CellOp) : CellState :=
  ops.foldl applyCellOp CellState.init

/-- The candidate pure display function of the four semantic fields. -/
def pureDisplay (m o f : Bool) (a : Nat) : String :=
  if o then (if m then MINE else if a > 0 then formatAdjacent a else NO_ADJACENT)
  else if f then FLAGGED else UNOPENED

/-- The pure function behind the cached `defaultState`. -/
def pureDefault (m : Bool) (a : Nat) : String :=
  if m then MINE else if a > 0 then formatAdjacent a else NO_ADJACENT

/-- Both cached display strings agree with the pure functions of the
semantic fields. -/
def DispInv (s : CellState) : Prop :=
  s.defaultState = pureDefault s.isMine s.adjacentMines ∧
  s.currentState = pureDisplay s.isMine s.isOpened s.isFlagged s.adjacentMines

theorem dispInv_init : DispInv CellState.init := by
  constructor <;> rfl

theorem dispInv_applyCellOp (s : CellState) (op : CellOp)
    (hop : op ≠ CellOp.setOpened false) (h : DispInv s) : DispInv (applyCellOp s op) := by
  obtain ⟨hd, hc⟩ := h
  cases op with
  | setMine v =>
    cases v <;>
      simp [applyCellOp, CellState.setIsMine, DispInv, pureDefault, pureDisplay]
  | setFlagged v =>
    show DispInv (s.setIsFlagged v)
    unfold CellState.setIsFlagged
    by_cases ho : s.isOpened
    · rw [if_pos ho]; exact ⟨hd, hc⟩
    · rw [if_neg ho]
      refine ⟨hd, ?_⟩
      have ho' : s.isOpened = false := by
        cases hso : s.isOpened
        · rfl
        · exact absurd hso ho
      cases v <;> simp [pureDisplay, ho']
  | setOpened v =>
    cases v with
    | false => exact absurd rfl hop
    | true =>
      show DispInv (s.setIsOpened true)
      unfold CellState.setIsOpened
      refine ⟨hd, ?_⟩
      simp only [if_pos]
      rw [hd]
      simp [pureDisplay, pureDefault]
  | setAdjacent v =>
    show DispInv (s.setAdjacentMines v)
    unfold CellState.setAdjacentMines
    by_cases hm : s.isMine
    · rw [if_pos hm]; exact ⟨hd, hc⟩
    · rw [if_neg hm]
      by_cases hneg : v < 0
      · rw [if_pos hneg]; exact ⟨hd, hc⟩
      · rw [if_neg hneg]
        have hm' : s.isMine = false := by
          cases hsm : s.isMine
          · rfl
          · exact absurd hsm hm
        have hpos : (v > 0) ↔ (v.toNat > 0) := by omega
        constructor
        · by_cases hv : v > 0
          · simp [pureDefault, hm', if_pos hv, hpos.1 hv]
          · have : ¬ (v.toNat > 0) := fun hh => hv (hpos.2 hh)
            simp [pureDefault, hm', if_neg hv, if_neg this]
        · by_cases ho : s.isOpened
          · have ho' : s.isOpened = true := ho
            by_cases hv : v > 0
            · simp [pureDisplay, hm', ho', if_pos hv, hpos.1 hv]
            · have : ¬ (v.toNat > 0) := fun hh => hv (hpos.2 hh)
              simp [pureDisplay, hm', ho', if_neg hv, if_neg this]
          · have ho' : s.isOpened = false := by
              cases hso : s.isOpened
              · rfl
              · exact absurd hso ho
            simp only [ho', if_neg]
            rw [hc]
            simp [pureDisplay, ho']

theorem dispInv_foldl (ops : List CellOp) (hops : CellOp.setOpened false ∉ ops) :
    ∀ s : CellState, DispInv s → DispInv (ops.foldl applyCellOp s) := by
  induction ops with
  | nil => intro s h; exact h
  | cons op rest ih =>
    intro s h
    have hop : op ≠ CellOp.setOpened false := by
      intro he; exact hops (he ▸ List.mem_cons_self op rest)
    have hrest : CellOp.setOpened false ∉ rest := fun hm =>
      hops (List.mem_cons_of_mem op hm)
    exact ih hrest (applyCellOp s op) (dispInv_applyCellOp s op hop h)

theorem dispInv_runCellOps (ops : List CellOp) (hops : CellOp.setOpened false ∉ ops) :
    DispInv (runCellOps ops) :=
  dispInv_foldl ops hops CellState.init dispInv_init

/-- C7 counterexample: over arbitrary setter sequences, the display value is
NOT a pure function of `(isMine, isOpened, isFlagged, adjacentMines)`.  The
sequence flag-then-open-then-unopen ends with the same four semantic fields
as a single flag, yet shows the unopened marker instead of the flag
marker. -/
theorem C7_counterexample_display_not_pure :
    (runCellOps [CellOp.setFlagged true, CellOp.setOpened true,
        CellOp.setOpened false]).isMine = (runCellOps [CellOp.setFlagged true]).isMine ∧
    (runCellOps [CellOp.setFlagged true, CellOp.setOpened true,
        CellOp.setOpened false]).isOpened = (runCellOps [CellOp.setFlagged true]).isOpened ∧
    (runCellOps [CellOp.setFlagged true, CellOp.setOpened true,
        CellOp.setOpened false]).isFlagged = (runCellOps [CellOp.setFlagged true]).isFlagged ∧
    (runCellOps [CellOp.setFlagged true, CellOp.setOpened true,
        CellOp.setOpened false]).adjacentMines
      = (runCellOps [CellOp.setFlagged true]).adjacentMines ∧
    (runCellOps [CellOp.setFlagged true, CellOp.setOpened true,
        CellOp.setOpened false]).currentState
      ≠ (runCellOps [CellOp.setFlagged true]).currentState := by
  refine ⟨rfl, rfl, rfl, rfl, ?_⟩
  decide

/-- C7 (amended): restricted to setter sequences that never call
`isOpened = false` — the engine itself only ever sets it to `true` — the
display value is a pure function of `(isMine, isOpened, isFlagged,
adjacentMines)`: two such sequences ending with equal field tuples show the
same token. -/
theorem C7_display_pure_without_unopen (ops1 ops2 : List CellOp)
    (h1 : CellOp.setOpened false ∉ ops1) (h2 : CellOp.setOpened false ∉ ops2)
    (hm : (runCellOps ops1).isMine = (runCellOps ops2).isMine)
    (ho : (runCellOps ops1).isOpened = (runCellOps ops2).isOpened)
    (hf : (runCellOps ops1).isFlagged = (runCellOps ops2).isFlagged)
    (ha : (runCellOps ops1).adjacentMines = (runCellOps ops2).adjacentMines) :
    (runCellOps ops1).currentState = (runCellOps ops2).currentState := by
  rw [(dispInv_runCellOps ops1 h1).2, (dispInv_runCellOps ops2 h2).2, hm, ho, hf, ha]

/-- Witness for the amended C7: two concrete sequences with equal field
tuples indeed show the same token. -/
theorem C7_display_pure_without_unopen_witness :
    CellOp.setOpened false ∉ [CellOp.setFlagged true] ∧
    (runCellOps [CellOp.setFlagged true]).currentState
      = (runCellOps [CellOp.setMine false, CellOp.setFlagged true]).currentState :=
  ⟨by decide,
   C7_display_pure_without_unopen [CellOp.setFlagged true]
     [CellOp.setMine false, CellOp.setFlagged true]
     (by decide) (by decide) (by decide) (by decide) (by decide) (by decide)⟩

/-! ### Direct opening lemmas and the `RangeError` discipline (claims C5, C9) -/

/-- Extract the board of a normal or crashed outcome. -/
def JsOutcome.getOr (o : JsOutcome) (d : Board) : Board :=
  match o with
  | .ok b => b
  | .typeError b => b
  | .rangeError => d

theorem openCell_eq_go (b : Board) (r c : Int) (now : Nat)
    (hover : b.isGameOver = false) (hwon : b.isGameWon = false)
    (hin : b.inB r c = true) :
    b.openCell r c now = .ok (openCellGo (b.rows * b.cols + 1) b r c now) := by
  unfold Board.openCell
  rw [hover, hwon]
  simp [hin]

theorem openCell_flags {b : Board} {r c : Int} {now : Nat} {b' : Board}
    (h : b.openCell r c now = .ok b') : b'.flags = b.flags := by
  unfold Board.openCell at h
  by_cases hterm : (b.isGameOver || b.isGameWon) = true
  · rw [if_pos hterm] at h
    cases h
    rfl
  · rw [if_neg hterm] at h
    by_cases hin : b.inB r c = true
    · rw [if_neg (by simp [hin])] at h
      cases h
      exact (evolves_openCellGo _ b r c now).2.2.2.1
    · rw [if_pos (by simp [Bool.not_eq_true] at hin ⊢; simp [hin])] at h
      cases h
  
theorem openCellGo_opens_direct (fuel : Nat) (b : Board) (r c : Int) (now : Nat)
    (st : CellState) (hover : b.isGameOver = false) (hwon : b.isGameWon = false)
    (hin : b.inB r c = true) (hst : b.getCellState r c = some st)
    (hop : st.isOpened = false) (hmine : st.isMine = false) (hfuel : 1 ≤ fuel) :
    ((openCellGo fuel b r c now).stateAt r c).isOpened = true := by
  cases fuel with
  | zero => omega
  | succ fuel =>
    rw [openCellGo_succ]
    rw [hover, hwon]
    simp only [Bool.or_self, Bool.false_eq_true, if_false]
    rw [if_neg (by simp [hin])]
    rw [hst]
    simp only [hop, Bool.false_eq_true, if_false, hmine]
    set b1 := { (b.updateCell r c fun s => s.setIsOpened true) with
        openedCells := b.openedCells + 1 } with hb1def
    have hopen1 : b1.getCellState r c = some (st.setIsOpened true) := by
      show (b.updateCell r c fun s => s.setIsOpened true).getCellState r c
          = some (st.setIsOpened true)
      rw [getCellState_updateCell_self, hst]
      rfl
    have hev : b1.Evolves (if st.adjacentMines = 0 then
        openAdjacentCells fuel b1 r c now else b1) := by
      split
      · exact evolves_openAdjacentCells fuel b1 r c now
      · exact Board.Evolves.refl b1
    set b2 := (if st.adjacentMines = 0 then openAdjacentCells fuel b1 r c now else b1)
      with hb2def
    have hopen2 : (b2.stateAt r c).isOpened = true := by
      refine hev.stateAt_opened_mono r c ?_
      unfold Board.stateAt
      rw [hopen1]
      rfl
    show ((if b2.wonCheck then { b2 with isGameWon := true } else b2).stateAt r c).isOpened
        = true
    split
    · exact hopen2
    · exact hopen2

/-- C9: opening a flagged, unopened, non-mine, in-bounds cell while the game
is active opens it without touching `flaggedCount`, and no `openCell` call
ever changes `flaggedCount` — only `toggleFlag` does. -/
theorem C9_openCell_ignores_flag (b : Board) (r c : Int) (now : Nat) (st : CellState)
    (b' : Board) (hover : b.isGameOver = false) (hwon : b.isGameWon = false)
    (hin : b.inB r c = true) (hst : b.getCellState r c = some st)
    (hflag : st.isFlagged = true) (hop : st.isOpened = false)
    (hmine : st.isMine = false) (h : b.openCell r c now = .ok b') :
    (b'.stateAt r c).isOpened = true ∧ b'.flags = b.flags ∧
    (∀ (b2 : Board) (r2 c2 : Int) (now2 : Nat) (b2' : Board),
      b2.openCell r2 c2 now2 = .ok b2' → b2'.flags = b2.flags) := by
  have heq := openCell_eq_go b r c now hover hwon hin
  rw [heq] at h
  cases h
  refine ⟨?_, openCell_flags heq, fun b2 r2 c2 now2 b2' h2 => openCell_flags h2⟩
  exact openCellGo_opens_direct _ b r c now st hover hwon hin hst hop hmine (by omega)

/-! ### Concrete demonstration games -/

/-- A 2×2 board configured with one mine. -/
def demo22 : Board := Board.new 2 2 1

/-- The 2×2 game after `startGame(0,0)` with identity shuffles: the start
cell and its first listed neighbour `(0,1)` are excluded, the mine lands on
`(1,0)`. -/
def started22 : Board :=
  (demo22.startGame 0 0 [(0, 1), (1, 0), (1, 1)] 0 [(1, 0), (1, 1)] 5).getOr demo22

/-- The same game after opening the mine at `(1,0)`: a terminal, lost
state. -/
def over22 : Board := (started22.openCell 1 0 7).getOr started22

/-- The same game with a flag placed on the safe cell `(0,0)` while still
active. -/
def flagged22 : Board := (started22.toggleFlag 0 0).getOr started22

/-- C5 counterexample: in a terminal state (`isOver = true`), an
out-of-bounds `openCell` does not raise — the terminal-state check precedes
the bounds check, so the call returns silently. -/
theorem C5_counterexample_oob_openCell_terminal :
    over22.isGameOver = true ∧ over22.inB (-1) 0 = false ∧
    over22.openCell (-1) 0 9 = JsOutcome.ok over22 := by
  refine ⟨by decide, by decide, ?_⟩
  decide

/-- C5 (amended): out-of-bounds coordinates raise `RangeError` in
`startGame` and `toggleFlag` in every state, but in `openCell` only while
the game is active; when `isOver` or `isWon` holds, `openCell` returns
silently without raising. -/
theorem C5_amended_range_error (b : Board) (r c : Int) (h : b.inB r c = false) :
    (∀ (adjPerm : List (Int × Int)) (u : Nat) (candPerm : List (Int × Int)) (now : Nat),
      b.startGame r c adjPerm u candPerm now = JsOutcome.rangeError) ∧
    b.toggleFlag r c = JsOutcome.rangeError ∧
    (b.isGameOver = false → b.isGameWon = false →
      ∀ now : Nat, b.openCell r c now = JsOutcome.rangeError) ∧
    ((b.isGameOver = true ∨ b.isGameWon = true) →
      ∀ now : Nat, b.openCell r c now = JsOutcome.ok b) := by
  refine ⟨?_, ?_, ?_, ?_⟩
  · intro adjPerm u candPerm now
    unfold Board.startGame
    rw [if_pos (by simp [h])]
  · unfold Board.toggleFlag
    rw [if_pos (by simp [h])]
  · intro hover hwon now
    unfold Board.openCell
    rw [hover, hwon]
    simp [h]
  · intro hterm now
    unfold Board.openCell
    have hcond : (b.isGameOver || b.isGameWon) = true := by
      cases hterm with
      | inl h1 => simp [h1]
      | inr h1 => simp [h1]
    rw [if_pos hcond]

/-- Witness for the amended C5 at a concrete terminal board and coordinate. -/
theorem C5_amended_range_error_witness :
    over22.inB (-1) 0 = false ∧ over22.toggleFlag (-1) 0 = JsOutcome.rangeError :=
  ⟨by decide, (C5_amended_range_error over22 (-1) 0 (by decide)).2.1⟩

/-- Witness for C9 at a concrete flagged cell of an active game. -/
theorem C9_openCell_ignores_flag_witness :
    (flagged22.stateAt 0 0).isFlagged = true ∧
    (((flagged22.openCell 0 0 9).getOr flagged22).stateAt 0 0).isOpened = true ∧
    ((flagged22.openCell 0 0 9).getOr flagged22).flags = flagged22.flags := by
  have h := C9_openCell_ignores_flag flagged22 0 0 9 (flagged22.stateAt 0 0)
    ((flagged22.openCell 0 0 9).getOr flagged22) (by decide) (by decide) (by decide)
    (by decide) (by decide) (by decide) (by decide) (by decide)
  exact ⟨by decide, h.1, h.2.1⟩


/-! ### Mine placement combinatorics (claims C1, C6, C10) -/

theorem getCellState_reset (b : Board) (r c : Int) :
    b.reset.getCellState r c =
      (if 0 ≤ r ∧ r < (b.rows : Int) ∧ 0 ≤ c ∧ c < (b.cols : Int) then some CellState.init
      else none) := by
  unfold Board.reset Board.getCellState initGrid
  by_cases hg : 0 ≤ r ∧ 0 ≤ c
  · rw [if_pos hg]
    simp only [List.get?_eq_getElem?, List.getElem?_replicate]
    by_cases hr : r.toNat < b.rows
    · rw [if_pos hr]
      simp only [Option.getD_some, List.getElem?_replicate]
      by_cases hc : c.toNat < b.cols
      · rw [if_pos hc, if_pos (by omega)]
      · rw [if_neg hc, if_neg (by omega)]
    · rw [if_neg hr]
      simp only [Option.getD_none, List.getElem?_nil]
      rw [if_neg (by omega)]
  · rw [if_neg hg, if_neg (by omega)]

theorem mem_allCells (rows cols : Nat) (p : Int × Int) :
    p ∈ allCells rows cols ↔
      0 ≤ p.1 ∧ p.1 < (rows : Int) ∧ 0 ≤ p.2 ∧ p.2 < (cols : Int) := by
  obtain ⟨a, b⟩ := p
  unfold allCells
  constructor
  · intro hmem
    rw [List.mem_flatMap] at hmem
    obtain ⟨r, hr, hmem2⟩ := hmem
    rw [List.mem_map] at hmem2
    obtain ⟨c, hc, heq⟩ := hmem2
    rw [List.mem_range] at hr
    rw [List.mem_range] at hc
    rw [Prod.mk.injEq] at heq
    obtain ⟨h1, h2⟩ := heq
    have h1' : ((r : Nat) : Int) = a := h1
    have h2' : ((c : Nat) : Int) = b := h2
    show 0 ≤ a ∧ a < (rows : Int) ∧ 0 ≤ b ∧ b < (cols : Int)
    refine ⟨?_, ?_, ?_, ?_⟩ <;> omega
  · intro hcon
    have h1 : 0 ≤ a := hcon.1
    have h2 : a < (rows : Int) := hcon.2.1
    have h3 : 0 ≤ b := hcon.2.2.1
    have h4 : b < (cols : Int) := hcon.2.2.2
    rw [List.mem_flatMap]
    refine ⟨a.toNat, ?_, ?_⟩
    · rw [List.mem_range]
      omega
    · rw [List.mem_map]
      refine ⟨b.toNat, ?_, ?_⟩
      · rw [List.mem_range]
        omega
      · rw [Prod.ext_iff]
        constructor
        · show ((a.toNat : Nat) : Int) = a
          omega
        · show ((b.toNat : Nat) : Int) = b
          omega

theorem length_allCells (rows cols : Nat) :
    (allCells rows cols).length = rows * cols := by
  induction rows with
  | zero => simp [allCells]
  | succ n ih =>
    unfold allCells at ih ⊢
    rw [List.range_succ, List.flatMap_append]
    simp only [List.length_append, ih, List.flatMap_cons, List.flatMap_nil,
      List.append_nil, List.length_map, List.length_range]
    ring

theorem nodup_allCells (rows cols : Nat) : (allCells rows cols).Nodup := by
  induction rows with
  | zero => exact List.nodup_nil
  | succ n ih =>
    unfold allCells at ih ⊢
    rw [List.range_succ, List.flatMap_append]
    simp only [List.flatMap_cons, List.flatMap_nil, List.append_nil]
    rw [List.nodup_append]
    refine ⟨ih, ?_, ?_⟩
    · refine List.Nodup.map ?_ (List.nodup_range cols)
      intro x y hxy
      rw [Prod.mk.injEq] at hxy
      have hx : ((x : Nat) : Int) = ((y : Nat) : Int) := hxy.2
      omega
    · intro p hp hp2
      have h1 := (mem_allCells n cols p).1 hp
      rw [List.mem_map] at hp2
      obtain ⟨c, hc, rfl⟩ := hp2
      have hfst : (Int.ofNat n, Int.ofNat c).1 = ((n : Nat) : Int) := rfl
      have h2 := h1.2.1
      rw [hfst] at h2
      omega

theorem length_filter_split {α : Type} (p : α → Bool) (l : List α) :
    (l.filter p).length + (l.filter (fun x => ! p x)).length = l.length := by
  induction l with
  | nil => rfl
  | cons a t ih =>
    simp only [List.filter_cons]
    by_cases hp : p a = true
    · rw [if_pos hp, if_neg (by simp [hp])]
      simp only [List.length_cons]
      omega
    · have hp' : p a = false := by
        cases hpa : p a
        · rfl
        · exact absurd hpa hp
      rw [if_neg (by simp [hp']), if_pos (by simp [hp'])]
      simp only [List.length_cons]
      omega

theorem length_filter_not_mem {α : Type} [DecidableEq α] (l excl : List α)
    (q : α → Bool) (hq : ∀ x, q x = true ↔ ¬ x ∈ excl)
    (hl : l.Nodup) (he : excl.Nodup) (hsub : ∀ x ∈ excl, x ∈ l) :
    (l.filter q).length = l.length - excl.length := by
  have hfe : l.filter q = l.filter (fun x => ! decide (x ∈ excl)) := by
    apply List.filter_congr
    intro x hx
    by_cases hmem : x ∈ excl
    · have h1 : q x = false := by
        cases hqx : q x
        · rfl
        · exact absurd ((hq x).1 hqx) (fun h => h hmem)
      simp [h1, hmem]
    · have h1 : q x = true := (hq x).2 hmem
      simp [h1, hmem]
  rw [hfe]
  have hsplit := length_filter_split (fun x => decide (x ∈ excl)) l
  have hperm : (l.filter (fun x => decide (x ∈ excl))).Perm excl := by
    have hnd : (l.filter (fun x => decide (x ∈ excl))).Nodup := hl.filter _
    rw [List.perm_ext_iff_of_nodup hnd he]
    intro x
    simp only [List.mem_filter, decide_eq_true_eq]
    constructor
    · intro hx
      exact hx.2
    · intro hx
      exact ⟨hsub x hx, hx⟩
  have hlen := hperm.length_eq
  omega

theorem mem_getAdjacentCells (b : Board) (row col : Int) (p : Int × Int) :
    p ∈ b.getAdjacentCells row col ↔
      ∃ d ∈ directions, p = (row + d.1, col + d.2) ∧
        0 ≤ p.1 ∧ p.1 < (b.rows : Int) ∧ 0 ≤ p.2 ∧ p.2 < (b.cols : Int) := by
  unfold Board.getAdjacentCells
  rw [List.mem_filterMap]
  constructor
  · rintro ⟨d, hd, hf⟩
    simp only [] at hf
    by_cases hcond : 0 ≤ row + d.1 ∧ row + d.1 < (b.rows : Int) ∧
        0 ≤ col + d.2 ∧ col + d.2 < (b.cols : Int)
    · rw [if_pos hcond] at hf
      have heq := Option.some.inj hf
      subst heq
      exact ⟨d, hd, rfl, hcond.1, hcond.2.1, hcond.2.2.1, hcond.2.2.2⟩
    · rw [if_neg hcond] at hf
      exact absurd hf (by simp)
  · rintro ⟨d, hd, rfl, h1, h2, h3, h4⟩
    refine ⟨d, hd, ?_⟩
    simp only []
    rw [if_pos ⟨h1, h2, h3, h4⟩]

theorem nodup_getAdjacentCells (b : Board) (row col : Int) :
    (b.getAdjacentCells row col).Nodup := by
  unfold Board.getAdjacentCells
  refine List.Nodup.filterMap ?_ (by decide)
  intro d d' p hp hp'
  rw [Option.mem_def] at hp hp'
  simp only [] at hp hp'
  by_cases hc : 0 ≤ row + d.1 ∧ row + d.1 < (b.rows : Int) ∧
      0 ≤ col + d.2 ∧ col + d.2 < (b.cols : Int)
  · by_cases hc' : 0 ≤ row + d'.1 ∧ row + d'.1 < (b.rows : Int) ∧
        0 ≤ col + d'.2 ∧ col + d'.2 < (b.cols : Int)
    · rw [if_pos hc] at hp
      rw [if_pos hc'] at hp'
      have he1 := Option.some.inj hp
      have he2 := Option.some.inj hp'
      have hx : row + d.1 = row + d'.1 := by
        have := (congrArg Prod.fst he1).trans (congrArg Prod.fst he2).symm
        simpa using this
      have hy : col + d.2 = col + d'.2 := by
        have := (congrArg Prod.snd he1).trans (congrArg Prod.snd he2).symm
        simpa using this
      obtain ⟨a1, a2⟩ := d
      obtain ⟨b1, b2⟩ := d'
      simp only [Prod.mk.injEq]
      simp only [] at hx hy
      omega
    · rw [if_neg hc'] at hp'
      exact absurd hp' (by simp)
  · rw [if_neg hc] at hp
    exact absurd hp (by simp)

theorem start_not_mem_getAdjacentCells (b : Board) (row col : Int) :
    (row, col) ∉ b.getAdjacentCells row col := by
  intro hmem
  obtain ⟨d, hd, heq, _⟩ := (mem_getAdjacentCells b row col (row, col)).1 hmem
  have h1 : row = row + d.1 := congrArg Prod.fst heq
  have h2 : col = col + d.2 := congrArg Prod.snd heq
  have hd1 : d.1 = 0 := by omega
  have hd2 : d.2 = 0 := by omega
  have hdz : d = ((0 : Int), (0 : Int)) := by
    obtain ⟨x, y⟩ := d
    simp only [Prod.mk.injEq]
    exact ⟨hd1, hd2⟩
  rw [hdz] at hd
  exact absurd hd (by decide)


/-! ### The placement loop and adjacency calculation -/

theorem setMineAt_getCellState (b : Board) (x y r c : Int) :
    (b.setMineAt x y).getCellState r c =
      (if r = x ∧ c = y then (b.getCellState x y).map (fun st => st.setIsMine true)
      else b.getCellState r c) := by
  show (b.updateCell x y fun st => st.setIsMine true).getCellState r c = _
  exact getCellState_updateCell b x y _ r c

@[simp] theorem setMineAt_rows (b : Board) (x y : Int) :
    (b.setMineAt x y).rows = b.rows := by
  simp [Board.setMineAt]

@[simp] theorem setMineAt_cols (b : Board) (x y : Int) :
    (b.setMineAt x y).cols = b.cols := by
  simp [Board.setMineAt]

@[simp] theorem setMineAt_mines (b : Board) (x y : Int) :
    (b.setMineAt x y).mines = b.mines := by
  simp [Board.setMineAt]

@[simp] theorem setMineAt_flags (b : Board) (x y : Int) :
    (b.setMineAt x y).flags = b.flags := by
  simp [Board.setMineAt]

@[simp] theorem setMineAt_openedCells (b : Board) (x y : Int) :
    (b.setMineAt x y).openedCells = b.openedCells := by
  simp [Board.setMineAt]

@[simp] theorem setMineAt_isGameOver (b : Board) (x y : Int) :
    (b.setMineAt x y).isGameOver = b.isGameOver := by
  simp [Board.setMineAt]

@[simp] theorem setMineAt_isGameWon (b : Board) (x y : Int) :
    (b.setMineAt x y).isGameWon = b.isGameWon := by
  simp [Board.setMineAt]

@[simp] theorem setMineAt_startTime (b : Board) (x y : Int) :
    (b.setMineAt x y).startTime = b.startTime := by
  simp [Board.setMineAt]

@[simp] theorem setMineAt_endTime (b : Board) (x y : Int) :
    (b.setMineAt x y).endTime = b.endTime := by
  simp [Board.setMineAt]

@[simp] theorem setMineAt_minesList (b : Board) (x y : Int) :
    (b.setMineAt x y).minesList = b.minesList ++ [(x, y)] := by
  simp [Board.setMineAt]

theorem setMineAt_countMines (b : Board) (x y : Int) (st : CellState)
    (hst : b.getCellState x y = some st) (hnm : st.isMine = false) :
    (b.setMineAt x y).countMines = b.countMines + 1 := by
  unfold Board.countMines
  have hcells : (b.setMineAt x y).cells
      = (b.updateCell x y fun st => st.setIsMine true).cells := rfl
  rw [hcells]
  have h := countGrid_updateCell (fun st => st.isMine) b x y
    (fun st => st.setIsMine true) st hst
  simp only [] at h
  have hc1 : ¬ (st.isMine = true) := by simp [hnm]
  have hc2 : (st.setIsMine true).isMine = true := rfl
  rw [if_neg hc1, if_pos hc2] at h
  omega

theorem placeMinesLoop_scalars : ∀ (m : Nat) (l : List (Int × Int)) (b : Board),
    (placeMinesLoop b l m).1.rows = b.rows ∧ (placeMinesLoop b l m).1.cols = b.cols ∧
    (placeMinesLoop b l m).1.mines = b.mines ∧ (placeMinesLoop b l m).1.flags = b.flags ∧
    (placeMinesLoop b l m).1.openedCells = b.openedCells ∧
    (placeMinesLoop b l m).1.isGameOver = b.isGameOver ∧
    (placeMinesLoop b l m).1.isGameWon = b.isGameWon ∧
    (placeMinesLoop b l m).1.startTime = b.startTime ∧
    (placeMinesLoop b l m).1.endTime = b.endTime
  | 0, l, b => by simp [placeMinesLoop]
  | Nat.succ m, [], b => by simp [placeMinesLoop]
  | Nat.succ m, p :: rest, b => by
    unfold placeMinesLoop
    cases hst : b.getCellState p.1 p.2 with
    | none => simp
    | some st =>
      simp only []
      have ih := placeMinesLoop_scalars m rest (b.setMineAt p.1 p.2)
      simp only [setMineAt_rows, setMineAt_cols, setMineAt_mines, setMineAt_flags,
        setMineAt_openedCells, setMineAt_isGameOver, setMineAt_isGameWon,
        setMineAt_startTime, setMineAt_endTime] at ih
      exact ih

theorem placeMinesLoop_crash : ∀ (m : Nat) (l : List (Int × Int)) (b : Board),
    l.length < m → (placeMinesLoop b l m).2 = true
  | 0, l, b, hm => by omega
  | Nat.succ m, [], b, _ => by simp [placeMinesLoop]
  | Nat.succ m, p :: rest, b, hm => by
    unfold placeMinesLoop
    cases hst : b.getCellState p.1 p.2 with
    | none => simp
    | some st =>
      simp only []
      exact placeMinesLoop_crash m rest (b.setMineAt p.1 p.2)
        (by simp at hm; omega)

theorem placeMinesLoop_spec : ∀ (m : Nat) (l : List (Int × Int)) (b : Board),
    l.Nodup →
    (∀ p ∈ l, ∃ st, b.getCellState p.1 p.2 = some st ∧ st.isMine = false) →
    m ≤ l.length →
    (placeMinesLoop b l m).2 = false ∧
    (placeMinesLoop b l m).1.countMines = b.countMines + m ∧
    (placeMinesLoop b l m).1.minesList = b.minesList ++ l.take m ∧
    (∀ r c : Int, ((r, c) ∈ l.take m → False) →
      (placeMinesLoop b l m).1.getCellState r c = b.getCellState r c)
  | 0, l, b, _, _, _ => by
    refine ⟨by simp [placeMinesLoop], by simp [placeMinesLoop],
      by simp [placeMinesLoop], ?_⟩
    intro r c _
    simp [placeMinesLoop]
  | Nat.succ m, [], b, _, _, hm => by simp at hm
  | Nat.succ m, p :: rest, b, hnd, hsome, hm => by
    obtain ⟨st, hst, hnm⟩ := hsome p (List.mem_cons_self p rest)
    have hpr : p ∉ rest := (List.nodup_cons.1 hnd).1
    have hloop : placeMinesLoop b (p :: rest) (Nat.succ m)
        = placeMinesLoop (b.setMineAt p.1 p.2) rest m := by
      simp only [placeMinesLoop, hst]
    have hrest_some : ∀ q ∈ rest,
        ∃ st2, (b.setMineAt p.1 p.2).getCellState q.1 q.2 = some st2 ∧
          st2.isMine = false := by
      intro q hq
      obtain ⟨st2, hst2, hnm2⟩ := hsome q (List.mem_cons_of_mem p hq)
      refine ⟨st2, ?_, hnm2⟩
      rw [setMineAt_getCellState]
      rw [if_neg ?_]
      · exact hst2
      · rintro ⟨h1, h2⟩
        apply hpr
        have : q = p := by
          obtain ⟨q1, q2⟩ := q
          obtain ⟨p1, p2⟩ := p
          simp only [] at h1 h2
          simp [h1, h2]
        exact this ▸ hq
    have ih := placeMinesLoop_spec m rest (b.setMineAt p.1 p.2)
      ((List.nodup_cons.1 hnd).2) hrest_some (by simp at hm; omega)
    rw [hloop]
    refine ⟨ih.1, ?_, ?_, ?_⟩
    · rw [ih.2.1, setMineAt_countMines b p.1 p.2 st hst hnm]
      omega
    · rw [ih.2.2.1, setMineAt_minesList]
      have htake : (p :: rest).take (Nat.succ m) = p :: rest.take m := rfl
      rw [htake, List.append_assoc]
      rfl
    · intro r c hnot
      have htake : (p :: rest).take (Nat.succ m) = p :: rest.take m := rfl
      rw [htake] at hnot
      have hne : ((r, c) ∈ rest.take m) → False := fun hmem =>
        hnot (List.mem_cons_of_mem p hmem)
      rw [ih.2.2.2 r c hne, setMineAt_getCellState]
      rw [if_neg ?_]
      rintro ⟨h1, h2⟩
      apply hnot
      have : (r, c) = p := by
        obtain ⟨p1, p2⟩ := p
        simp only [] at h1 h2
        simp [h1, h2]
      rw [this]
      exact List.mem_cons_self p (rest.take m)

/-- A board predicate: every cell is unopened and unflagged. -/
def Board.AllClosed (b : Board) : Prop :=
  ∀ (r c : Int) (st : CellState), b.getCellState r c = some st →
    st.isOpened = false ∧ st.isFlagged = false

theorem allClosed_reset (b : Board) : b.reset.AllClosed := by
  intro r c st hst
  rw [getCellState_reset] at hst
  by_cases hcond : 0 ≤ r ∧ r < (b.rows : Int) ∧ 0 ≤ c ∧ c < (b.cols : Int)
  · rw [if_pos hcond] at hst
    cases hst
    exact ⟨rfl, rfl⟩
  · rw [if_neg hcond] at hst
    exact absurd hst (by simp)

theorem allClosed_setMineAt (b : Board) (x y : Int) (h : b.AllClosed) :
    (b.setMineAt x y).AllClosed := by
  intro r c st hst
  rw [setMineAt_getCellState] at hst
  by_cases he : r = x ∧ c = y
  · rw [if_pos he] at hst
    cases hmm : b.getCellState x y with
    | none => rw [hmm] at hst; exact absurd hst (by simp)
    | some st0 =>
      rw [hmm] at hst
      simp only [Option.map_some', Option.some.injEq] at hst
      rw [← hst]
      exact ⟨rfl, rfl⟩
  · rw [if_neg he] at hst
    exact h r c st hst

theorem allClosed_placeMinesLoop : ∀ (m : Nat) (l : List (Int × Int)) (b : Board),
    b.AllClosed → (placeMinesLoop b l m).1.AllClosed
  | 0, l, b, h => by simpa [placeMinesLoop] using h
  | Nat.succ m, [], b, h => by simpa [placeMinesLoop] using h
  | Nat.succ m, p :: rest, b, h => by
    unfold placeMinesLoop
    cases hst : b.getCellState p.1 p.2 with
    | none => exact h
    | some st =>
      simp only []
      exact allClosed_placeMinesLoop m rest (b.setMineAt p.1 p.2)
        (allClosed_setMineAt b p.1 p.2 h)


/-! ### Frame of `#calculateAdjacentMines` -/

/-- Adjacency calculation only touches the adjacency count and the display
caches of a cell. -/
def CellCore (st st' : CellState) : Prop :=
  st'.isMine = st.isMine ∧ st'.isOpened = st.isOpened ∧ st'.isFlagged = st.isFlagged

theorem cellCore_refl (st : CellState) : CellCore st st := ⟨rfl, rfl, rfl⟩

theorem cellCore_trans {a b c : CellState} (h1 : CellCore a b) (h2 : CellCore b c) :
    CellCore a c :=
  ⟨h2.1.trans h1.1, h2.2.1.trans h1.2.1, h2.2.2.trans h1.2.2⟩

/-- Board-level frame of `#calculateAdjacentMines`. -/
def Board.CoreFrame (b b' : Board) : Prop :=
  b'.rows = b.rows ∧ b'.cols = b.cols ∧ b'.mines = b.mines ∧ b'.flags = b.flags ∧
  b'.openedCells = b.openedCells ∧ b'.isGameOver = b.isGameOver ∧
  b'.isGameWon = b.isGameWon ∧ b'.minesList = b.minesList ∧
  b'.startTime = b.startTime ∧ b'.endTime = b.endTime ∧
  List.Forall₂ (List.Forall₂ CellCore) b.cells b'.cells

theorem Board.CoreFrame.cfRefl (b : Board) : b.CoreFrame b :=
  ⟨rfl, rfl, rfl, rfl, rfl, rfl, rfl, rfl, rfl, rfl,
   forall2_refl_of (fun row => forall2_refl_of cellCore_refl row) b.cells⟩

theorem Board.CoreFrame.cfTrans {a b c : Board} (h1 : a.CoreFrame b) (h2 : b.CoreFrame c) :
    a.CoreFrame c := by
  obtain ⟨e1, e2, e3, e4, e5, e6, e7, e8, e9, e10, e11⟩ := h1
  obtain ⟨f1, f2, f3, f4, f5, f6, f7, f8, f9, f10, f11⟩ := h2
  refine ⟨f1.trans e1, f2.trans e2, f3.trans e3, f4.trans e4, f5.trans e5, f6.trans e6,
    f7.trans e7, f8.trans e8, f9.trans e9, f10.trans e10, ?_⟩
  refine @forall2_trans_of (List CellState) (List.Forall₂ CellCore) (fun x y z hxy hyz => ?_)
    _ _ _ e11 f11
  exact @forall2_trans_of CellState CellCore (fun u v w huv hvw => cellCore_trans huv hvw)
    _ _ _ hxy hyz

theorem rel_foldl {β : Type} (P : Board → Board → Prop) (hrefl : ∀ x : Board, P x x)
    (htrans : ∀ x y z : Board, P x y → P y z → P x z) (l : List β)
    (step : Board → β → Board) (b : Board)
    (h : ∀ (acc : Board) (d : β), d ∈ l → P acc (step acc d)) :
    P b (l.foldl step b) := by
  induction l generalizing b with
  | nil => exact hrefl b
  | cons d t ih =>
    exact htrans _ _ _ (h b d (List.mem_cons_self d t))
      (ih (step b d) (fun acc e he => h acc e (List.mem_cons_of_mem d he)))

theorem coreFrame_updateCell (b : Board) (r c : Int) (f : CellState → CellState)
    (hf : ∀ st, CellCore st (f st)) : b.CoreFrame (b.updateCell r c f) := by
  unfold Board.updateCell
  split
  · refine ⟨rfl, rfl, rfl, rfl, rfl, rfl, rfl, rfl, rfl, rfl, ?_⟩
    exact forall2_listModify (forall2_refl_of cellCore_refl)
      (fun row => listModify row c.toNat f)
      (fun row => forall2_listModify cellCore_refl f hf row c.toNat) b.cells r.toNat
  · exact Board.CoreFrame.cfRefl b

theorem cellCore_calcStep (st : CellState) :
    CellCore st
      (if st.isMine then st else st.setAdjacentMines ((st.adjacentMines : Int) + 1)) := by
  split
  · exact cellCore_refl st
  · unfold CellState.setAdjacentMines
    split
    · exact cellCore_refl st
    · split
      · exact cellCore_refl st
      · exact ⟨rfl, rfl, rfl⟩

theorem coreFrame_calculateAdjacentMines (b : Board) :
    b.CoreFrame b.calculateAdjacentMines := by
  unfold Board.calculateAdjacentMines
  refine rel_foldl Board.CoreFrame Board.CoreFrame.cfRefl
    (fun x y z h1 h2 => h1.cfTrans h2) _ _ b (fun acc p _ => ?_)
  refine rel_foldl Board.CoreFrame Board.CoreFrame.cfRefl
    (fun x y z h1 h2 => h1.cfTrans h2) _ _ acc (fun acc2 d _ => ?_)
  dsimp only
  split
  · exact coreFrame_updateCell acc2 _ _ _ cellCore_calcStep
  · exact Board.CoreFrame.cfRefl acc2

/-! ### Generic transfer of cell lookups across a cell-wise relation -/

theorem cells_forall2_getCellState_left {R : CellState → CellState → Prop} {b b' : Board}
    (hF : List.Forall₂ (List.Forall₂ R) b.cells b'.cells) (r c : Int)
    {st : CellState} (hst : b.getCellState r c = some st) :
    ∃ st', b'.getCellState r c = some st' ∧ R st st' := by
  unfold Board.getCellState at hst ⊢
  by_cases hg : 0 ≤ r ∧ 0 ≤ c
  · rw [if_pos hg] at hst ⊢
    simp only [List.get?_eq_getElem?] at hst ⊢
    cases hrow : b.cells[r.toNat]? with
    | none => rw [hrow] at hst; simp at hst
    | some row =>
      rw [hrow] at hst
      simp only [Option.getD_some] at hst
      obtain ⟨row', hrow', hR⟩ := forall2_getElem?_left hF r.toNat hrow
      rw [hrow']
      simp only [Option.getD_some]
      exact forall2_getElem?_left hR c.toNat hst
  · rw [if_neg hg] at hst
    exact absurd hst (by simp)

theorem cells_forall2_getCellState_right {R : CellState → CellState → Prop} {b b' : Board}
    (hF : List.Forall₂ (List.Forall₂ R) b.cells b'.cells) (r c : Int)
    {st' : CellState} (hst' : b'.getCellState r c = some st') :
    ∃ st, b.getCellState r c = some st ∧ R st st' := by
  unfold Board.getCellState at hst' ⊢
  by_cases hg : 0 ≤ r ∧ 0 ≤ c
  · rw [if_pos hg] at hst' ⊢
    simp only [List.get?_eq_getElem?] at hst' ⊢
    cases hrow' : b'.cells[r.toNat]? with
    | none => rw [hrow'] at hst'; simp at hst'
    | some row' =>
      rw [hrow'] at hst'
      simp only [Option.getD_some] at hst'
      obtain ⟨row, hrow, hR⟩ := forall2_getElem?_right hF r.toNat hrow'
      rw [hrow]
      simp only [Option.getD_some]
      exact forall2_getElem?_right hR c.toNat hst'
  · rw [if_neg hg] at hst'
    exact absurd hst' (by simp)

theorem coreFrame_countMines {b b' : Board} (h : b.CoreFrame b') :
    b'.countMines = b.countMines :=
  countGrid_eq_of_forall2_grid _ (fun a b hab => hab.1) h.2.2.2.2.2.2.2.2.2.2

theorem coreFrame_allClosed {b b' : Board} (h : b.CoreFrame b') (hac : b.AllClosed) :
    b'.AllClosed := by
  intro r c st' hst'
  obtain ⟨st, hst, hR⟩ := cells_forall2_getCellState_right h.2.2.2.2.2.2.2.2.2.2 r c hst'
  obtain ⟨ho, hf⟩ := hac r c st hst
  exact ⟨hR.2.1.trans ho, hR.2.2.trans hf⟩

/-! ### `startGame` decomposition and placement success -/

theorem inB_iff (b : Board) (r c : Int) :
    b.inB r c = true ↔
      0 ≤ r ∧ r < (b.rows : Int) ∧ 0 ≤ c ∧ c < (b.cols : Int) := by
  unfold Board.inB
  simp [Bool.and_eq_true, decide_eq_true_eq, and_assoc]

theorem placeMines_eq (b : Board) (initialRow initialCol : Int)
    (adjPerm : List (Int × Int)) (u : Nat) (candPerm : List (Int × Int)) :
    b.placeMines initialRow initialCol adjPerm u candPerm =
      (if (placeMinesLoop b candPerm b.mines).2 then
        ((placeMinesLoop b candPerm b.mines).1, true)
      else ((placeMinesLoop b candPerm b.mines).1.calculateAdjacentMines, false)) := by
  unfold Board.placeMines
  rcases hpr : placeMinesLoop b candPerm b.mines with ⟨b', crashed⟩
  simp only []

theorem startGame_eq (b : Board) (row col : Int) (adjPerm : List (Int × Int)) (u : Nat)
    (candPerm : List (Int × Int)) (now : Nat) (hin : b.inB row col = true) :
    b.startGame row col adjPerm u candPerm now =
      (if (placeMinesLoop b.reset candPerm b.mines).2 then
        JsOutcome.typeError (placeMinesLoop b.reset candPerm b.mines).1
      else JsOutcome.ok
        { (placeMinesLoop b.reset candPerm b.mines).1.calculateAdjacentMines with
          startTime := some now }) := by
  unfold Board.startGame
  rw [if_neg (by simp [hin])]
  have hmines : b.reset.mines = b.mines := rfl
  dsimp only
  rw [placeMines_eq]
  rw [hmines]
  by_cases hcr : (placeMinesLoop b.reset candPerm b.mines).2 = true
  · rw [if_pos hcr, if_pos hcr]
    simp
  · rw [if_neg hcr, if_neg hcr]
    simp

theorem length_le_of_nodup_subset {α : Type} [DecidableEq α] (excl l : List α)
    (he : excl.Nodup) (hl : l.Nodup) (hsub : ∀ x ∈ excl, x ∈ l) :
    excl.length ≤ l.length := by
  have hperm : (l.filter (fun x => decide (x ∈ excl))).Perm excl := by
    have hnd : (l.filter (fun x => decide (x ∈ excl))).Nodup := hl.filter _
    rw [List.perm_ext_iff_of_nodup hnd he]
    intro x
    simp only [List.mem_filter, decide_eq_true_eq]
    constructor
    · intro hx
      exact hx.2
    · intro hx
      exact ⟨hsub x hx, hx⟩
  have h1 := hperm.length_eq
  have h2 := List.length_filter_le (fun x => decide (x ∈ excl)) l
  omega


theorem filter_replicate_false {α : Type} (p : α → Bool) (a : α) (hp : p a = false)
    (n : Nat) : (List.replicate n a).filter p = [] := by
  induction n with
  | zero => rfl
  | succ m ih => simp [List.replicate_succ, List.filter_cons, hp, ih]

theorem countGrid_initGrid (p : CellState → Bool) (hp : p CellState.init = false)
    (rows cols : Nat) : countGrid p (initGrid rows cols) = 0 := by
  induction rows with
  | zero => rfl
  | succ n ih =>
    unfold initGrid at ih ⊢
    rw [List.replicate_succ]
    rw [countGrid_cons]
    rw [filter_replicate_false p CellState.init hp cols]
    simpa using ih

theorem countMines_reset (b : Board) : b.reset.countMines = 0 := by
  unfold Board.countMines
  exact countGrid_initGrid _ rfl b.rows b.cols

theorem nodup_buildCellsList (b : Board) (excl : List (Int × Int)) :
    (b.buildCellsListWithoutMines excl).Nodup := by
  unfold Board.buildCellsListWithoutMines
  exact (nodup_allCells b.rows b.cols).filter _

/-- The exclusion list built by `#placeMines` — the start cell plus the
sliced shuffled neighbour list — is duplicate-free, lies inside the grid,
and leaves exactly `rows*cols - (1 + min (u+1) |neighbours|)` candidates. -/
theorem candList_facts (b : Board) (row col : Int) (adjPerm : List (Int × Int)) (u : Nat)
    (hin : b.inB row col = true)
    (hadj : adjPerm.Perm (b.getAdjacentCells row col)) :
    ((row, col) :: adjPerm.take (u + 1)).Nodup ∧
    (∀ x ∈ (row, col) :: adjPerm.take (u + 1), x ∈ allCells b.rows b.cols) ∧
    (b.reset.buildCellsListWithoutMines ((row, col) :: adjPerm.take (u + 1))).length
      = b.rows * b.cols - (1 + min (u + 1) adjPerm.length) ∧
    1 + min (u + 1) adjPerm.length ≤ b.rows * b.cols := by
  have hadjnd : adjPerm.Nodup := hadj.nodup_iff.2 (nodup_getAdjacentCells b row col)
  have htakend : (adjPerm.take (u + 1)).Nodup :=
    List.Nodup.sublist (List.take_sublist (u + 1) adjPerm) hadjnd
  have hstartnot : (row, col) ∉ adjPerm.take (u + 1) := by
    intro hmem
    have h1 : (row, col) ∈ adjPerm := (List.take_sublist (u + 1) adjPerm).subset hmem
    have h2 : (row, col) ∈ b.getAdjacentCells row col := hadj.subset h1
    exact start_not_mem_getAdjacentCells b row col h2
  have hexclnd : ((row, col) :: adjPerm.take (u + 1)).Nodup :=
    List.nodup_cons.2 ⟨hstartnot, htakend⟩
  have hsub : ∀ x ∈ (row, col) :: adjPerm.take (u + 1), x ∈ allCells b.rows b.cols := by
    intro x hx
    rcases List.mem_cons.1 hx with hx1 | hx2
    · subst hx1
      rw [mem_allCells]
      have hb := (inB_iff b row col).1 hin
      exact ⟨hb.1, hb.2.1, hb.2.2.1, hb.2.2.2⟩
    · have h1 : x ∈ adjPerm := (List.take_sublist (u + 1) adjPerm).subset hx2
      have h2 : x ∈ b.getAdjacentCells row col := hadj.subset h1
      obtain ⟨d, hd, heq, h3, h4, h5, h6⟩ := (mem_getAdjacentCells b row col x).1 h2
      rw [mem_allCells]
      exact ⟨h3, h4, h5, h6⟩
  have hexlen : ((row, col) :: adjPerm.take (u + 1)).length
      = 1 + min (u + 1) adjPerm.length := by
    simp [List.length_take]
    omega
  have hle : 1 + min (u + 1) adjPerm.length ≤ b.rows * b.cols := by
    have h1 := length_le_of_nodup_subset _ _ hexclnd (nodup_allCells b.rows b.cols) hsub
    rw [hexlen] at h1
    rw [length_allCells] at h1
    exact h1
  refine ⟨hexclnd, hsub, ?_, hle⟩
  show ((allCells b.rows b.cols).filter
      (fun p => ¬ p ∈ (row, col) :: adjPerm.take (u + 1))).length = _
  rw [length_filter_not_mem (allCells b.rows b.cols)
    ((row, col) :: adjPerm.take (u + 1)) _ (fun x => by simp)
    (nodup_allCells b.rows b.cols) hexclnd hsub]
  rw [length_allCells, hexlen]

/-- Every candidate position points at a fresh, non-mined cell of the reset
grid. -/
theorem candPerm_some (b : Board) (row col : Int) (adjPerm : List (Int × Int)) (u : Nat)
    (candPerm : List (Int × Int))
    (hcand : candPerm.Perm (b.reset.buildCellsListWithoutMines
        ((row, col) :: adjPerm.take (u + 1)))) :
    ∀ p ∈ candPerm,
      ∃ st, b.reset.getCellState p.1 p.2 = some st ∧ st.isMine = false := by
  intro p hp
  have hpin := hcand.subset hp
  have hmem : p ∈ allCells b.rows b.cols := List.mem_of_mem_filter hpin
  have hb := (mem_allCells b.rows b.cols p).1 hmem
  refine ⟨CellState.init, ?_, rfl⟩
  rw [getCellState_reset]
  rw [if_pos ⟨hb.1, hb.2.1, hb.2.2.1, hb.2.2.2⟩]

/-- C6 (amended): with the start cell and the chosen neighbour subset
excluded, mine placement succeeds if and only if `mineCount` fits among the
remaining `rows*cols - (1 + |chosen neighbours|)` cells; the precondition
`mineCount < rows*cols` alone does not guarantee success. -/
theorem C6_placement_success_iff (b : Board) (row col : Int)
    (adjPerm : List (Int × Int)) (u : Nat) (candPerm : List (Int × Int)) (now : Nat)
    (hin : b.inB row col = true)
    (hadj : adjPerm.Perm (b.getAdjacentCells row col))
    (hcand : candPerm.Perm (b.reset.buildCellsListWithoutMines
        ((row, col) :: adjPerm.take (u + 1)))) :
    ((b.startGame row col adjPerm u candPerm now).isOk = true ↔
      b.mines + (1 + min (u + 1) adjPerm.length) ≤ b.rows * b.cols) := by
  obtain ⟨hexclnd, hsub, hlen, hle⟩ := candList_facts b row col adjPerm u hin hadj
  have hcandlen : candPerm.length
      = b.rows * b.cols - (1 + min (u + 1) adjPerm.length) :=
    hcand.length_eq.trans hlen
  have hsome := candPerm_some b row col adjPerm u candPerm hcand
  rw [startGame_eq b row col adjPerm u candPerm now hin]
  constructor
  · intro hok
    by_contra hgt
    push_neg at hgt
    have hlt : candPerm.length < b.mines := by omega
    have hcrash := placeMinesLoop_crash b.mines candPerm b.reset hlt
    rw [if_pos hcrash] at hok
    exact absurd hok (by simp [JsOutcome.isOk])
  · intro hle2
    have hm : b.mines ≤ candPerm.length := by omega
    have hnodupcand : candPerm.Nodup :=
      hcand.nodup_iff.2 (nodup_buildCellsList b.reset _)
    have hspec := placeMinesLoop_spec b.mines candPerm b.reset hnodupcand hsome hm
    rw [if_neg (by rw [hspec.1]; simp)]
    simp [JsOutcome.isOk]

/-- C6 counterexample: a 2×2 board with 3 mines satisfies
`mineCount < rows*cols`, yet `startGame(0,0)` crashes when the random
neighbour subset is all 3 neighbours — all 4 cells are excluded and the
placement loop reads past the end of the empty candidate list. -/
theorem C6_counterexample_placement_crash :
    (Board.new 2 2 3).mines < (Board.new 2 2 3).rows * (Board.new 2 2 3).cols ∧
    [((0 : Int), (1 : Int)), (1, 0), (1, 1)] = (Board.new 2 2 3).getAdjacentCells 0 0 ∧
    ([] : List (Int × Int)) = (Board.new 2 2 3).reset.buildCellsListWithoutMines
        ((0, 0) :: [((0 : Int), (1 : Int)), (1, 0), (1, 1)].take (2 + 1)) ∧
    ((Board.new 2 2 3).startGame 0 0 [(0, 1), (1, 0), (1, 1)] 2 [] 0).isTypeErr
      = true := by
  refine ⟨by decide, by decide, by decide, by decide⟩

/-- Witness for the amended C6 at a concrete board: the success criterion
evaluates as the theorem states. -/
theorem C6_placement_success_iff_witness :
    (Board.new 2 2 3).inB 0 0 = true ∧
    (((Board.new 2 2 3).startGame 0 0 [(0, 1), (1, 0), (1, 1)] 2 [] 0).isOk = true ↔
      (Board.new 2 2 3).mines + (1 + min (2 + 1) [((0 : Int), (1 : Int)), (1, 0), (1, 1)].length)
        ≤ (Board.new 2 2 3).rows * (Board.new 2 2 3).cols) :=
  ⟨by decide,
   C6_placement_success_iff (Board.new 2 2 3) 0 0 [(0, 1), (1, 0), (1, 1)] 2 [] 0
     (by decide) (by decide) (by decide)⟩

/-- C1: whenever `startGame(row,col)` returns normally, the start cell is
not mined and exactly `mineCount` cells are mined. -/
theorem C1_first_cell_safe_mine_count (b : Board) (row col : Int)
    (adjPerm : List (Int × Int)) (u : Nat) (candPerm : List (Int × Int)) (now : Nat)
    (b' : Board) (hin : b.inB row col = true)
    (hadj : adjPerm.Perm (b.getAdjacentCells row col))
    (hcand : candPerm.Perm (b.reset.buildCellsListWithoutMines
        ((row, col) :: adjPerm.take (u + 1))))
    (h : b.startGame row col adjPerm u candPerm now = JsOutcome.ok b') :
    (b'.stateAt row col).isMine = false ∧ b'.countMines = b.mines := by
  rw [startGame_eq b row col adjPerm u candPerm now hin] at h
  by_cases hcr : (placeMinesLoop b.reset candPerm b.mines).2 = true
  · rw [if_pos hcr] at h
    exact absurd h (by simp)
  · rw [if_neg hcr] at h
    cases h
    have hm : b.mines ≤ candPerm.length := by
      by_contra hgt
      push_neg at hgt
      exact hcr (placeMinesLoop_crash b.mines candPerm b.reset hgt)
    have hnodupcand : candPerm.Nodup :=
      hcand.nodup_iff.2 (nodup_buildCellsList b.reset _)
    have hsome := candPerm_some b row col adjPerm u candPerm hcand
    have hspec := placeMinesLoop_spec b.mines candPerm b.reset hnodupcand hsome hm
    have hstartnotin : ((row, col) ∈ candPerm.take b.mines → False) := by
      intro hmem
      have h1 : (row, col) ∈ candPerm :=
        (List.take_sublist b.mines candPerm).subset hmem
      have h2 := hcand.subset h1
      have h3 := List.of_mem_filter h2
      simp only [decide_eq_true_eq] at h3
      exact h3 (List.mem_cons_self _ _)
    have huntouched := hspec.2.2.2 row col hstartnotin
    have hresetcell : b.reset.getCellState row col = some CellState.init := by
      rw [getCellState_reset]
      have hb := (inB_iff b row col).1 hin
      rw [if_pos ⟨hb.1, hb.2.1, hb.2.2.1, hb.2.2.2⟩]
    have hloopcell : (placeMinesLoop b.reset candPerm b.mines).1.getCellState row col
        = some CellState.init := by
      rw [huntouched, hresetcell]
    have hcf := coreFrame_calculateAdjacentMines (placeMinesLoop b.reset candPerm b.mines).1
    obtain ⟨st', hst', hcore⟩ :=
      cells_forall2_getCellState_left hcf.2.2.2.2.2.2.2.2.2.2 row col hloopcell
    constructor
    · have hcells : Board.getCellState
          { (placeMinesLoop b.reset candPerm b.mines).1.calculateAdjacentMines with
            startTime := some now } row col
        = (placeMinesLoop b.reset candPerm
            b.mines).1.calculateAdjacentMines.getCellState row col := rfl
      unfold Board.stateAt
      rw [hcells, hst']
      simpa using hcore.1
    · have hcnt : Board.countMines
          { (placeMinesLoop b.reset candPerm b.mines).1.calculateAdjacentMines with
            startTime := some now }
        = (placeMinesLoop b.reset candPerm b.mines).1.calculateAdjacentMines.countMines := rfl
      rw [hcnt, coreFrame_countMines hcf, hspec.2.1, countMines_reset]
      omega

/-- Witness for C1 on a concrete 3×3 game. -/
theorem C1_first_cell_safe_mine_count_witness :
    (Board.new 3 3 1).inB 0 0 = true ∧
    ((((Board.new 3 3 1).startGame 0 0 [(0, 1), (1, 0), (1, 1)] 0
        [(0, 2), (1, 0), (1, 1), (1, 2), (2, 0), (2, 1), (2, 2)] 0).getOr
          (Board.new 3 3 1)).stateAt 0 0).isMine = false ∧
    (((Board.new 3 3 1).startGame 0 0 [(0, 1), (1, 0), (1, 1)] 0
        [(0, 2), (1, 0), (1, 1), (1, 2), (2, 0), (2, 1), (2, 2)] 0).getOr
          (Board.new 3 3 1)).countMines = (Board.new 3 3 1).mines := by
  have h := C1_first_cell_safe_mine_count (Board.new 3 3 1) 0 0 [(0, 1), (1, 0), (1, 1)] 0
    [(0, 2), (1, 0), (1, 1), (1, 2), (2, 0), (2, 1), (2, 2)] 0
    (((Board.new 3 3 1).startGame 0 0 [(0, 1), (1, 0), (1, 1)] 0
        [(0, 2), (1, 0), (1, 1), (1, 2), (2, 0), (2, 1), (2, 2)] 0).getOr (Board.new 3 3 1))
    (by decide) (by decide) (by decide) (by decide)
  exact ⟨by decide, h.1, h.2⟩


/-! ### Lifecycle flags across the flood fill (claim C2) -/

theorem foldl_inv {β : Type} (P : Board → Prop) (l : List β) (step : Board → β → Board)
    (b : Board) (hb : P b)
    (hstep : ∀ (acc : Board) (d : β), d ∈ l → P acc → P (step acc d)) :
    P (l.foldl step b) := by
  induction l generalizing b with
  | nil => exact hb
  | cons d t ih =>
    exact ih (step b d) (hstep b d (List.mem_cons_self d t) hb)
      (fun acc e he hp => hstep acc e (List.mem_cons_of_mem d he) hp)

theorem openAllMines_fields (b : Board) :
    b.openAllMines.isGameWon = b.isGameWon ∧ b.openAllMines.isGameOver = b.isGameOver ∧
    b.openAllMines.openedCells = b.openedCells := by
  unfold Board.openAllMines
  refine foldl_inv (fun x => x.isGameWon = b.isGameWon ∧ x.isGameOver = b.isGameOver ∧
    x.openedCells = b.openedCells) _ _ b ⟨rfl, rfl, rfl⟩ ?_
  intro acc d _ hp
  simpa using hp

/-- Once the game is won or over, `openCell` is inert. -/
theorem openCellGo_frozen (fuel : Nat) (m : Board) (r c : Int) (now : Nat)
    (h : m.isGameOver = true ∨ m.isGameWon = true) :
    openCellGo fuel m r c now = m := by
  cases fuel with
  | zero => rfl
  | succ fuel =>
    rw [openCellGo_succ]
    rw [if_pos ?_]
    cases h with
    | inl h1 => simp [h1]
    | inr h1 => simp [h1]

theorem overFalse_openCellGo_and_adj (fuel : Nat) :
    (∀ (m : Board) (r c : Int) (now : Nat), m.isGameOver = false →
      (∀ st, m.getCellState r c = some st → st.isMine = false) →
      (openCellGo fuel m r c now).isGameOver = false) ∧
    (∀ (m : Board) (r c : Int) (now : Nat), m.isGameOver = false →
      (openAdjacentCells fuel m r c now).isGameOver = false) := by
  induction fuel with
  | zero =>
    constructor
    · intro m r c now hov _
      rw [openCellGo_zero]
      exact hov
    · intro m r c now hov
      rw [openAdjacentCells_eq]
      split
      · exact hov
      split
      · exact hov
      refine foldl_inv (fun x => x.isGameOver = false) _ _ m hov ?_
      intro acc d _ hp
      unfold adjStep
      dsimp only
      split
      · exact hp
      split
      · exact hp
      cases acc.getCellState (r + d.1) (c + d.2) with
      | none => exact hp
      | some st =>
        simp only []
        split
        · exact hp
        split
        · exact hp
        rw [openCellGo_zero]
        exact hp
  | succ fuel ih =>
    have hA : ∀ (m : Board) (r c : Int) (now : Nat), m.isGameOver = false →
        (∀ st, m.getCellState r c = some st → st.isMine = false) →
        (openCellGo (fuel + 1) m r c now).isGameOver = false := by
      intro m r c now hov hnm
      rw [openCellGo_succ]
      split
      · exact hov
      split
      · exact hov
      cases hst : m.getCellState r c with
      | none => exact hov
      | some st =>
        simp only []
        split
        · exact hov
        split
        · rename_i hmine
          exact absurd hmine (by simp [hnm st hst])
        · set b1 := { (m.updateCell r c fun s => s.setIsOpened true) with
              openedCells := m.openedCells + 1 } with hb1
          have hov1 : b1.isGameOver = false := by
            show (m.updateCell r c fun s => s.setIsOpened true).isGameOver = false
            rw [updateCell_isGameOver]
            exact hov
          have hover2 : ∀ x : Board, x.isGameOver = false →
              (if x.wonCheck = true then { x with isGameWon := true } else x).isGameOver
                = false := by
            intro x hx
            split
            · exact hx
            · exact hx
          split
          · exact hover2 _ (ih.2 b1 r c now hov1)
          · exact hover2 _ hov1
    refine ⟨hA, ?_⟩
    intro m r c now hov
    rw [openAdjacentCells_eq]
    split
    · exact hov
    split
    · exact hov
    refine foldl_inv (fun x => x.isGameOver = false) _ _ m hov ?_
    intro acc d _ hp
    unfold adjStep
    dsimp only
    split
    · exact hp
    split
    · exact hp
    cases hst2 : acc.getCellState (r + d.1) (c + d.2) with
    | none => exact hp
    | some st2 =>
      simp only []
      split
      · exact hp
      split
      · exact hp
      rename_i hnotop hnotmine
      refine hA acc (r + d.1) (c + d.2) now hp ?_
      intro st hst
      rw [hst2] at hst
      cases hst
      simpa using hnotmine

theorem overFalse_openCellGo (fuel : Nat) (m : Board) (r c : Int) (now : Nat)
    (hov : m.isGameOver = false)
    (hnm : ∀ st, m.getCellState r c = some st → st.isMine = false) :
    (openCellGo fuel m r c now).isGameOver = false :=
  (overFalse_openCellGo_and_adj fuel).1 m r c now hov hnm

theorem overFalse_openAdjacentCells (fuel : Nat) (m : Board) (r c : Int) (now : Nat)
    (hov : m.isGameOver = false) :
    (openAdjacentCells fuel m r c now).isGameOver = false :=
  (overFalse_openCellGo_and_adj fuel).2 m r c now hov


theorem adjStep_zero (now : Nat) (row col : Int) (acc : Board) (d : Int × Int) :
    adjStep 0 now row col acc d = acc := by
  unfold adjStep
  dsimp only
  split
  · rfl
  split
  · rfl
  cases acc.getCellState (row + d.1) (col + d.2) with
  | none => rfl
  | some st =>
    simp only []
    split
    · rfl
    split
    · rfl
    rw [openCellGo_zero]

theorem openAdjacentCells_zero (b : Board) (row col : Int) (now : Nat) :
    openAdjacentCells 0 b row col now = b := by
  rw [openAdjacentCells_eq]
  split
  · rfl
  split
  · rfl
  refine foldl_inv (fun x => x = b) _ _ b rfl ?_
  intro acc d _ hp
  rw [adjStep_zero]
  exact hp

/-- The win flag is only ever set at the moment the opened-cells counter
reaches `rows*cols - mines`, and only while `isGameOver` is false. -/
theorem wonTrans_openCellGo_and_adj (fuel : Nat) :
    (∀ (m : Board) (r c : Int) (now : Nat) (b' : Board),
      openCellGo fuel m r c now = b' → b'.isGameWon = true →
      m.isGameWon = true ∨
        ((b'.openedCells : Int) = (m.rows : Int) * (m.cols : Int) - (m.mines : Int) ∧
          m.isGameOver = false ∧ b'.isGameOver = false)) ∧
    (∀ (m : Board) (r c : Int) (now : Nat) (b' : Board),
      openAdjacentCells fuel m r c now = b' → b'.isGameWon = true →
      m.isGameWon = true ∨
        ((b'.openedCells : Int) = (m.rows : Int) * (m.cols : Int) - (m.mines : Int) ∧
          m.isGameOver = false ∧ b'.isGameOver = false)) := by
  induction fuel with
  | zero =>
    constructor
    · intro m r c now b' hEq hwon
      rw [openCellGo_zero] at hEq
      subst hEq
      exact Or.inl hwon
    · intro m r c now b' hEq hwon
      rw [openAdjacentCells_zero] at hEq
      subst hEq
      exact Or.inl hwon
  | succ fuel ih =>
    have hA : ∀ (m : Board) (r c : Int) (now : Nat) (b' : Board),
        openCellGo (fuel + 1) m r c now = b' → b'.isGameWon = true →
        m.isGameWon = true ∨
          ((b'.openedCells : Int) = (m.rows : Int) * (m.cols : Int) - (m.mines : Int) ∧
            m.isGameOver = false ∧ b'.isGameOver = false) := by
      intro m r c now b' hEq hwon
      rw [openCellGo_succ] at hEq
      by_cases hterm : (m.isGameOver || m.isGameWon) = true
      · rw [if_pos hterm] at hEq
        subst hEq
        exact Or.inl hwon
      · rw [if_neg hterm] at hEq
        simp only [Bool.or_eq_true, not_or, Bool.not_eq_true] at hterm
        by_cases hin : m.inB r c = true
        · rw [if_neg (by simp [hin])] at hEq
          cases hst : m.getCellState r c with
          | none =>
            rw [hst] at hEq
            simp only [] at hEq
            subst hEq
            exact Or.inl hwon
          | some st =>
            rw [hst] at hEq
            simp only [] at hEq
            by_cases hop : st.isOpened = true
            · rw [if_pos hop] at hEq
              subst hEq
              exact Or.inl hwon
            · rw [if_neg hop] at hEq
              by_cases hmine : st.isMine = true
              · rw [if_pos hmine] at hEq
                subst hEq
                have hf := (openAllMines_fields
                  { m with isGameOver := true, endTime := some now }).1
                rw [hf] at hwon
                exact Or.inl hwon
              · rw [if_neg hmine] at hEq
                set b1 : Board := { (m.updateCell r c fun s => s.setIsOpened true) with
                    openedCells := m.openedCells + 1 } with hb1def
                set b2 : Board := (if st.adjacentMines = 0 then
                    openAdjacentCells fuel b1 r c now else b1) with hb2def
                have hb1rows : b1.rows = m.rows := by
                  rw [hb1def]
                  show (m.updateCell r c fun s => s.setIsOpened true).rows = m.rows
                  exact updateCell_rows m r c _
                have hb1cols : b1.cols = m.cols := by
                  rw [hb1def]
                  show (m.updateCell r c fun s => s.setIsOpened true).cols = m.cols
                  exact updateCell_cols m r c _
                have hb1mines : b1.mines = m.mines := by
                  rw [hb1def]
                  show (m.updateCell r c fun s => s.setIsOpened true).mines = m.mines
                  exact updateCell_mines m r c _
                have hb1over : b1.isGameOver = false := by
                  rw [hb1def]
                  show (m.updateCell r c fun s => s.setIsOpened true).isGameOver = false
                  rw [updateCell_isGameOver]
                  exact hterm.1
                have hb1won : b1.isGameWon = false := by
                  rw [hb1def]
                  show (m.updateCell r c fun s => s.setIsOpened true).isGameWon = false
                  rw [updateCell_isGameWon]
                  exact hterm.2
                have hb2rows : b2.rows = m.rows := by
                  rw [hb2def]
                  split
                  · exact ((evolves_openAdjacentCells fuel b1 r c now).1).trans hb1rows
                  · exact hb1rows
                have hb2cols : b2.cols = m.cols := by
                  rw [hb2def]
                  split
                  · exact ((evolves_openAdjacentCells fuel b1 r c now).2.1).trans hb1cols
                  · exact hb1cols
                have hb2mines : b2.mines = m.mines := by
                  rw [hb2def]
                  split
                  · exact ((evolves_openAdjacentCells fuel b1 r c now).2.2.1).trans hb1mines
                  · exact hb1mines
                have hb2over : b2.isGameOver = false := by
                  rw [hb2def]
                  split
                  · exact overFalse_openAdjacentCells fuel b1 r c now hb1over
                  · exact hb1over
                by_cases hwc : b2.wonCheck = true
                · rw [if_pos hwc] at hEq
                  subst hEq
                  unfold Board.wonCheck at hwc
                  rw [decide_eq_true_eq] at hwc
                  refine Or.inr ⟨?_, hterm.1, ?_⟩
                  · show (b2.openedCells : Int) = _
                    rw [hwc, hb2rows, hb2cols, hb2mines]
                  · show b2.isGameOver = false
                    exact hb2over
                · rw [if_neg hwc] at hEq
                  subst hEq
                  by_cases hadj : st.adjacentMines = 0
                  · have hb2eq : b2 = openAdjacentCells fuel b1 r c now := by
                      rw [hb2def, if_pos hadj]
                    have hres := ih.2 b1 r c now b2 hb2eq.symm hwon
                    rcases hres with h1 | h2
                    · rw [hb1won] at h1
                      exact absurd h1 (by simp)
                    · exfalso
                      apply hwc
                      unfold Board.wonCheck
                      rw [decide_eq_true_eq]
                      rw [hb2rows, hb2cols, hb2mines]
                      rw [h2.1, hb1rows, hb1cols, hb1mines]
                  · have hb2eq : b2 = b1 := by
                      rw [hb2def, if_neg hadj]
                    rw [hb2eq, hb1won] at hwon
                    exact absurd hwon (by simp)
        · rw [if_pos (by simp [Bool.not_eq_true] at hin ⊢; simp [hin])] at hEq
          subst hEq
          exact Or.inl hwon
    refine ⟨hA, ?_⟩
    intro m r c now b' hEq hwon
    rw [openAdjacentCells_eq] at hEq
    by_cases hg1 : 0 ≤ r ∧ r < (m.rows : Int)
    · rw [if_neg (by simp [hg1])] at hEq
      by_cases hg2 : 0 ≤ c ∧ c < (m.cols : Int)
      · rw [if_neg (by simp [hg2])] at hEq
        have hfold := foldl_inv (fun x =>
            (x.isGameWon = true → m.isGameWon = true ∨
              ((x.openedCells : Int)
                  = (m.rows : Int) * (m.cols : Int) - (m.mines : Int) ∧
                m.isGameOver = false ∧ x.isGameOver = false)) ∧
            x.rows = m.rows ∧ x.cols = m.cols ∧ x.mines = m.mines ∧
            x.isGameOver = m.isGameOver)
          directions (adjStep (fuel + 1) now r c) m
          ⟨fun hw => Or.inl hw, rfl, rfl, rfl, rfl⟩ ?_
        · rw [hEq] at hfold
          exact hfold.1 hwon
        · intro acc d _ hp
          unfold adjStep
          dsimp only
          split
          · exact hp
          split
          · exact hp
          cases hst2 : acc.getCellState (r + d.1) (c + d.2) with
          | none => exact hp
          | some st2 =>
            simp only []
            split
            · exact hp
            split
            · exact hp
            rename_i hnotop hnotmine
            by_cases haccterm : (acc.isGameOver || acc.isGameWon) = true
            · rw [openCellGo_frozen (fuel + 1) acc (r + d.1) (c + d.2) now (by
                cases hov : acc.isGameOver
                · right
                  simp [hov] at haccterm
                  exact haccterm
                · left
                  rfl)]
              exact hp
            · simp only [Bool.or_eq_true, not_or, Bool.not_eq_true] at haccterm
              set x' : Board := openCellGo (fuel + 1) acc (r + d.1) (c + d.2) now with hxdef
              have hxover : x'.isGameOver = false := by
                rw [hxdef]
                refine overFalse_openCellGo (fuel + 1) acc (r + d.1) (c + d.2) now
                  haccterm.1 ?_
                intro st3 hst3
                rw [hst2] at hst3
                cases hst3
                simpa using hnotmine
              refine ⟨?_, ?_, ?_, ?_, ?_⟩
              · intro hxwon
                have hres := hA acc (r + d.1) (c + d.2) now x' hxdef.symm hxwon
                rcases hres with h1 | h2
                · rw [haccterm.2] at h1
                  exact absurd h1 (by simp)
                · refine Or.inr ⟨?_, ?_, hxover⟩
                  · rw [h2.1, hp.2.1, hp.2.2.1, hp.2.2.2.1]
                  · rw [← hp.2.2.2.2]
                    exact haccterm.1
              · exact ((evolves_openCellGo (fuel + 1) acc _ _ now).1).trans hp.2.1
              · exact ((evolves_openCellGo (fuel + 1) acc _ _ now).2.1).trans hp.2.2.1
              · exact ((evolves_openCellGo (fuel + 1) acc _ _ now).2.2.1).trans hp.2.2.2.1
              · rw [hxover, ← hp.2.2.2.2]
                exact haccterm.1.symm
      · rw [if_pos (by simp [hg2])] at hEq
        subst hEq
        exact Or.inl hwon
    · rw [if_pos (by simp [hg1])] at hEq
      subst hEq
      exact Or.inl hwon


/-- C2: `isGameWon` flips to true only when the opened-cells counter equals
`rows*cols - mines` and only while `isGameOver` is false; conversely, a
successful open of a fresh non-mine cell whose final counter equals
`rows*cols - mines` always sets it. -/
theorem C2_win_condition_exact (b : Board) (r c : Int) (now : Nat) (b' : Board)
    (h : b.openCell r c now = JsOutcome.ok b') :
    (b'.isGameWon = true → b.isGameWon = false →
      ((b'.openedCells : Int) = (b.rows : Int) * (b.cols : Int) - (b.mines : Int) ∧
        b.isGameOver = false ∧ b'.isGameOver = false)) ∧
    (b.isGameOver = false → b.isGameWon = false → b.inB r c = true →
      ∀ st, b.getCellState r c = some st → st.isOpened = false → st.isMine = false →
        (b'.openedCells : Int) = (b.rows : Int) * (b.cols : Int) - (b.mines : Int) →
        b'.isGameWon = true) := by
  constructor
  · intro hwon hnotwon
    unfold Board.openCell at h
    by_cases hterm : (b.isGameOver || b.isGameWon) = true
    · rw [if_pos hterm] at h
      cases h
      exact absurd hwon (by simp [hnotwon])
    · rw [if_neg hterm] at h
      by_cases hin : b.inB r c = true
      · rw [if_neg (by simp [hin])] at h
        cases h
        have hres := (wonTrans_openCellGo_and_adj (b.rows * b.cols + 1)).1 b r c now
          (openCellGo (b.rows * b.cols + 1) b r c now) rfl hwon
        rcases hres with h1 | h2
        · exact absurd h1 (by simp [hnotwon])
        · exact h2
      · rw [if_pos (by simp [Bool.not_eq_true] at hin ⊢; simp [hin])] at h
        exact absurd h (by simp)
  · intro hov hwn hin st hst hop hmine hcount
    rw [openCell_eq_go b r c now hov hwn hin] at h
    cases h
    rw [openCellGo_succ] at hcount ⊢
    rw [if_neg (by simp [hov, hwn])] at hcount ⊢
    rw [if_neg (by simp [hin])] at hcount ⊢
    rw [hst] at hcount ⊢
    simp only [] at hcount ⊢
    rw [if_neg (by simp [hop])] at hcount ⊢
    rw [if_neg (by simp [hmine])] at hcount ⊢
    set b1 : Board := { (b.updateCell r c fun s => s.setIsOpened true) with
        openedCells := b.openedCells + 1 } with hb1def
    set b2 : Board := (if st.adjacentMines = 0 then
        openAdjacentCells (b.rows * b.cols) b1 r c now else b1) with hb2def
    have hb1rows : b1.rows = b.rows := by
      rw [hb1def]
      show (b.updateCell r c fun s => s.setIsOpened true).rows = b.rows
      exact updateCell_rows b r c _
    have hb1cols : b1.cols = b.cols := by
      rw [hb1def]
      show (b.updateCell r c fun s => s.setIsOpened true).cols = b.cols
      exact updateCell_cols b r c _
    have hb1mines : b1.mines = b.mines := by
      rw [hb1def]
      show (b.updateCell r c fun s => s.setIsOpened true).mines = b.mines
      exact updateCell_mines b r c _
    have hb2rows : b2.rows = b.rows := by
      rw [hb2def]
      split
      · exact ((evolves_openAdjacentCells (b.rows * b.cols) b1 r c now).1).trans hb1rows
      · exact hb1rows
    have hb2cols : b2.cols = b.cols := by
      rw [hb2def]
      split
      · exact ((evolves_openAdjacentCells (b.rows * b.cols) b1 r c now).2.1).trans hb1cols
      · exact hb1cols
    have hb2mines : b2.mines = b.mines := by
      rw [hb2def]
      split
      · exact ((evolves_openAdjacentCells (b.rows * b.cols) b1 r c now).2.2.1).trans hb1mines
      · exact hb1mines
    by_cases hwc : b2.wonCheck = true
    · rw [if_pos hwc]
    · exfalso
      apply hwc
      unfold Board.wonCheck
      rw [decide_eq_true_eq]
      rw [if_neg hwc] at hcount
      rw [hcount, hb2rows, hb2cols, hb2mines]

/-- The 3×3 game with a single mine at `(2,2)`, started at `(0,0)`. -/
def started33 : Board :=
  ((Board.new 3 3 1).startGame 0 0 [(0, 1), (1, 0), (1, 1)] 0
      [(2, 2), (0, 2), (1, 0), (1, 1), (1, 2), (2, 0), (2, 1)] 0).getOr (Board.new 3 3 1)

/-- Opening `(0,0)` flood-fills all 8 safe cells of `started33` and wins. -/
def won33 : Board := (started33.openCell 0 0 9).getOr started33

set_option maxRecDepth 8192 in
/-- Witness for C2 on the concrete 3×3 game: the flood fill opens all 8
safe cells in one call, the counter reaches `rows*cols - mines`, and the
win flag is set. -/
theorem C2_win_condition_exact_witness :
    started33.isGameWon = false ∧ won33.isGameWon = true := by
  have h := (C2_win_condition_exact started33 0 0 9 won33 (by decide)).2
    (by decide) (by decide) (by decide) (started33.stateAt 0 0)
    (by decide) (by decide) (by decide) (by decide)
  exact ⟨by decide, h⟩


/-! ### The opened-counter invariant (claim C4) -/

/-- Every cell of the grid is unopened (membership form, for counting). -/
def GridClosed (g : List (List CellState)) : Prop :=
  ∀ row ∈ g, ∀ st ∈ row, st.isOpened = false

theorem mem_listModify {α : Type} {l : List α} {n : Nat} {f : α → α} {x : α}
    (h : x ∈ listModify l n f) : x ∈ l ∨ ∃ a, a ∈ l ∧ x = f a := by
  induction l generalizing n with
  | nil => simp [listModify] at h
  | cons a t ih =>
    cases n with
    | zero =>
      rw [show listModify (a :: t) 0 f = f a :: t from rfl] at h
      rcases List.mem_cons.1 h with h1 | h2
      · exact Or.inr ⟨a, List.mem_cons_self a t, h1⟩
      · exact Or.inl (List.mem_cons_of_mem a h2)
    | succ m =>
      rw [show listModify (a :: t) (Nat.succ m) f = a :: listModify t m f from rfl] at h
      rcases List.mem_cons.1 h with h1 | h2
      · exact Or.inl (h1 ▸ List.mem_cons_self a t)
      · rcases ih h2 with h3 | ⟨a2, ha2, hx⟩
        · exact Or.inl (List.mem_cons_of_mem a h3)
        · exact Or.inr ⟨a2, List.mem_cons_of_mem a ha2, hx⟩

theorem gridClosed_updateCell (b : Board) (r c : Int) (f : CellState → CellState)
    (hf : ∀ st, st.isOpened = false → (f st).isOpened = false)
    (hg : GridClosed b.cells) : GridClosed (b.updateCell r c f).cells := by
  unfold Board.updateCell
  split
  · intro row hrow st hst
    rcases mem_listModify hrow with h1 | ⟨row0, hrow0, hreq⟩
    · exact hg row h1 st hst
    · subst hreq
      rcases mem_listModify hst with h2 | ⟨st0, hst0, hseq⟩
      · exact hg row0 hrow0 st h2
      · subst hseq
        exact hf st0 (hg row0 hrow0 st0 hst0)
  · exact hg

theorem filter_length_zero {α : Type} (p : α → Bool) (l : List α)
    (h : ∀ a ∈ l, p a = false) : (l.filter p).length = 0 := by
  induction l with
  | nil => rfl
  | cons a t ih =>
    rw [List.filter_cons]
    rw [if_neg (by simp [h a (List.mem_cons_self a t)])]
    exact ih (fun x hx => h x (List.mem_cons_of_mem a hx))

theorem countGrid_zero_of_all_false (p : CellState → Bool) (g : List (List CellState))
    (h : ∀ row ∈ g, ∀ st ∈ row, p st = false) : countGrid p g = 0 := by
  induction g with
  | nil => rfl
  | cons row g' ih =>
    rw [countGrid_cons]
    rw [filter_length_zero p row (h row (List.mem_cons_self row g'))]
    rw [Nat.zero_add]
    exact ih (fun r hr st hst => h r (List.mem_cons_of_mem row hr) st hst)

theorem gridClosed_initGrid (rows cols : Nat) : GridClosed (initGrid rows cols) := by
  intro row hrow st hst
  have h1 := List.eq_of_mem_replicate hrow
  subst h1
  have h2 := List.eq_of_mem_replicate hst
  subst h2
  rfl

theorem countOpenedNonMine_of_gridClosed (b : Board) (h : GridClosed b.cells) :
    b.countOpenedNonMine = 0 := by
  unfold Board.countOpenedNonMine
  refine countGrid_zero_of_all_false _ _ ?_
  intro row hrow st hst
  rw [h row hrow st hst]
  rfl

theorem gridClosed_setMineAt (b : Board) (x y : Int) (h : GridClosed b.cells) :
    GridClosed (b.setMineAt x y).cells := by
  show GridClosed (b.updateCell x y fun st => st.setIsMine true).cells
  exact gridClosed_updateCell b x y _ (fun st _ => rfl) h

theorem gridClosed_placeMinesLoop : ∀ (m : Nat) (l : List (Int × Int)) (b : Board),
    GridClosed b.cells → GridClosed (placeMinesLoop b l m).1.cells
  | 0, l, b, h => by simpa [placeMinesLoop] using h
  | Nat.succ m, [], b, h => by simpa [placeMinesLoop] using h
  | Nat.succ m, p :: rest, b, h => by
    unfold placeMinesLoop
    cases hst : b.getCellState p.1 p.2 with
    | none => exact h
    | some st =>
      simp only []
      exact gridClosed_placeMinesLoop m rest (b.setMineAt p.1 p.2)
        (gridClosed_setMineAt b p.1 p.2 h)

theorem setAdjacentMines_isOpened (st : CellState) (v : Int) :
    (st.setAdjacentMines v).isOpened = st.isOpened := by
  unfold CellState.setAdjacentMines
  split
  · rfl
  split
  · rfl
  · rfl

theorem setAdjacentMines_isMine (st : CellState) (v : Int) :
    (st.setAdjacentMines v).isMine = st.isMine := by
  unfold CellState.setAdjacentMines
  split
  · rfl
  split
  · rfl
  · rfl

theorem setAdjacentMines_isFlagged (st : CellState) (v : Int) :
    (st.setAdjacentMines v).isFlagged = st.isFlagged := by
  unfold CellState.setAdjacentMines
  split
  · rfl
  split
  · rfl
  · rfl

theorem gridClosed_calculateAdjacentMines (b : Board) (h : GridClosed b.cells) :
    GridClosed b.calculateAdjacentMines.cells := by
  unfold Board.calculateAdjacentMines
  refine foldl_inv (fun x => GridClosed x.cells) _ _ b h ?_
  intro acc p _ hp
  refine foldl_inv (fun x => GridClosed x.cells) _ _ acc hp ?_
  intro acc2 d _ hp2
  dsimp only
  split
  · refine gridClosed_updateCell acc2 _ _ _ ?_ hp2
    intro st hst
    split
    · exact hst
    · rw [setAdjacentMines_isOpened]
      exact hst
  · exact hp2

/-- The mines list always refers to mined cells. -/
def Board.MinesWfE (b : Board) : Prop :=
  ∀ p ∈ b.minesList, ∃ st, b.getCellState p.1 p.2 = some st ∧ st.isMine = true

/-- The C4 invariant: the counter counts the opened non-mine cells, and the
mines list refers to mined cells. -/
def Inv4 (b : Board) : Prop :=
  b.openedCells = b.countOpenedNonMine ∧ b.MinesWfE

theorem minesWfE_reset (b : Board) : b.reset.MinesWfE := by
  intro p hp
  simp [Board.reset] at hp

theorem inv4_reset (b : Board) : Inv4 b.reset := by
  refine ⟨?_, minesWfE_reset b⟩
  show (0 : Nat) = b.reset.countOpenedNonMine
  rw [countOpenedNonMine_of_gridClosed b.reset (gridClosed_initGrid b.rows b.cols)]

theorem minesWfE_setMineAt (b : Board) (x y : Int) (st : CellState)
    (hst : b.getCellState x y = some st) (h : b.MinesWfE) :
    (b.setMineAt x y).MinesWfE := by
  intro p hp
  rw [setMineAt_minesList] at hp
  rw [setMineAt_getCellState]
  rcases List.mem_append.1 hp with h1 | h2
  · obtain ⟨st0, hst0, hm0⟩ := h p h1
    by_cases he : p.1 = x ∧ p.2 = y
    · rw [if_pos he]
      rw [he.1, he.2] at hst0
      rw [hst0]
      exact ⟨st0.setIsMine true, rfl, rfl⟩
    · rw [if_neg he]
      exact ⟨st0, hst0, hm0⟩
  · have hpe : p = (x, y) := by simpa using h2
    subst hpe
    rw [if_pos ⟨rfl, rfl⟩, hst]
    exact ⟨st.setIsMine true, rfl, rfl⟩

theorem minesWfE_placeMinesLoop : ∀ (m : Nat) (l : List (Int × Int)) (b : Board),
    b.MinesWfE → (placeMinesLoop b l m).1.MinesWfE
  | 0, l, b, h => by simpa [placeMinesLoop] using h
  | Nat.succ m, [], b, h => by simpa [placeMinesLoop] using h
  | Nat.succ m, p :: rest, b, h => by
    unfold placeMinesLoop
    cases hst : b.getCellState p.1 p.2 with
    | none => exact h
    | some st =>
      simp only []
      exact minesWfE_placeMinesLoop m rest (b.setMineAt p.1 p.2)
        (minesWfE_setMineAt b p.1 p.2 st hst h)

theorem minesWfE_coreFrame {b b' : Board} (hcf : b.CoreFrame b') (h : b.MinesWfE) :
    b'.MinesWfE := by
  intro p hp
  rw [hcf.2.2.2.2.2.2.2.1] at hp
  obtain ⟨st, hst, hm⟩ := h p hp
  obtain ⟨st', hst', hR⟩ := cells_forall2_getCellState_left hcf.2.2.2.2.2.2.2.2.2.2 p.1 p.2 hst
  exact ⟨st', hst', hR.1.trans hm⟩


theorem setIsFlagged_isMine (s : CellState) (v : Bool) :
    (s.setIsFlagged v).isMine = s.isMine := by
  unfold CellState.setIsFlagged
  split
  · rfl
  · rfl

theorem setIsFlagged_isOpened (s : CellState) (v : Bool) :
    (s.setIsFlagged v).isOpened = s.isOpened := by
  unfold CellState.setIsFlagged
  split
  · rfl
  · rfl

theorem minesWfE_updateCell (b : Board) (r c : Int) (f : CellState → CellState)
    (hf : ∀ st, (f st).isMine = st.isMine) (h : b.MinesWfE) :
    (b.updateCell r c f).MinesWfE := by
  intro p hp
  rw [updateCell_minesList] at hp
  obtain ⟨st, hst, hm⟩ := h p hp
  rw [getCellState_updateCell]
  by_cases he : p.1 = r ∧ p.2 = c
  · rw [if_pos he]
    rw [he.1, he.2] at hst
    rw [hst]
    exact ⟨f st, rfl, (hf st).trans hm⟩
  · rw [if_neg he]
    exact ⟨st, hst, hm⟩

theorem inv4_openAllMines (b : Board) (h : Inv4 b) : Inv4 b.openAllMines := by
  unfold Board.openAllMines
  have hfold := foldl_inv (fun x => x.countOpenedNonMine = b.countOpenedNonMine ∧
      x.openedCells = b.openedCells ∧ x.MinesWfE ∧ x.minesList = b.minesList)
    b.minesList (fun acc p => acc.updateCell p.1 p.2 (fun st => st.setIsOpened true))
    b ⟨rfl, rfl, h.2, rfl⟩ ?_
  · constructor
    · rw [hfold.2.1, hfold.1]
      exact h.1
    · exact hfold.2.2.1
  · intro acc d hd hacc
    obtain ⟨hcount, hopen, hwf, hlist⟩ := hacc
    have hd' : d ∈ acc.minesList := by rw [hlist]; exact hd
    obtain ⟨st, hst, hm⟩ := hwf d hd'
    refine ⟨?_, ?_, ?_, ?_⟩
    · show Board.countOpenedNonMine _ = _
      unfold Board.countOpenedNonMine
      rw [countGrid_updateCell_eq (fun x => x.isOpened && ! x.isMine) acc d.1 d.2
        (fun st => st.setIsOpened true) st hst (by simp [CellState.setIsOpened, hm])]
      exact hcount
    · rw [updateCell_openedCells]
      exact hopen
    · exact minesWfE_updateCell acc d.1 d.2 _ (fun s => rfl) hwf
    · rw [updateCell_minesList]
      exact hlist

/-- Opening one fresh non-mine cell keeps the counter in sync. -/
theorem inv4_open_one (m : Board) (r c : Int) (st : CellState)
    (hst : m.getCellState r c = some st) (hop : st.isOpened = false)
    (hmn : st.isMine = false) (h : Inv4 m) :
    Inv4 { (m.updateCell r c fun s => s.setIsOpened true) with
      openedCells := m.openedCells + 1 } := by
  constructor
  · have hc := countGrid_updateCell (fun x => x.isOpened && ! x.isMine) m r c
      (fun s => s.setIsOpened true) st hst
    have hc2 : countGrid (fun x => x.isOpened && ! x.isMine)
        (m.updateCell r c fun s => s.setIsOpened true).cells
        + (if st.isOpened && ! st.isMine then 1 else 0)
        = countGrid (fun x => x.isOpened && ! x.isMine) m.cells
        + (if (st.setIsOpened true).isOpened && ! (st.setIsOpened true).isMine
            then 1 else 0) := hc
    have h2o : (st.setIsOpened true).isOpened = true := rfl
    have h2m : (st.setIsOpened true).isMine = st.isMine := rfl
    rw [hop, h2o, h2m, hmn] at hc2
    simp at hc2
    show m.openedCells + 1 = countGrid (fun x => x.isOpened && ! x.isMine)
      (m.updateCell r c fun s => s.setIsOpened true).cells
    have hcnt : m.openedCells = countGrid (fun x => x.isOpened && ! x.isMine) m.cells :=
      h.1
    omega
  · exact minesWfE_updateCell m r c _ (fun s => rfl) h.2

theorem inv4_wonFlag (b : Board) (h : Inv4 b) :
    Inv4 (if b.wonCheck then { b with isGameWon := true } else b) := by
  split
  · exact ⟨h.1, h.2⟩
  · exact h

/-- The flood fill preserves the counter/mines-list invariant. -/
theorem inv4_openCellGo_and_adj (fuel : Nat) :
    (∀ (m : Board) (r c : Int) (now : Nat), Inv4 m → Inv4 (openCellGo fuel m r c now)) ∧
    (∀ (m : Board) (r c : Int) (now : Nat), Inv4 m → Inv4 (openAdjacentCells fuel m r c now)) := by
  induction fuel with
  | zero =>
    constructor
    · intro m r c now h
      rw [openCellGo_zero]
      exact h
    · intro m r c now h
      rw [openAdjacentCells_zero]
      exact h
  | succ fuel ih =>
    have hA : ∀ (m : Board) (r c : Int) (now : Nat), Inv4 m →
        Inv4 (openCellGo (fuel + 1) m r c now) := by
      intro m r c now h
      rw [openCellGo_succ]
      split
      · exact h
      split
      · exact h
      cases hst : m.getCellState r c with
      | none => exact h
      | some st =>
        simp only []
        by_cases hop : st.isOpened = true
        · rw [if_pos hop]
          exact h
        rw [if_neg hop]
        by_cases hmn : st.isMine = true
        · rw [if_pos hmn]
          exact inv4_openAllMines _ ⟨h.1, h.2⟩
        rw [if_neg hmn]
        rw [Bool.not_eq_true] at hop hmn
        have hb1 : Inv4 { (m.updateCell r c fun s => s.setIsOpened true) with
            openedCells := m.openedCells + 1 } := inv4_open_one m r c st hst hop hmn h
        have hb2 : Inv4 (if st.adjacentMines = 0 then
            openAdjacentCells fuel { (m.updateCell r c fun s => s.setIsOpened true) with
              openedCells := m.openedCells + 1 } r c now
            else { (m.updateCell r c fun s => s.setIsOpened true) with
              openedCells := m.openedCells + 1 }) := by
          split
          · exact ih.2 _ r c now hb1
          · exact hb1
        exact inv4_wonFlag _ hb2
    refine ⟨hA, ?_⟩
    intro m r c now h
    rw [openAdjacentCells_eq]
    split
    · exact h
    split
    · exact h
    refine foldl_inv Inv4 _ _ m h (fun acc d _ hacc => ?_)
    unfold adjStep
    dsimp only
    split
    · exact hacc
    split
    · exact hacc
    cases acc.getCellState (r + d.1) (c + d.2) with
    | none => exact hacc
    | some st =>
      simp only []
      split
      · exact hacc
      split
      · exact hacc
      exact hA acc _ _ now hacc

theorem inv4_openCell_getOr (b : Board) (r c : Int) (now : Nat) (h : Inv4 b) :
    Inv4 ((b.openCell r c now).getOr b) := by
  unfold Board.openCell
  split
  · exact h
  split
  · exact h
  · show Inv4 (openCellGo (b.rows * b.cols + 1) b r c now)
    exact (inv4_openCellGo_and_adj (b.rows * b.cols + 1)).1 b r c now h

theorem inv4_toggleFlag_getOr (b : Board) (r c : Int) (h : Inv4 b) :
    Inv4 ((b.toggleFlag r c).getOr b) := by
  unfold Board.toggleFlag
  split
  · exact h
  split
  · exact h
  cases hst : b.getCellState r c with
  | none => exact h
  | some st =>
    simp only []
    split
    · exact h
    · constructor
      · show (b.updateCell r c fun s => s.setIsFlagged (! st.isFlagged)).openedCells
          = (b.updateCell r c fun s => s.setIsFlagged (! st.isFlagged)).countOpenedNonMine
        rw [updateCell_openedCells]
        unfold Board.countOpenedNonMine
        rw [countGrid_updateCell_eq (fun x => x.isOpened && ! x.isMine) b r c
          (fun s => s.setIsFlagged (! st.isFlagged)) st hst
          (by
            show ((st.setIsFlagged (! st.isFlagged)).isOpened
                && ! (st.setIsFlagged (! st.isFlagged)).isMine)
              = (st.isOpened && ! st.isMine)
            rw [setIsFlagged_isOpened, setIsFlagged_isMine])]
        exact h.1
      · show (b.updateCell r c fun s => s.setIsFlagged (! st.isFlagged)).MinesWfE
        exact minesWfE_updateCell b r c _ (fun s => setIsFlagged_isMine s _) h.2

theorem inv4_startGame_getOr (b : Board) (row col : Int) (adjPerm : List (Int × Int))
    (u : Nat) (candPerm : List (Int × Int)) (now : Nat) (h : Inv4 b) :
    Inv4 ((b.startGame row col adjPerm u candPerm now).getOr b) := by
  by_cases hin : b.inB row col = true
  · rw [startGame_eq b row col adjPerm u candPerm now hin]
    have hG : GridClosed (placeMinesLoop b.reset candPerm b.mines).1.cells := by
      refine gridClosed_placeMinesLoop b.mines candPerm b.reset ?_
      show GridClosed (initGrid b.rows b.cols)
      exact gridClosed_initGrid b.rows b.cols
    have hO : (placeMinesLoop b.reset candPerm b.mines).1.openedCells = 0 :=
      (placeMinesLoop_scalars b.mines candPerm b.reset).2.2.2.2.1
    have hM : (placeMinesLoop b.reset candPerm b.mines).1.MinesWfE :=
      minesWfE_placeMinesLoop b.mines candPerm b.reset (minesWfE_reset b)
    split
    · show Inv4 (placeMinesLoop b.reset candPerm b.mines).1
      refine ⟨?_, hM⟩
      rw [hO]
      exact (countOpenedNonMine_of_gridClosed _ hG).symm
    · have hcf := coreFrame_calculateAdjacentMines (placeMinesLoop b.reset candPerm b.mines).1
      have hG2 : GridClosed (placeMinesLoop b.reset candPerm b.mines).1.calculateAdjacentMines.cells :=
        gridClosed_calculateAdjacentMines _ hG
      have hO2 : (placeMinesLoop b.reset candPerm b.mines).1.calculateAdjacentMines.openedCells = 0 := by
        rw [hcf.2.2.2.2.1]
        exact hO
      have hM2 : (placeMinesLoop b.reset candPerm b.mines).1.calculateAdjacentMines.MinesWfE :=
        minesWfE_coreFrame hcf hM
      constructor
      · show (placeMinesLoop b.reset candPerm b.mines).1.calculateAdjacentMines.openedCells
          = (placeMinesLoop b.reset candPerm b.mines).1.calculateAdjacentMines.countOpenedNonMine
        rw [hO2, countOpenedNonMine_of_gridClosed _ hG2]
      · exact hM2
  · unfold Board.startGame
    rw [if_pos hin]
    exact h


/-- One driver-level engine operation, with the random data consumed by
`startGame` made an explicit parameter of the operation. -/
inductive Op where
  | reset : Op
  | startGame (row col : Int) (adjPerm : List (Int × Int)) (u : Nat)
      (candPerm : List (Int × Int)) (now : Nat) : Op
  | openCell (row col : Int) (now : Nat) : Op
  | toggleFlag (row col : Int) : Op

/-- Run one engine operation: a `RangeError` throw propagates to the driver
before any mutation, leaving the board as it was; a `TypeError` crash
during placement leaves the partially mutated state it reached. -/
def runOp (b : Board) : Op → Board
  | .reset => b.reset
  | .startGame row col adjPerm u candPerm now =>
      (b.startGame row col adjPerm u candPerm now).getOr b
  | .openCell row col now => (b.openCell row col now).getOr b
  | .toggleFlag row col => (b.toggleFlag row col).getOr b

/-- Run a sequence of engine operations from a given board. -/
def runOps (b : Board) (ops : List Op) : Board := ops.foldl runOp b

theorem inv4_runOp (b : Board) (op : Op) (h : Inv4 b) : Inv4 (runOp b op) := by
  cases op with
  | reset => exact inv4_reset b
  | startGame row col adjPerm u candPerm now =>
      exact inv4_startGame_getOr b row col adjPerm u candPerm now h
  | openCell row col now => exact inv4_openCell_getOr b row col now h
  | toggleFlag row col => exact inv4_toggleFlag_getOr b row col h

/-- C4 counterexample: the claimed invariant "`openedCount` equals the
number of cells with `isOpened = true` — including after the
reveal-all-mines path" is false.  Opening the mine of a 2×2 game reaches,
through engine operations alone, the terminal board `over22` whose
`#openAllMines` pass set the mine's `isOpened` flag without touching the
counter: one cell is opened but `openedCells` is `0`. -/
theorem C4_counterexample_openAllMines_counter :
    runOps (Board.new 2 2 1)
        [Op.startGame 0 0 [(0, 1), (1, 0), (1, 1)] 0 [(1, 0), (1, 1)] 5,
         Op.openCell 1 0 7] = over22 ∧
    over22.isGameOver = true ∧
    over22.openedCells = 0 ∧ over22.countOpened = 1 := by
  refine ⟨by decide, by decide, by decide, by decide⟩

/-- C4 (amended): after every sequence of engine operations (`reset`,
`startGame`, `openCell`, `toggleFlag`, including failed calls and the
reveal-all-mines path), the `openedCells` counter equals the number of
cells with `isOpened = true` that are not mines; mines revealed by the
game-over path are excluded from the counter. -/
theorem C4_counter_counts_opened_nonmine (rows cols mines : Nat) (ops : List Op) :
    (runOps (Board.new rows cols mines) ops).openedCells
      = (runOps (Board.new rows cols mines) ops).countOpenedNonMine := by
  have h : Inv4 (runOps (Board.new rows cols mines) ops) := by
    unfold runOps
    refine foldl_inv Inv4 ops runOp (Board.new rows cols mines) ?_
      (fun acc op _ hacc => inv4_runOp acc op hacc)
    exact inv4_reset _
  exact h.1


/-! ### Scenario D: opening a mine ends the game (claim C8) -/

/-- Every mined cell of the grid is listed in `minesList` (bounded over
the declared board dimensions, hence decidable; `startGame` establishes
this by construction). -/
def Board.MinesComplete (b : Board) : Prop :=
  ∀ i ∈ List.range b.rows, ∀ j ∈ List.range b.cols,
    (b.stateAt (Int.ofNat i) (Int.ofNat j)).isMine = true →
    ((Int.ofNat i : Int), (Int.ofNat j : Int)) ∈ b.minesList

instance (b : Board) : Decidable b.MinesComplete := by
  unfold Board.MinesComplete
  infer_instance

theorem opened_at_foldl_open (t : List (Int × Int)) (b : Board) (p : Int × Int)
    (hb : ∀ st', b.getCellState p.1 p.2 = some st' → st'.isOpened = true) :
    ∀ st', (t.foldl (fun acc q => acc.updateCell q.1 q.2 (fun s => s.setIsOpened true))
        b).getCellState p.1 p.2 = some st' → st'.isOpened = true := by
  refine foldl_inv
    (fun x => ∀ st', x.getCellState p.1 p.2 = some st' → st'.isOpened = true) t _ b hb ?_
  intro acc q _ hacc st' hst'
  rw [getCellState_updateCell] at hst'
  by_cases he : p.1 = q.1 ∧ p.2 = q.2
  · rw [if_pos he] at hst'
    cases hg : acc.getCellState q.1 q.2 with
    | none =>
      rw [hg] at hst'
      simp at hst'
    | some s0 =>
      rw [hg] at hst'
      have hx : some (s0.setIsOpened true) = some st' := hst'
      rw [← Option.some.inj hx]
      rfl
  · rw [if_neg he] at hst'
    exact hacc st' hst'

theorem foldl_open_opens_mem : ∀ (l : List (Int × Int)) (b : Board) (p : Int × Int),
    p ∈ l →
    ∀ st', (l.foldl (fun acc q => acc.updateCell q.1 q.2 (fun s => s.setIsOpened true))
        b).getCellState p.1 p.2 = some st' → st'.isOpened = true := by
  intro l
  induction l with
  | nil =>
    intro b p hp
    simp at hp
  | cons q t ih =>
    intro b p hp st' hst'
    rcases List.mem_cons.1 hp with h1 | h2
    · subst h1
      refine opened_at_foldl_open t (b.updateCell p.1 p.2 (fun s => s.setIsOpened true))
        p ?_ st' hst'
      intro s1 hs1
      rw [getCellState_updateCell] at hs1
      rw [if_pos ⟨rfl, rfl⟩] at hs1
      cases hg : b.getCellState p.1 p.2 with
      | none =>
        rw [hg] at hs1
        simp at hs1
      | some s0 =>
        rw [hg] at hs1
        have hx : some (s0.setIsOpened true) = some s1 := hs1
        rw [← Option.some.inj hx]
        rfl
    · exact ih _ p h2 st' hst'

/-- `#openAllMines` opens every cell listed in `minesList`. -/
theorem openAllMines_opens_mem (b : Board) (p : Int × Int) (hp : p ∈ b.minesList) :
    ∀ st', b.openAllMines.getCellState p.1 p.2 = some st' → st'.isOpened = true := by
  unfold Board.openAllMines
  exact foldl_open_opens_mem b.minesList b p hp

/-- C8: opening a mined cell directly makes `isOver` true, sets the opened
flag of every mined cell, and makes every subsequent `openCell` call (on
any coordinate) a no-op returning the board unchanged. -/
theorem C8_mine_open_terminal (b : Board) (r c : Int) (now : Nat) (st : CellState)
    (hover : b.isGameOver = false) (hwon : b.isGameWon = false)
    (hst : b.getCellState r c = some st) (hop : st.isOpened = false)
    (hmine : st.isMine = true) (hin : b.inB r c = true)
    (hcomp : b.MinesComplete) :
    ∃ b', b.openCell r c now = JsOutcome.ok b' ∧
      b'.isGameOver = true ∧
      (∀ i, i < b.rows → ∀ j, j < b.cols →
        (b.stateAt (Int.ofNat i) (Int.ofNat j)).isMine = true →
        (b'.stateAt (Int.ofNat i) (Int.ofNat j)).isOpened = true) ∧
      (∀ (r2 c2 : Int) (now2 : Nat), b'.openCell r2 c2 now2 = JsOutcome.ok b') := by
  refine ⟨Board.openAllMines { b with isGameOver := true, endTime := some now },
    ?_, ?_, ?_, ?_⟩
  · rw [openCell_eq_go b r c now hover hwon hin]
    rw [openCellGo_succ]
    rw [if_neg (by simp [hover, hwon]), if_neg (by simp [hin]), hst]
    simp only []
    rw [if_neg (by simp [hop]), if_pos hmine]
  · exact (openAllMines_fields _).2.1
  · intro i hi j hj hmij
    have hmem : ((Int.ofNat i : Int), (Int.ofNat j : Int)) ∈ b.minesList :=
      hcomp i (List.mem_range.2 hi) j (List.mem_range.2 hj) hmij
    cases hg : b.getCellState (Int.ofNat i) (Int.ofNat j) with
    | none =>
      unfold Board.stateAt at hmij
      rw [hg] at hmij
      simp [CellState.init] at hmij
    | some s0 =>
      have hev : Board.Evolves { b with isGameOver := true, endTime := some now }
          (Board.openAllMines { b with isGameOver := true, endTime := some now }) :=
        evolves_openAllMines _
      have hg2 : ({ b with isGameOver := true, endTime := some now } : Board).getCellState
          (Int.ofNat i) (Int.ofNat j) = some s0 := hg
      obtain ⟨s1, hs1, hrel⟩ := hev.getCellState_left (Int.ofNat i) (Int.ofNat j) hg2
      unfold Board.stateAt
      rw [hs1]
      exact openAllMines_opens_mem { b with isGameOver := true, endTime := some now }
        ((Int.ofNat i : Int), (Int.ofNat j : Int)) hmem s1 hs1
  · intro r2 c2 now2
    have hov : (Board.openAllMines
        { b with isGameOver := true, endTime := some now }).isGameOver = true :=
      (openAllMines_fields _).2.1
    unfold Board.openCell
    rw [if_pos (by simp [hov])]

/-- C8 witness: the concrete 2×2 game, opening its mine at `(1, 0)`. -/
theorem C8_mine_open_terminal_witness :
    started22.isGameOver = false ∧ started22.MinesComplete ∧
    (∃ b', started22.openCell 1 0 7 = JsOutcome.ok b' ∧
      b'.isGameOver = true ∧
      (∀ i, i < started22.rows → ∀ j, j < started22.cols →
        (started22.stateAt (Int.ofNat i) (Int.ofNat j)).isMine = true →
        (b'.stateAt (Int.ofNat i) (Int.ofNat j)).isOpened = true) ∧
      (∀ (r2 c2 : Int) (now2 : Nat), b'.openCell r2 c2 now2 = JsOutcome.ok b')) :=
  ⟨by decide, by decide,
   C8_mine_open_terminal started22 1 0 7 (started22.stateAt 1 0) (by decide) (by decide)
     (by decide) (by decide) (by decide) (by decide) (by decide)⟩


/-! ### Restarting from a terminal state (claim C10) -/

def demo37 : Board := Board.new 3 3 7

/-- The 8 neighbours of `(1,1)` on the 3×3 board, in source order (the
identity shuffle). -/
def adj37 : List (Int × Int) :=
  [(0, 0), (0, 1), (0, 2), (1, 0), (1, 2), (2, 0), (2, 1), (2, 2)]

/-- The candidate list after excluding `(1,1)` and the single chosen
neighbour `(0,0)` (the identity shuffle): exactly 7 cells, all mined. -/
def cand37 : List (Int × Int) :=
  [(0, 1), (0, 2), (1, 0), (1, 2), (2, 0), (2, 1), (2, 2)]

def started37 : Board := (demo37.startGame 1 1 adj37 0 cand37 3).getOr demo37

/-- The 3×3, 7-mine game after opening the mine at `(0,1)`: a terminal,
lost state reached through engine operations alone. -/
def over37 : Board := (started37.openCell 0 1 4).getOr started37

set_option maxRecDepth 16384 in
/-- C10 counterexample: from the terminal board `over37`, `startGame(1,1)`
with an in-bounds coordinate does not always succeed: when the random cut
keeps two neighbours, only 6 candidate cells remain for 7 mines and the
placement loop crashes with a `TypeError`.  The shuffle parameters are
honest: they are permutations of the exact lists the source shuffles. -/
theorem C10_counterexample_terminal_startGame_crash :
    over37.isGameOver = true ∧ over37.inB 1 1 = true ∧
    adj37.Perm (over37.getAdjacentCells 1 1) ∧
    [((0 : Int), (2 : Int)), (1, 0), (1, 2), (2, 0), (2, 1), (2, 2)].Perm
      (over37.reset.buildCellsListWithoutMines ((1, 1) :: adj37.take (1 + 1))) ∧
    (over37.startGame 1 1 adj37 1
      [((0 : Int), (2 : Int)), (1, 0), (1, 2), (2, 0), (2, 1), (2, 2)] 9).isTypeErr
      = true := by
  refine ⟨by decide, by decide, by decide, by decide, by decide⟩

/-- C10 (amended): from a terminal board, an in-bounds `startGame` with
honest shuffles restarts the game whenever `mineCount` fits among the
candidate cells left after excluding the start cell and the chosen
neighbour subset: it returns normally with a fresh active game — lifecycle
flags cleared, counters zeroed, every cell unopened and unflagged, exactly
`mineCount` mines placed, and the timer restarted. -/
theorem C10_terminal_startGame_restarts (b : Board) (row col : Int)
    (adjPerm : List (Int × Int)) (u : Nat) (candPerm : List (Int × Int)) (now : Nat)
    (hterm : b.isGameOver = true ∨ b.isGameWon = true)
    (hin : b.inB row col = true)
    (hadj : adjPerm.Perm (b.getAdjacentCells row col))
    (hcand : candPerm.Perm (b.reset.buildCellsListWithoutMines
        ((row, col) :: adjPerm.take (u + 1))))
    (hroom : b.mines + (1 + min (u + 1) adjPerm.length) ≤ b.rows * b.cols) :
    ∃ b', b.startGame row col adjPerm u candPerm now = JsOutcome.ok b' ∧
      b'.isGameOver = false ∧ b'.isGameWon = false ∧
      b'.flags = 0 ∧ b'.openedCells = 0 ∧
      b'.countMines = b.mines ∧ b'.startTime = some now ∧ b'.endTime = none ∧
      b'.AllClosed := by
  have hcf0 := candList_facts b row col adjPerm u hin hadj
  have hlen : candPerm.length = b.rows * b.cols - (1 + min (u + 1) adjPerm.length) := by
    rw [hcand.length_eq, hcf0.2.2.1]
  have hml : b.mines ≤ candPerm.length := by
    rw [hlen]
    omega
  have hnd : candPerm.Nodup := hcand.nodup_iff.2 (nodup_buildCellsList b.reset _)
  have hsome := candPerm_some b row col adjPerm u candPerm hcand
  have hspec := placeMinesLoop_spec b.mines candPerm b.reset hnd hsome hml
  have hsc := placeMinesLoop_scalars b.mines candPerm b.reset
  have hcf := coreFrame_calculateAdjacentMines (placeMinesLoop b.reset candPerm b.mines).1
  have hac : (placeMinesLoop b.reset candPerm b.mines).1.AllClosed :=
    allClosed_placeMinesLoop b.mines candPerm b.reset (allClosed_reset b)
  rw [startGame_eq b row col adjPerm u candPerm now hin]
  rw [if_neg (by simp [hspec.1])]
  refine ⟨_, rfl, ?_, ?_, ?_, ?_, ?_, rfl, ?_, ?_⟩
  · show (placeMinesLoop b.reset candPerm b.mines).1.calculateAdjacentMines.isGameOver = false
    rw [hcf.2.2.2.2.2.1]
    exact hsc.2.2.2.2.2.1
  · show (placeMinesLoop b.reset candPerm b.mines).1.calculateAdjacentMines.isGameWon = false
    rw [hcf.2.2.2.2.2.2.1]
    exact hsc.2.2.2.2.2.2.1
  · show (placeMinesLoop b.reset candPerm b.mines).1.calculateAdjacentMines.flags = 0
    rw [hcf.2.2.2.1]
    exact hsc.2.2.2.1
  · show (placeMinesLoop b.reset candPerm b.mines).1.calculateAdjacentMines.openedCells = 0
    rw [hcf.2.2.2.2.1]
    exact hsc.2.2.2.2.1
  · show (placeMinesLoop b.reset candPerm b.mines).1.calculateAdjacentMines.countMines = b.mines
    rw [coreFrame_countMines hcf, hspec.2.1, countMines_reset]
    exact Nat.zero_add b.mines
  · show (placeMinesLoop b.reset candPerm b.mines).1.calculateAdjacentMines.endTime = none
    rw [hcf.2.2.2.2.2.2.2.2.2.1]
    exact hsc.2.2.2.2.2.2.2.2
  · intro r c st hst
    exact coreFrame_allClosed hcf hac r c st hst

set_option maxRecDepth 16384 in
/-- C10 witness: the terminal board `over37` restarted with the identity
shuffles and the single-neighbour cut: 7 mines fit the 7 candidates. -/
theorem C10_terminal_startGame_restarts_witness :
    (over37.isGameOver = true ∨ over37.isGameWon = true) ∧
    over37.mines + (1 + min (0 + 1) adj37.length) ≤ over37.rows * over37.cols ∧
    (∃ b', over37.startGame 1 1 adj37 0 cand37 11 = JsOutcome.ok b' ∧
      b'.isGameOver = false ∧ b'.isGameWon = false ∧
      b'.flags = 0 ∧ b'.openedCells = 0 ∧
      b'.countMines = over37.mines ∧ b'.startTime = some 11 ∧ b'.endTime = none ∧
      b'.AllClosed) :=
  ⟨Or.inl (by decide), by decide,
   C10_terminal_startGame_restarts over37 1 1 adj37 0 cand37 11
     (Or.inl (by decide)) (by decide) (by decide) (by decide) (by decide)⟩


/-! ### The flood-fill region (claim C3)

`Reach` transcribes the spec's description of the region opened by a
zero-adjacency `openCell`: the clicked cell itself, plus, transitively,
every in-bounds neighbour of an already-reached zero-adjacency cell that is
unopened, unflagged and unmined.  The theorems below compare it with the
behaviour of `openCellGo`, the embedding of the source's recursion. -/

/-- The cell qualifies for auto-opening by the flood fill: in bounds,
present in the grid, and unopened, unflagged, unmined. -/
def okToOpen (b : Board) (r c : Int) : Prop :=
  b.inB r c = true ∧ ∃ st, b.getCellState r c = some st ∧
    st.isOpened = false ∧ st.isFlagged = false ∧ st.isMine = false

/-- The spec's "connected zero-or-revealed region" of a click at
`(row, col)` on board `b`. -/
inductive Reach (b : Board) (row col : Int) : Int → Int → Prop where
  | base : Reach b row col row col
  | step {r c r2 c2 : Int} (d : Int × Int) :
      Reach b row col r c →
      (b.stateAt r c).adjacentMines = 0 →
      d ∈ directions →
      r2 = r + d.1 → c2 = c + d.2 →
      okToOpen b r2 c2 →
      Reach b row col r2 c2

/-- The cell exists and is opened on board `m`. -/
def OpenedAt (m : Board) (r c : Int) : Prop :=
  ∃ st, m.getCellState r c = some st ∧ st.isOpened = true

/-- The cell is unopened on the pre-click board (vacuously true off the
grid). -/
def UnopenedAt0 (b0 : Board) (r c : Int) : Prop :=
  ∀ st, b0.getCellState r c = some st → st.isOpened = false

/-- Every non-mine cell of the grid is opened. -/
def AllNMO (m : Board) : Prop :=
  ∀ (r c : Int) (st : CellState), m.getCellState r c = some st →
    st.isMine = false → st.isOpened = true

/-- Add one excused cell to an exception set. -/
def insertP (t : Int × Int) (S : Int × Int → Prop) : Int × Int → Prop :=
  fun p => p = t ∨ S p

/-- Saturation up to the exception set `S`: every newly opened
zero-adjacency cell outside `S` already has all its openable neighbours
opened. -/
def SatX (b0 m : Board) (S : Int × Int → Prop) : Prop :=
  ∀ r c : Int, ¬ S (r, c) → OpenedAt m r c → UnopenedAt0 b0 r c →
    (b0.stateAt r c).adjacentMines = 0 →
    ∀ d ∈ directions, okToOpen b0 (r + d.1) (c + d.2) →
      OpenedAt m (r + d.1) (c + d.2)

/-- The invariant carried through the flood fill, relative to the pre-click
board `b0` and the clicked cell. -/
def Mid (b0 : Board) (row col : Int) (m : Board) : Prop :=
  b0.Evolves m ∧ m.isGameOver = false ∧ Inv4 m ∧
  (m.isGameWon = true → AllNMO m) ∧
  (∀ r c : Int, OpenedAt m r c → UnopenedAt0 b0 r c → Reach b0 row col r c)

/-- Number of unopened cells, the fuel measure of the fill. -/
def countUnopened (b : Board) : Nat := countGrid (fun st => ! st.isOpened) b.cells

theorem OpenedAt.mono {a b : Board} (h : a.Evolves b) {r c : Int}
    (ho : OpenedAt a r c) : OpenedAt b r c := by
  obtain ⟨st, hst, hop⟩ := ho
  obtain ⟨st', hst', hR⟩ := h.getCellState_left r c hst
  exact ⟨st', hst', hR.2.2.2.2 hop⟩

theorem countUnopened_le_of_evolves {a b : Board} (h : a.Evolves b) :
    countUnopened b ≤ countUnopened a := by
  refine countGrid_le_of_evolves h (fun st => ! st.isOpened) ?_
  intro x y hR hy
  have hy2 : (! y.isOpened) = true := hy
  show (! x.isOpened) = true
  cases hx : x.isOpened with
  | false => rfl
  | true =>
    rw [hR.2.2.2.2 hx] at hy2
    exact absurd hy2 (by decide)

theorem forall2_mem_right {α β : Type} {R : α → β → Prop} :
    ∀ {l : List α} {l' : List β}, List.Forall₂ R l l' → ∀ y ∈ l', ∃ x, x ∈ l ∧ R x y := by
  intro l l' h
  induction h with
  | nil =>
    intro y hy
    simp at hy
  | @cons a b l1 l2 hab htl ih =>
    intro y hy
    rcases List.mem_cons.1 hy with h1 | h2
    · exact ⟨a, List.mem_cons_self a l1, by rw [h1]; exact hab⟩
    · obtain ⟨x, hx, hr⟩ := ih y h2
      exact ⟨x, List.mem_cons_of_mem a hx, hr⟩

theorem wfShape_of_evolves {b b' : Board} (h : b.Evolves b') (hs : b.WfShape) :
    b'.WfShape := by
  constructor
  · rw [h.1, ← hs.1]
    exact (List.Forall₂.length_eq h.2.2.2.2.2.2).symm
  · intro row' hrow'
    obtain ⟨row, hrow, hr⟩ := forall2_mem_right h.2.2.2.2.2.2 row' hrow'
    rw [h.2.1, ← hs.2 row hrow]
    exact (List.Forall₂.length_eq hr).symm

theorem getCellState_some_of_inB (b : Board) (hs : b.WfShape) {r c : Int}
    (hin : b.inB r c = true) : ∃ st, b.getCellState r c = some st := by
  have hb := (inB_iff b r c).1 hin
  unfold Board.getCellState
  rw [if_pos ⟨hb.1, hb.2.2.1⟩]
  have hr : r.toNat < b.cells.length := by
    rw [hs.1]
    omega
  simp only [List.get?_eq_getElem?]
  rw [List.getElem?_eq_getElem hr]
  simp only [Option.getD_some]
  have hlen : b.cells[r.toNat].length = b.cols :=
    hs.2 _ (List.getElem_mem hr)
  have hc : c.toNat < b.cells[r.toNat].length := by
    rw [hlen]
    omega
  rw [List.getElem?_eq_getElem hc]
  exact ⟨_, rfl⟩

theorem inB_of_getCellState_some (b : Board) (hs : b.WfShape) {r c : Int}
    {st : CellState} (hst : b.getCellState r c = some st) : b.inB r c = true := by
  unfold Board.getCellState at hst
  by_cases hg : 0 ≤ r ∧ 0 ≤ c
  · rw [if_pos hg] at hst
    simp only [List.get?_eq_getElem?] at hst
    cases hrow : b.cells[r.toNat]? with
    | none =>
      rw [hrow] at hst
      exact absurd hst (by simp)
    | some row =>
      rw [hrow] at hst
      simp only [Option.getD_some] at hst
      have hr : r.toNat < b.cells.length := by
        by_contra hge
        rw [List.getElem?_eq_none (by omega)] at hrow
        exact absurd hrow (by simp)
      have hrowmem : row ∈ b.cells := by
        have h1 : b.cells[r.toNat] = row := by
          have := List.getElem?_eq_getElem hr
          rw [this] at hrow
          exact Option.some.inj hrow
        rw [← h1]
        exact List.getElem_mem hr
      have hc : c.toNat < row.length := by
        by_contra hge
        rw [List.getElem?_eq_none (by omega)] at hst
        exact absurd hst (by simp)
      rw [inB_iff]
      have hlen : row.length = b.cols := hs.2 row hrowmem
      rw [hs.1] at hr
      rw [hlen] at hc
      omega
  · rw [if_neg hg] at hst
    exact absurd hst (by simp)

theorem getCellState_mem (b : Board) {r c : Int} {st : CellState}
    (hst : b.getCellState r c = some st) : ∃ row, row ∈ b.cells ∧ st ∈ row := by
  unfold Board.getCellState at hst
  by_cases hg : 0 ≤ r ∧ 0 ≤ c
  · rw [if_pos hg] at hst
    simp only [List.get?_eq_getElem?] at hst
    cases hrow : b.cells[r.toNat]? with
    | none =>
      rw [hrow] at hst
      exact absurd hst (by simp)
    | some row =>
      rw [hrow] at hst
      simp only [Option.getD_some] at hst
      have hr : r.toNat < b.cells.length := by
        by_contra hge
        rw [List.getElem?_eq_none (by omega)] at hrow
        exact absurd hrow (by simp)
      have hc : c.toNat < row.length := by
        by_contra hge
        rw [List.getElem?_eq_none (by omega)] at hst
        exact absurd hst (by simp)
      have h1 : b.cells[r.toNat] = row := by
        have := List.getElem?_eq_getElem hr
        rw [this] at hrow
        exact Option.some.inj hrow
      have h2 : row[c.toNat] = st := by
        have := List.getElem?_eq_getElem hc
        rw [this] at hst
        exact Option.some.inj hst
      refine ⟨row, ?_, ?_⟩
      · rw [← h1]
        exact List.getElem_mem hr
      · rw [← h2]
        exact List.getElem_mem hc
  · rw [if_neg hg] at hst
    exact absurd hst (by simp)


theorem filter_partition_three (l : List CellState) :
    (l.filter (fun st => st.isOpened && ! st.isMine)).length
      + (l.filter (fun st => st.isMine)).length
      + (l.filter (fun st => ! st.isOpened && ! st.isMine)).length = l.length := by
  induction l with
  | nil => rfl
  | cons x t ih =>
    simp only [List.filter_cons]
    cases hm : x.isMine <;> cases ho : x.isOpened <;>
      simp [hm, ho] <;> omega

theorem countGrid_partition_three (g : List (List CellState)) :
    countGrid (fun st => st.isOpened && ! st.isMine) g
      + countGrid (fun st => st.isMine) g
      + countGrid (fun st => ! st.isOpened && ! st.isMine) g
      = (g.map List.length).sum := by
  induction g with
  | nil => rfl
  | cons row t ih =>
    simp only [countGrid_cons, List.map_cons, List.sum_cons]
    have := filter_partition_three row
    omega

theorem sum_lengths_eq (g : List (List CellState)) (cols : Nat)
    (h : ∀ row ∈ g, row.length = cols) : (g.map List.length).sum = g.length * cols := by
  induction g with
  | nil => simp
  | cons row t ih =>
    simp only [List.map_cons, List.sum_cons, List.length_cons]
    rw [h row (List.mem_cons_self row t),
      ih (fun r hr => h r (List.mem_cons_of_mem row hr))]
    ring

theorem countGrid_le_sum (p : CellState → Bool) (g : List (List CellState)) :
    countGrid p g ≤ (g.map List.length).sum := by
  induction g with
  | nil => exact Nat.le_refl 0
  | cons row t ih =>
    simp only [countGrid_cons, List.map_cons, List.sum_cons]
    have := List.length_filter_le p row
    omega

theorem countUnopened_lt_fuel_top (b : Board) (hs : b.WfShape) :
    countUnopened b < b.rows * b.cols + 1 := by
  unfold countUnopened
  have h1 := countGrid_le_sum (fun st => ! st.isOpened) b.cells
  have h2 := sum_lengths_eq b.cells b.cols hs.2
  rw [hs.1] at h2
  omega

theorem countGrid_zero_all_false (p : CellState → Bool) (g : List (List CellState))
    (h : countGrid p g = 0) : ∀ row ∈ g, ∀ st ∈ row, p st = false := by
  induction g with
  | nil =>
    intro row hrow
    simp at hrow
  | cons r t ih =>
    rw [countGrid_cons] at h
    intro row hrow st hst
    rcases List.mem_cons.1 hrow with h1 | h2
    · subst h1
      by_contra hp
      have hpt : p st = true := by
        cases hq : p st
        · exact absurd hq hp
        · rfl
      have hmemf : st ∈ row.filter p := List.mem_filter.2 ⟨hst, hpt⟩
      have hlen : (row.filter p).length = 0 := by omega
      rw [List.length_eq_zero] at hlen
      rw [hlen] at hmemf
      simp at hmemf
    · exact ih (by omega) row h2 st hst

/-- When the win test fires on a counter-consistent board with the full
complement of mines, every non-mine cell is opened. -/
theorem allNMO_of_counts (m : Board) (hs : m.WfShape)
    (hcnt : m.openedCells = m.countOpenedNonMine)
    (hmines : m.countMines = m.mines)
    (hwc : m.wonCheck = true) : AllNMO m := by
  have hwc2 : (m.openedCells : Int) = (m.rows : Int) * m.cols - m.mines :=
    of_decide_eq_true hwc
  have hpart := countGrid_partition_three m.cells
  have hsum := sum_lengths_eq m.cells m.cols hs.2
  rw [hs.1] at hsum
  rw [hsum] at hpart
  have hcnt2 : m.openedCells
      = countGrid (fun st => st.isOpened && ! st.isMine) m.cells := hcnt
  have hm2 : countGrid (fun st => st.isMine) m.cells = m.mines := hmines
  have hz : countGrid (fun st => ! st.isOpened && ! st.isMine) m.cells = 0 := by
    have hcast : ((m.rows * m.cols : Nat) : Int) = (m.rows : Int) * m.cols := by
      push_cast
      ring
    omega
  intro r c st hst hmn
  obtain ⟨row, hrow, hmem⟩ := getCellState_mem m hst
  have hall := countGrid_zero_all_false _ _ hz row hrow st hmem
  have hall2 : (! st.isOpened && ! st.isMine) = false := hall
  rw [hmn] at hall2
  cases ho : st.isOpened with
  | true => rfl
  | false =>
    rw [ho] at hall2
    exact absurd hall2 (by decide)


/-- Let-free restatement of the successor equation for `openCellGo`, used
by the flood-fill induction so that the win-check wrapper can be rewritten
in place. -/
theorem openCellGo_succ2 (fuel : Nat) (b : Board) (row col : Int) (now : Nat) :
    openCellGo (fuel + 1) b row col now =
      (if b.isGameOver || b.isGameWon then b
      else if ¬ (b.inB row col) then b
      else
        match b.getCellState row col with
        | none => b
        | some st =>
          if st.isOpened then b
          else if st.isMine then
            Board.openAllMines { b with isGameOver := true, endTime := some now }
          else
            if (if st.adjacentMines = 0 then
                openAdjacentCells fuel
                  { (b.updateCell row col (fun s => s.setIsOpened true)) with
                    openedCells := b.openedCells + 1 } row col now
              else { (b.updateCell row col (fun s => s.setIsOpened true)) with
                    openedCells := b.openedCells + 1 }).wonCheck then
              { (if st.adjacentMines = 0 then
                openAdjacentCells fuel
                  { (b.updateCell row col (fun s => s.setIsOpened true)) with
                    openedCells := b.openedCells + 1 } row col now
              else { (b.updateCell row col (fun s => s.setIsOpened true)) with
                    openedCells := b.openedCells + 1 }) with isGameWon := true }
            else (if st.adjacentMines = 0 then
                openAdjacentCells fuel
                  { (b.updateCell row col (fun s => s.setIsOpened true)) with
                    openedCells := b.openedCells + 1 } row col now
              else { (b.updateCell row col (fun s => s.setIsOpened true)) with
                    openedCells := b.openedCells + 1 })) := rfl

/-- The final win-check wrapper preserves the flood-fill invariant and does
not touch the grid. -/
theorem mid_wonFlag (b0 : Board) (row col : Int) (b2 : Board)
    (hs0 : b0.WfShape) (hmc0 : b0.countMines = b0.mines)
    (hmid : Mid b0 row col b2) :
    Mid b0 row col (if b2.wonCheck then { b2 with isGameWon := true } else b2) ∧
    b2.Evolves (if b2.wonCheck then { b2 with isGameWon := true } else b2) ∧
    ∀ r2 c2 : Int,
      (if b2.wonCheck then { b2 with isGameWon := true } else b2).getCellState r2 c2
        = b2.getCellState r2 c2 := by
  obtain ⟨hevB, hovB, hinvB, hwsB, hnrB⟩ := hmid
  by_cases hwc : b2.wonCheck = true
  · rw [if_pos hwc]
    have hshapeB := wfShape_of_evolves hevB hs0
    have hminesB : b2.countMines = b2.mines := by
      rw [hevB.countMines_eq, hmc0, hevB.2.2.1]
    have hallB := allNMO_of_counts b2 hshapeB hinvB.1 hminesB hwc
    refine ⟨⟨?_, hovB, ⟨hinvB.1, hinvB.2⟩, ?_, ?_⟩, ?_, fun r2 c2 => rfl⟩
    · exact evolves_of_fields hevB rfl rfl rfl rfl rfl rfl rfl
    · intro _ r2 c2 st2 hst2 hmn2
      exact hallB r2 c2 st2 hst2 hmn2
    · intro r2 c2 hop2 hun2
      exact hnrB r2 c2 hop2 hun2
    · exact evolves_of_fields (Board.Evolves.refl b2) rfl rfl rfl rfl rfl rfl rfl
  · rw [if_neg hwc]
    exact ⟨⟨hevB, hovB, hinvB, hwsB, hnrB⟩, Board.Evolves.refl b2, fun r2 c2 => rfl⟩

/-- Induction statement for `openCellGo`: the invariant and evolution are
preserved, and with enough fuel the target is opened and saturation is
preserved. -/
def FloodA (b0 : Board) (row col : Int) (fuel : Nat) : Prop :=
  ∀ (m : Board) (r c : Int) (now : Nat),
    Mid b0 row col m →
    Reach b0 row col r c →
    (∀ stt, m.getCellState r c = some stt → stt.isMine = false) →
    Mid b0 row col (openCellGo fuel m r c now) ∧
    m.Evolves (openCellGo fuel m r c now) ∧
    (countUnopened m < fuel →
      (∀ stt, m.getCellState r c = some stt →
        ∃ st2, (openCellGo fuel m r c now).getCellState r c = some st2 ∧
          st2.isOpened = true) ∧
      (∀ S : Int × Int → Prop, SatX b0 m S →
        SatX b0 (openCellGo fuel m r c now) S))

/-- Induction statement for `openAdjacentCells`: additionally, every
openable neighbour of the (already opened) centre cell gets opened. -/
def FloodB (b0 : Board) (row col : Int) (fuel : Nat) : Prop :=
  ∀ (m : Board) (r c : Int) (now : Nat),
    Mid b0 row col m →
    Reach b0 row col r c →
    (b0.stateAt r c).adjacentMines = 0 →
    OpenedAt m r c →
    Mid b0 row col (openAdjacentCells fuel m r c now) ∧
    m.Evolves (openAdjacentCells fuel m r c now) ∧
    (countUnopened m < fuel →
      (∀ d ∈ directions, okToOpen b0 (r + d.1) (c + d.2) →
        OpenedAt (openAdjacentCells fuel m r c now) (r + d.1) (c + d.2)) ∧
      (∀ S : Int × Int → Prop, SatX b0 m (insertP (r, c) S) →
        SatX b0 (openAdjacentCells fuel m r c now) (insertP (r, c) S)))

/-- The main flood-fill induction over the fuel. -/
theorem flood_main (b0 : Board) (row col : Int)
    (hs0 : b0.WfShape) (hmc0 : b0.countMines = b0.mines) (fuel : Nat) :
    FloodA b0 row col fuel ∧ FloodB b0 row col fuel := by
  induction fuel with
  | zero =>
    constructor
    · intro m r c now hmid _ _
      rw [openCellGo_zero]
      exact ⟨hmid, Board.Evolves.refl m, fun hf => absurd hf (by omega)⟩
    · intro m r c now hmid _ _ _
      rw [openAdjacentCells_zero]
      exact ⟨hmid, Board.Evolves.refl m, fun hf => absurd hf (by omega)⟩
  | succ fuel ih =>
    have hA : FloodA b0 row col (fuel + 1) := by
      intro m r c now hmid hreach hnm
      obtain ⟨hev0, hover, hinv, hwonsync, hnewreach⟩ := hmid
      rw [openCellGo_succ2]
      by_cases hw : m.isGameWon = true
      · rw [if_pos (by simp [hw])]
        refine ⟨⟨hev0, hover, hinv, hwonsync, hnewreach⟩, Board.Evolves.refl m, ?_⟩
        intro _
        refine ⟨?_, fun S hS => hS⟩
        intro stt hst
        exact ⟨stt, hst, hwonsync hw r c stt hst (hnm stt hst)⟩
      rw [if_neg (by simp [hover, hw])]
      by_cases hinm : m.inB r c = true
      case neg =>
        rw [if_pos hinm]
        refine ⟨⟨hev0, hover, hinv, hwonsync, hnewreach⟩, Board.Evolves.refl m, ?_⟩
        intro _
        refine ⟨?_, fun S hS => hS⟩
        intro stt hst
        exact absurd (inB_of_getCellState_some m (wfShape_of_evolves hev0 hs0) hst) hinm
      rw [if_neg (not_not_intro hinm)]
      cases hstm : m.getCellState r c with
      | none =>
        refine ⟨⟨hev0, hover, hinv, hwonsync, hnewreach⟩, Board.Evolves.refl m, ?_⟩
        intro _
        refine ⟨?_, fun S hS => hS⟩
        intro stt hst
        exact absurd hst (by simp)
      | some stm =>
        simp only []
        by_cases hop : stm.isOpened = true
        · rw [if_pos hop]
          refine ⟨⟨hev0, hover, hinv, hwonsync, hnewreach⟩, Board.Evolves.refl m, ?_⟩
          intro _
          exact ⟨fun stt hst => ⟨stm, hstm, hop⟩, fun S hS => hS⟩
        rw [if_neg hop]
        have hmn : stm.isMine = false := hnm stm hstm
        rw [if_neg (by simp [hmn])]
        rw [Bool.not_eq_true] at hop
        have hevb1 : m.Evolves { (m.updateCell r c fun s => s.setIsOpened true) with
            openedCells := m.openedCells + 1 } :=
          evolves_of_fields (evolves_updateCell m r c _ cellEvo_setIsOpened_true)
            rfl rfl rfl rfl rfl rfl rfl
        have hb1self : ({ (m.updateCell r c fun s => s.setIsOpened true) with
            openedCells := m.openedCells + 1 } : Board).getCellState r c
            = some (stm.setIsOpened true) := by
          have h1 : ({ (m.updateCell r c fun s => s.setIsOpened true) with
              openedCells := m.openedCells + 1 } : Board).getCellState r c
              = (m.getCellState r c).map (fun s => s.setIsOpened true) :=
            getCellState_updateCell_self m r c _
          rw [h1, hstm]
          rfl
        have hb1ne : ∀ r2 c2 : Int, ¬ (r2 = r ∧ c2 = c) →
            ({ (m.updateCell r c fun s => s.setIsOpened true) with
              openedCells := m.openedCells + 1 } : Board).getCellState r2 c2
              = m.getCellState r2 c2 := by
          intro r2 c2 hne
          exact getCellState_updateCell_ne m r c _ hne
        have hopenedB1 : OpenedAt { (m.updateCell r c fun s => s.setIsOpened true) with
            openedCells := m.openedCells + 1 } r c := ⟨stm.setIsOpened true, hb1self, rfl⟩
        have hmidb1 : Mid b0 row col { (m.updateCell r c fun s => s.setIsOpened true) with
            openedCells := m.openedCells + 1 } := by
          refine ⟨hev0.trans hevb1, ?_, inv4_open_one m r c stm hstm hop hmn hinv, ?_, ?_⟩
          · show (m.updateCell r c fun s => s.setIsOpened true).isGameOver = false
            rw [updateCell_isGameOver]
            exact hover
          · intro hwon1
            have h2 : (m.updateCell r c fun s => s.setIsOpened true).isGameWon = true := hwon1
            rw [updateCell_isGameWon] at h2
            exact absurd h2 hw
          · intro r2 c2 hop2 hun2
            by_cases he : r2 = r ∧ c2 = c
            · rw [he.1, he.2]
              exact hreach
            · obtain ⟨s2, hs2, hso⟩ := hop2
              rw [hb1ne r2 c2 he] at hs2
              exact hnewreach r2 c2 ⟨s2, hs2, hso⟩ hun2
        have hsatb1 : ∀ S : Int × Int → Prop, SatX b0 m S →
            SatX b0 { (m.updateCell r c fun s => s.setIsOpened true) with
              openedCells := m.openedCells + 1 } (insertP (r, c) S) := by
          intro S hS r2 c2 hns hop2 hun2 hz2 d hd hok
          have hne : ¬ ((r2, c2) = ((r, c) : Int × Int)) := fun he => hns (Or.inl he)
          have hnS : ¬ S (r2, c2) := fun hs => hns (Or.inr hs)
          have hne2 : ¬ (r2 = r ∧ c2 = c) := by
            intro hand
            exact hne (by rw [hand.1, hand.2])
          obtain ⟨s2, hs2, hso2⟩ := hop2
          rw [hb1ne r2 c2 hne2] at hs2
          exact (hS r2 c2 hnS ⟨s2, hs2, hso2⟩ hun2 hz2 d hd hok).mono hevb1
        have hcount : countUnopened { (m.updateCell r c fun s => s.setIsOpened true) with
            openedCells := m.openedCells + 1 } + 1 = countUnopened m := by
          have hc := countGrid_updateCell (fun x => ! x.isOpened) m r c
            (fun s => s.setIsOpened true) stm hstm
          have hc2 : countGrid (fun x => ! x.isOpened)
              (m.updateCell r c fun s => s.setIsOpened true).cells
              + (if (! stm.isOpened) then 1 else 0)
              = countGrid (fun x => ! x.isOpened) m.cells
              + (if (! (stm.setIsOpened true).isOpened) then 1 else 0) := hc
          have h2o : (stm.setIsOpened true).isOpened = true := rfl
          rw [hop, h2o] at hc2
          simp at hc2
          show countGrid (fun x => ! x.isOpened)
            (m.updateCell r c fun s => s.setIsOpened true).cells + 1
            = countGrid (fun x => ! x.isOpened) m.cells
          omega
        by_cases hz : stm.adjacentMines = 0
        · rw [if_pos hz]
          have hz0 : (b0.stateAt r c).adjacentMines = 0 := by
            have h1 := hev0.stateAt_adjacentMines r c
            rw [← h1]
            show (m.stateAt r c).adjacentMines = 0
            unfold Board.stateAt
            rw [hstm]
            exact hz
          have hB := ih.2 { (m.updateCell r c fun s => s.setIsOpened true) with
            openedCells := m.openedCells + 1 } r c now hmidb1 hreach hz0 hopenedB1
          have hfin := mid_wonFlag b0 row col _ hs0 hmc0 hB.1
          refine ⟨hfin.1, (hevb1.trans hB.2.1).trans hfin.2.1, ?_⟩
          intro hf
          have hfb1 : countUnopened { (m.updateCell r c fun s => s.setIsOpened true) with
              openedCells := m.openedCells + 1 } < fuel := by
            omega
          have hrest := hB.2.2 hfb1
          constructor
          · intro stt hst
            obtain ⟨s2, hs2, hso⟩ := hopenedB1.mono hB.2.1
            refine ⟨s2, ?_, hso⟩
            rw [hfin.2.2 r c]
            exact hs2
          · intro S hS
            have hSb2 := hrest.2 S (hsatb1 S hS)
            intro r2 c2 hns hop2 hun2 hz2 d hd hok
            obtain ⟨s2, hs2, hso2⟩ := hop2
            rw [hfin.2.2 r2 c2] at hs2
            by_cases he : ((r2, c2) : Int × Int) = (r, c)
            · have he1 : r2 = r := congrArg Prod.fst he
              have he2 : c2 = c := congrArg Prod.snd he
              subst he1
              subst he2
              obtain ⟨s3, hs3, hso3⟩ := hrest.1 d hd hok
              refine ⟨s3, ?_, hso3⟩
              rw [hfin.2.2]
              exact hs3
            · obtain ⟨s3, hs3, hso3⟩ :=
                hSb2 r2 c2 (fun hor => hor.elim he hns) ⟨s2, hs2, hso2⟩ hun2 hz2 d hd hok
              refine ⟨s3, ?_, hso3⟩
              rw [hfin.2.2]
              exact hs3
        · rw [if_neg hz]
          have hfin := mid_wonFlag b0 row col _ hs0 hmc0 hmidb1
          refine ⟨hfin.1, hevb1.trans hfin.2.1, ?_⟩
          intro _
          constructor
          · intro stt hst
            obtain ⟨s2, hs2, hso⟩ := hopenedB1
            refine ⟨s2, ?_, hso⟩
            rw [hfin.2.2 r c]
            exact hs2
          · intro S hS
            intro r2 c2 hns hop2 hun2 hz2 d hd hok
            obtain ⟨s2, hs2, hso2⟩ := hop2
            rw [hfin.2.2 r2 c2] at hs2
            by_cases he : r2 = r ∧ c2 = c
            · exfalso
              apply hz
              have h1 := hev0.stateAt_adjacentMines r c
              rw [he.1, he.2] at hz2
              have h2 : (m.stateAt r c).adjacentMines = 0 := by
                rw [h1]
                exact hz2
              unfold Board.stateAt at h2
              rw [hstm] at h2
              exact h2
            · rw [hb1ne r2 c2 he] at hs2
              obtain ⟨s3, hs3, hso3⟩ :=
                (hS r2 c2 hns ⟨s2, hs2, hso2⟩ hun2 hz2 d hd hok).mono hevb1
              refine ⟨s3, ?_, hso3⟩
              rw [hfin.2.2]
              exact hs3
    refine ⟨hA, ?_⟩
    intro m r c now hmid hreach hz0 hopm
    obtain ⟨hev0, hover, hinv, hwonsync, hnewreach⟩ := hmid
    have hshapem : m.WfShape := wfShape_of_evolves hev0 hs0
    obtain ⟨stm, hstm, hsom⟩ := hopm
    have hinm : m.inB r c = true := inB_of_getCellState_some m hshapem hstm
    have hbnd := (inB_iff m r c).1 hinm
    rw [openAdjacentCells_eq]
    rw [if_neg (not_not_intro ⟨hbnd.1, hbnd.2.1⟩),
      if_neg (not_not_intro ⟨hbnd.2.2.1, hbnd.2.2.2⟩)]
    have hfold : ∀ ds : List (Int × Int), (∀ d ∈ ds, d ∈ directions) →
        ∀ acc : Board, Mid b0 row col acc → m.Evolves acc →
        Mid b0 row col (ds.foldl (adjStep (fuel + 1) now r c) acc) ∧
        acc.Evolves (ds.foldl (adjStep (fuel + 1) now r c) acc) ∧
        (countUnopened m < fuel + 1 →
          (∀ d ∈ ds, okToOpen b0 (r + d.1) (c + d.2) →
            OpenedAt (ds.foldl (adjStep (fuel + 1) now r c) acc) (r + d.1) (c + d.2)) ∧
          (∀ S : Int × Int → Prop, SatX b0 acc (insertP (r, c) S) →
            SatX b0 (ds.foldl (adjStep (fuel + 1) now r c) acc) (insertP (r, c) S))) := by
      intro ds
      induction ds with
      | nil =>
        intro _ acc hmidacc _
        refine ⟨hmidacc, Board.Evolves.refl acc, ?_⟩
        intro _
        exact ⟨fun d hd => absurd hd (by simp), fun S hS => hS⟩
      | cons d ds ihd =>
        intro hds acc hmidacc hevacc
        have hstep : Mid b0 row col (adjStep (fuel + 1) now r c acc d) ∧
            acc.Evolves (adjStep (fuel + 1) now r c acc d) ∧
            (countUnopened m < fuel + 1 →
              (okToOpen b0 (r + d.1) (c + d.2) →
                OpenedAt (adjStep (fuel + 1) now r c acc d) (r + d.1) (c + d.2)) ∧
              (∀ S : Int × Int → Prop, SatX b0 acc (insertP (r, c) S) →
                SatX b0 (adjStep (fuel + 1) now r c acc d) (insertP (r, c) S))) := by
          unfold adjStep
          dsimp only
          by_cases hg1 : 0 ≤ r + d.1 ∧ r + d.1 < ((acc.rows : Nat) : Int)
          case neg =>
            rw [if_pos hg1]
            refine ⟨hmidacc, Board.Evolves.refl acc, ?_⟩
            intro _
            refine ⟨?_, fun S hS => hS⟩
            intro hok
            exfalso
            apply hg1
            have hb0 := (inB_iff b0 (r + d.1) (c + d.2)).1 hok.1
            refine ⟨hb0.1, ?_⟩
            rw [(hmidacc.1).1]
            exact hb0.2.1
          rw [if_neg (not_not_intro hg1)]
          by_cases hg2 : 0 ≤ c + d.2 ∧ c + d.2 < ((acc.cols : Nat) : Int)
          case neg =>
            rw [if_pos hg2]
            refine ⟨hmidacc, Board.Evolves.refl acc, ?_⟩
            intro _
            refine ⟨?_, fun S hS => hS⟩
            intro hok
            exfalso
            apply hg2
            have hb0 := (inB_iff b0 (r + d.1) (c + d.2)).1 hok.1
            refine ⟨hb0.2.2.1, ?_⟩
            rw [(hmidacc.1).2.1]
            exact hb0.2.2.2
          rw [if_neg (not_not_intro hg2)]
          cases hst2 : acc.getCellState (r + d.1) (c + d.2) with
          | none =>
            refine ⟨hmidacc, Board.Evolves.refl acc, ?_⟩
            intro _
            refine ⟨?_, fun S hS => hS⟩
            intro hok
            exfalso
            obtain ⟨hinb0, s0, hs0, hsop0, hsfl0, hsmn0⟩ := hok
            obtain ⟨s2, hs2, _⟩ := (hmidacc.1).getCellState_left _ _ hs0
            rw [hst2] at hs2
            exact absurd hs2 (by simp)
          | some st2 =>
            simp only []
            by_cases hof : (st2.isOpened || st2.isFlagged) = true
            · rw [if_pos hof]
              refine ⟨hmidacc, Board.Evolves.refl acc, ?_⟩
              intro _
              refine ⟨?_, fun S hS => hS⟩
              intro hok
              cases hq : st2.isOpened with
              | true => exact ⟨st2, hst2, hq⟩
              | false =>
                exfalso
                have hfl : st2.isFlagged = true := by
                  rw [hq] at hof
                  simpa using hof
                obtain ⟨hinb0, s0, hs0, hsop0, hsfl0, hsmn0⟩ := hok
                obtain ⟨s0', hs0', hRel⟩ := (hmidacc.1).getCellState_right _ _ hst2
                rw [hs0] at hs0'
                have hse : s0 = s0' := Option.some.inj hs0'
                rw [hRel.2.1, ← hse, hsfl0] at hfl
                exact absurd hfl (by decide)
            · rw [if_neg hof]
              have ho2 : st2.isOpened = false := by
                cases hq : st2.isOpened with
                | false => rfl
                | true =>
                  exfalso
                  apply hof
                  rw [hq, Bool.true_or]
              have hf2 : st2.isFlagged = false := by
                cases hq : st2.isFlagged with
                | false => rfl
                | true =>
                  exfalso
                  apply hof
                  rw [hq, Bool.or_true]
              by_cases hmn2 : st2.isMine = true
              · rw [if_pos hmn2]
                refine ⟨hmidacc, Board.Evolves.refl acc, ?_⟩
                intro _
                refine ⟨?_, fun S hS => hS⟩
                intro hok
                exfalso
                obtain ⟨hinb0, s0, hs0, hsop0, hsfl0, hsmn0⟩ := hok
                obtain ⟨s0', hs0', hRel⟩ := (hmidacc.1).getCellState_right _ _ hst2
                rw [hs0] at hs0'
                have hse : s0 = s0' := Option.some.inj hs0'
                rw [hRel.1, ← hse, hsmn0] at hmn2
                exact absurd hmn2 (by decide)
              · rw [if_neg hmn2]
                rw [Bool.not_eq_true] at hmn2
                have hinbacc : acc.inB (r + d.1) (c + d.2) = true := by
                  rw [inB_iff]
                  exact ⟨hg1.1, hg1.2, hg2.1, hg2.2⟩
                have hinb0 : b0.inB (r + d.1) (c + d.2) = true := by
                  rw [← (hmidacc.1).inB_eq (r + d.1) (c + d.2)]
                  exact hinbacc
                have hok0 : okToOpen b0 (r + d.1) (c + d.2) := by
                  obtain ⟨s0', hs0', hRel⟩ := (hmidacc.1).getCellState_right _ _ hst2
                  refine ⟨hinb0, s0', hs0', ?_, ?_, ?_⟩
                  · cases hq : s0'.isOpened with
                    | false => rfl
                    | true =>
                      have h3 := hRel.2.2.2.2 hq
                      rw [ho2] at h3
                      exact absurd h3 (by decide)
                  · rw [← hRel.2.1]
                    exact hf2
                  · rw [← hRel.1]
                    exact hmn2
                have hreach2 : Reach b0 row col (r + d.1) (c + d.2) :=
                  Reach.step d hreach hz0 (hds d (List.mem_cons_self d ds)) rfl rfl hok0
                have hnm2 : ∀ stt, acc.getCellState (r + d.1) (c + d.2) = some stt →
                    stt.isMine = false := by
                  intro stt hstt
                  rw [hst2] at hstt
                  rw [← Option.some.inj hstt]
                  exact hmn2
                have hAcall := hA acc (r + d.1) (c + d.2) now hmidacc hreach2 hnm2
                refine ⟨hAcall.1, hAcall.2.1, ?_⟩
                intro hf
                have hfacc : countUnopened acc < fuel + 1 := by
                  have := countUnopened_le_of_evolves hevacc
                  omega
                have hcondA := hAcall.2.2 hfacc
                refine ⟨?_, ?_⟩
                · intro _
                  obtain ⟨st3, hst3, hso3⟩ := hcondA.1 st2 hst2
                  exact ⟨st3, hst3, hso3⟩
                · intro S hS
                  exact hcondA.2 (insertP (r, c) S) hS
        obtain ⟨hm1, he1, hc1⟩ := hstep
        have hrec := ihd (fun e he => hds e (List.mem_cons_of_mem d he))
          (adjStep (fuel + 1) now r c acc d) hm1 (hevacc.trans he1)
        refine ⟨hrec.1, he1.trans hrec.2.1, ?_⟩
        intro hf
        obtain ⟨hopens, hsat⟩ := hrec.2.2 hf
        obtain ⟨hds1, hsat1⟩ := hc1 hf
        constructor
        · intro e he hok
          rcases List.mem_cons.1 he with h1 | h2
          · subst h1
            exact ((hds1 hok).mono hrec.2.1 : _)
          · exact hopens e h2 hok
        · intro S hS
          exact hsat S (hsat1 S hS)
    exact hfold directions (fun e he => he) m
      ⟨hev0, hover, hinv, hwonsync, hnewreach⟩ (Board.Evolves.refl m)


instance (b : Board) : Decidable b.MinesWfE :=
  decidable_of_iff
    (∀ p ∈ b.minesList,
      ((b.getCellState p.1 p.2).map (fun st => st.isMine)).getD false = true)
    (by
      constructor
      · intro h p hp
        have h2 := h p hp
        cases ho : b.getCellState p.1 p.2 with
        | none =>
          rw [ho] at h2
          exact absurd h2 (by decide)
        | some stx =>
          rw [ho] at h2
          exact ⟨stx, rfl, h2⟩
      · intro h p hp
        obtain ⟨stx, hstx, hm⟩ := h p hp
        rw [hstx]
        exact hm)

instance (b : Board) : Decidable (Inv4 b) := by
  unfold Inv4
  infer_instance

/-- C3: on an active, well-formed board, `openCell` at an unopened,
unflagged-or-not, non-mine, zero-adjacency cell opens exactly the connected
region `Reach` described by the spec: a cell ends opened iff it was already
opened or lies in the region; region cells other than the clicked one are
never flagged and never mines (so the fill opens no flagged cell and no
mine); the opened counter stays in sync with the set of opened non-mine
cells (no cell is counted twice), the game is not lost, and the flag
counter is untouched. -/
theorem C3_flood_fill_exact (b : Board) (row col : Int) (now : Nat) (st : CellState)
    (hshape : b.WfShape) (hinv : Inv4 b) (hmc : b.countMines = b.mines)
    (hover : b.isGameOver = false) (hwon : b.isGameWon = false)
    (hin : b.inB row col = true)
    (hst : b.getCellState row col = some st) (hop : st.isOpened = false)
    (hmine : st.isMine = false) (hz : st.adjacentMines = 0) :
    ∃ b', b.openCell row col now = JsOutcome.ok b' ∧
      (∀ r c : Int, (b'.stateAt r c).isOpened = true ↔
        ((b.stateAt r c).isOpened = true ∨ Reach b row col r c)) ∧
      (∀ r c : Int, Reach b row col r c → ¬ (r = row ∧ c = col) →
        (b.stateAt r c).isFlagged = false ∧ (b.stateAt r c).isMine = false) ∧
      b'.openedCells = b'.countOpenedNonMine ∧
      b'.isGameOver = false ∧ b'.flags = b.flags := by
  have hmid0 : Mid b row col b := by
    refine ⟨Board.Evolves.refl b, hover, hinv, ?_, ?_⟩
    · intro hw
      exact absurd hw (by simp [hwon])
    · intro r2 c2 hop2 hun2
      exfalso
      obtain ⟨s2, hs2, hso2⟩ := hop2
      have h3 := hun2 s2 hs2
      rw [h3] at hso2
      exact absurd hso2 (by decide)
  have hnm0 : ∀ stt, b.getCellState row col = some stt → stt.isMine = false := by
    intro stt hstt
    rw [hst] at hstt
    rw [← Option.some.inj hstt]
    exact hmine
  have hfuel : countUnopened b < b.rows * b.cols + 1 := countUnopened_lt_fuel_top b hshape
  obtain ⟨hmidf, hevf, hcondf⟩ :=
    (flood_main b row col hshape hmc (b.rows * b.cols + 1)).1
      b row col now hmid0 Reach.base hnm0
  obtain ⟨hopenedf, hsatf⟩ := hcondf hfuel
  have hsat2 : SatX b (openCellGo (b.rows * b.cols + 1) b row col now)
      (fun _ => False) := by
    refine hsatf (fun _ => False) ?_
    intro r2 c2 _ hop2 hun2 _ d hd hok
    exfalso
    obtain ⟨s2, hs2, hso2⟩ := hop2
    have h3 := hun2 s2 hs2
    rw [h3] at hso2
    exact absurd hso2 (by decide)
  have hreachUn : ∀ r2 c2 : Int, Reach b row col r2 c2 → UnopenedAt0 b r2 c2 := by
    intro r2 c2 hr
    cases hr with
    | base =>
      intro s2 hs2
      rw [hst] at hs2
      rw [← Option.some.inj hs2]
      exact hop
    | step d hpred hz2 hd hre hce hok =>
      intro s2 hs2
      obtain ⟨hin2, s3, hs3, hso3, hfl3, hmn3⟩ := hok
      rw [hs3] at hs2
      rw [← Option.some.inj hs2]
      exact hso3
  have hreg : ∀ r2 c2 : Int, Reach b row col r2 c2 →
      OpenedAt (openCellGo (b.rows * b.cols + 1) b row col now) r2 c2 := by
    intro r2 c2 hr
    induction hr with
    | base => exact hopenedf st hst
    | @step r3 c3 r4 c4 d hpred hz2 hd hre hce hok ih =>
      subst hre
      subst hce
      exact hsat2 r3 c3 (fun hfalse => hfalse) ih (hreachUn r3 c3 hpred) hz2 d hd hok
  refine ⟨openCellGo (b.rows * b.cols + 1) b row col now,
    openCell_eq_go b row col now hover hwon hin, ?_, ?_, hmidf.2.2.1.1, hmidf.2.1,
    hevf.2.2.2.1⟩
  · intro r2 c2
    constructor
    · intro hopb'
      unfold Board.stateAt at hopb'
      cases hs2 : (openCellGo (b.rows * b.cols + 1) b row col now).getCellState r2 c2 with
      | none =>
        rw [hs2] at hopb'
        exact absurd hopb' (by decide)
      | some s2 =>
        rw [hs2] at hopb'
        by_cases hopb : (b.stateAt r2 c2).isOpened = true
        · exact Or.inl hopb
        · refine Or.inr (hmidf.2.2.2.2 r2 c2 ⟨s2, hs2, hopb'⟩ ?_)
          intro s0 hs0
          unfold Board.stateAt at hopb
          rw [hs0] at hopb
          cases hq : s0.isOpened with
          | false => rfl
          | true =>
            exact absurd (show ((some s0).getD CellState.init).isOpened = true from hq) hopb
    · intro hOr
      cases hOr with
      | inl hopb => exact hevf.stateAt_opened_mono r2 c2 hopb
      | inr hr =>
        obtain ⟨s2, hs2, hso⟩ := hreg r2 c2 hr
        unfold Board.stateAt
        rw [hs2]
        exact hso
  · intro r2 c2 hr hnb
    cases hr with
    | base => exact absurd ⟨rfl, rfl⟩ hnb
    | step d hpred hz2 hd hre hce hok =>
      obtain ⟨hin2, s3, hs3, hso3, hfl3, hmn3⟩ := hok
      unfold Board.stateAt
      rw [hs3]
      exact ⟨hfl3, hmn3⟩

set_option maxRecDepth 8192 in
/-- C3 witness: the spec's Scenario B board — 3×3 with the single mine at
`(2,2)` and all other adjacency counts known — clicked at `(0,0)`. -/
theorem C3_flood_fill_exact_witness :
    started33.WfShape ∧ Inv4 started33 ∧
    started33.countMines = started33.mines ∧
    (started33.stateAt 0 0).adjacentMines = 0 ∧
    (∃ b', started33.openCell 0 0 9 = JsOutcome.ok b' ∧
      (∀ r c : Int, (b'.stateAt r c).isOpened = true ↔
        ((started33.stateAt r c).isOpened = true ∨ Reach started33 0 0 r c)) ∧
      (∀ r c : Int, Reach started33 0 0 r c → ¬ (r = 0 ∧ c = 0) →
        (started33.stateAt r c).isFlagged = false ∧
        (started33.stateAt r c).isMine = false) ∧
      b'.openedCells = b'.countOpenedNonMine ∧
      b'.isGameOver = false ∧ b'.flags = started33.flags) :=
  ⟨by decide, by decide, by decide, by decide,
   C3_flood_fill_exact started33 0 0 9 (started33.stateAt 0 0) (by decide) (by decide)
     (by decide) (by decide) (by decide) (by decide) (by decide) (by decide) (by decide)
     (by decide)⟩

end Minesweeper
